import Mathlib

/-!
# APRIL-ANN: the shared weight matrix (Connections) and the bias component

A shallow embedding of `packages/ann/ann_base/c_src/connection.cc` and
`packages/ann/ann_base/c_src/bias_component.cc`, of the softmax and the binary
sampling activation functions of
`packages/ann/activation_function/c_src/activation_function.cc`, and of the loss
functions of `packages/ann/loss_functions/c_src`.

Conventions of the embedding

* `float` values are elements of a linear ordered field `α` (exact arithmetic);
  `sqrtf` of the C library is a parameter of the functions that call it.
* `unsigned int` sizes, counters and indices are natural numbers; where the
  arithmetic of the code can wrap on its inputs, in the `min_size` computation
  (which also has a signed cast) and in the positions of `loadWeights` and
  `copyWeightsTo`, it is modelled on 32-bit words.
* A pointer is `none`/`null` or an address or value; a member the constructor
  does not initialise may also hold a wild pointer. `IncRef` and `DecRef` on a
  weight matrix count its holders in the `Memory`, and the last holder to
  leave deletes it.
* A memory block (`FloatGPUMirroredMemoryBlock`, the raw data of a
  `MatrixFloat`) is the raw pointer the code indexes: a function from indices
  to values, read and written without bounds checks, as in the code.
* A fatal exit (`ERROR_EXIT`, a failed `assert`) is an `Except.error`.
* Mutating methods return the new state of the object.
-/

namespace ANN

/-! ## Part I: definitions -/

/-- The fatal outcomes of the embedded code. -/
inductive Failure where
  /-- `ERROR_EXIT2(24, "Incorrect matrix size, was %d, expected >= %d\n")`. -/
  | incorrectMatrixSize
  /-- `ERROR_EXIT(128, "Matrices need to be simple ...")`. -/
  | notSimple
  /-- A failed `assert(learning_rate > 0.0f && ...)`. -/
  | learningRateNotFixed
  /-- A method called through a null token pointer. -/
  | nullToken
  /-- `ERROR_EXIT(129, "Incorrect input Token type, expected token_mem_block!\n")`
  and its sibling for the error token. -/
  | incorrectTokenType
  /-- `ERROR_EXIT(141, "Impossible to compute input/output sizes for this component\n")`. -/
  | impossibleSizes
  /-- `ERROR_EXIT(142, "BiasANNComponent input/output sizes must be equal\n")`. -/
  | sizesNotEqual
  /-- `ERROR_EXIT2(256, "The weights matrix input/output sizes are not correct, ...")`. -/
  | incorrectWeightsSize
  /-- A failed `assert(fabs(dinf) > weightnearzero)` or
  `assert(fabs(dsup) > weightnearzero)`. -/
  | nearZeroBound
  /-- A fatal exit of the base class `ANNComponent`, which is not among the
  sources. -/
  | baseClass
  /-- `ERROR_EXIT(128, "A softmax activation function with use_cuda=true only
  could be used in one activation_units")`. -/
  | softmaxSizeChanged
  /-- `ERROR_EXIT(128, "Impossible to build ZERO size LossFunction\n")`. -/
  | zeroSizeLossFunction
  /-- `ERROR_EXIT(128, "Incorrect input token type, expected memory block\n")` and
  its siblings for the target token. -/
  | expectedMemoryBlock
  /-- `ERROR_EXIT(128, "Different token sizes found\n")`. -/
  | differentTokenSizes
  /-- `ERROR_EXIT(100, "Component not built, impossible execute copyWeights\n")`. -/
  | notBuilt
  /-- `ERROR_EXIT1(101, "Weights dictionary contains %s weights name which is not
  shared with bias_vector attribute\n", ...)`. -/
  | weightsNotShared
  /-- No exit of the code: `DecRef` through a pointer member that was never
  initialised and does not hold null, which has no defined behaviour. -/
  | wildPointer
  /-- No exit of the code: a call on a `Connections` object that the `DecRef` of
  its last holder has deleted, which has no defined behaviour. -/
  | deletedMatrix
  /-- No exit of the code: a call through a null `MatrixFloat` pointer, which has
  no defined behaviour. -/
  | nullMatrix
  deriving DecidableEq, Repr

/-- The loop `for (unsigned int i = 0; i < n; ++i) s = body(i, s);`. -/
def forLoop {σ : Type} (n : Nat) (body : Nat → σ → σ) (s : σ) : σ :=
  match n with
  | 0 => s
  | m + 1 => body m (forLoop m body s)

/-- The store `p[k] = v` through a raw pointer `p`. -/
def store {α : Type} (p : Nat → α) (k : Nat) (v : α) : Nat → α :=
  fun q => if q = k then v else p q

/-- The class `Connections` (connection.h): the two buffers, the sizes, and
the two counters of the update barrier. -/
@[ext]
structure Connections (α : Type) where
  weights : Nat → α
  prev_weights : Nat → α
  total_size : Nat
  num_inputs : Nat
  num_outputs : Nat
  num_references : Nat
  update_weights_calls : Nat

namespace Connections

variable {α : Type}

/-- The constructor `Connections::Connections(num_inputs, num_outputs)`. The two
blocks are allocated and not initialised: `w0` and `p0` stand for whatever
they hold. `total_size(num_inputs*num_outputs)` is a product of 32-bit
`unsigned int`; it is taken here as the exact product, which is what the code
computes when `num_inputs * num_outputs < 2 ^ 32`. -/
def new (num_inputs num_outputs : Nat) (w0 p0 : Nat → α) : Connections α :=
  { weights := w0
    prev_weights := p0
    total_size := num_inputs * num_outputs
    num_inputs := num_inputs
    num_outputs := num_outputs
    num_references := 0
    update_weights_calls := 0 }

/-- The method `Connections::checkInputOutputSizes`. -/
def checkInputOutputSizes (c : Connections α) (input_size output_size : Nat) : Bool :=
  if c.num_inputs ≠ input_size then false
  else if c.num_outputs ≠ output_size then false
  else true

/-- The method `Connections::countReference`: `++num_references`. -/
def countReference (c : Connections α) : Connections α :=
  { c with num_references := c.num_references + 1 }

/-- The method `Connections::getNumReferences`. -/
def getNumReferences (c : Connections α) : Nat :=
  c.num_references

/-- The method `Connections::beginUpdate`: `++update_weights_calls`. -/
def beginUpdate (c : Connections α) : Connections α :=
  { c with update_weights_calls := c.update_weights_calls + 1 }

/-- The method `Connections::endUpdate`: on the last call of the cycle the two
buffer pointers are swapped and the call counter is reset. Returns the value
the method returns and the new state. -/
def endUpdate (c : Connections α) : Bool × Connections α :=
  if c.update_weights_calls = c.num_references then
    (true, { c with weights := c.prev_weights
                    prev_weights := c.weights
                    update_weights_calls := 0 })
  else
    (false, c)

/-- The method `Connections::isFirstUpdateCall`. -/
def isFirstUpdateCall (c : Connections α) : Bool :=
  c.update_weights_calls == 1

/-- The method `Connections::size`. -/
def size (c : Connections α) : Nat :=
  c.total_size

/-- The method `Connections::getPtr`. -/
def getPtr (c : Connections α) : Nat → α :=
  c.weights

/-- The method `Connections::getPrevPtr`. -/
def getPrevPtr (c : Connections α) : Nat → α :=
  c.prev_weights

/-- One update step of a referencing component as far as the counters go:
`beginUpdate()` followed by `endUpdate()`. -/
def updateStep (c : Connections α) : Bool × Connections α :=
  endUpdate (beginUpdate c)

/-- Runs `n` update steps one after another; returns the values returned by the
`n` calls of `endUpdate`, in order, and the final state. -/
def runSteps : Nat → Connections α → List Bool × Connections α
  | 0, c => ([], c)
  | n + 1, c =>
    let r := runSteps n c
    let s := updateStep r.2
    (r.1 ++ [s.1], s.2)

end Connections

/-! ### The numeric backend (wrapper.h) -/

section Backend

variable {α : Type}

/-- Modelled from the spec: `doSaxpy` of wrapper.h, which is not among the
sources; the spec's numeric backend lists it as the scaled-vector-add whose
call shape (count, scale, offset, stride) the core fixes. For `i < N`,
`y[y_shift + i*y_inc] = alpha * x[x_shift + i*x_inc] + y[y_shift + i*y_inc]`;
the host and the accelerator implementation compute the same. -/
def doSaxpy [Add α] [Mul α] (N : Nat) (alpha : α) (x : Nat → α) (x_shift x_inc : Nat)
    (y : Nat → α) (y_shift y_inc : Nat) (_use_cuda : Bool) : Nat → α :=
  forLoop N (fun i y =>
    store y (y_shift + i * y_inc)
      (alpha * x (x_shift + i * x_inc) + y (y_shift + i * y_inc))) y

/-- Modelled from the spec: `doSscal` of wrapper.h (not among the sources), the
scale-in-place of the numeric backend: for `i < N`,
`x[shift + i*inc] = alpha * x[shift + i*inc]`. -/
def doSscal [Mul α] (N : Nat) (alpha : α) (x : Nat → α) (shift inc : Nat)
    (_use_cuda : Bool) : Nat → α :=
  forLoop N (fun i x => store x (shift + i * inc) (alpha * x (shift + i * inc))) x

/-- Modelled from the spec: `doScopy` of wrapper.h (not among the sources), the
copy of the numeric backend: for `i < N`,
`y[y_shift + i*y_inc] = x[x_shift + i*x_inc]`. -/
def doScopy (N : Nat) (x : Nat → α) (x_shift x_inc : Nat)
    (y : Nat → α) (y_shift y_inc : Nat) (_use_cuda : Bool) : Nat → α :=
  forLoop N (fun i y => store y (y_shift + i * y_inc) (x (x_shift + i * x_inc))) y

/-- Modelled from the spec: `doSaxpyLoop` of wrapper.h (not among the sources),
the reduction over the bunch of the numeric backend: `times` scaled-vector-adds
into the same `y`, the `i`-th reading `x` from offset `i * stride`. With the
arguments of `BiasANNComponent::doUpdate` it is the spec's accumulation of
`alpha * Σ_bunch error` into the staging buffer, and the code's comment
`prev_bias[j] = prev_bias[j] + \sum_b norm_learn_rate * ERROR_INPUT[b,j]`. -/
def doSaxpyLoop [Add α] [Mul α] (N : Nat) (alpha : α) (x : Nat → α) (x_inc : Nat)
    (y : Nat → α) (y_inc : Nat) (times stride : Nat) (use_cuda : Bool) : Nat → α :=
  forLoop times (fun i y => doSaxpy N alpha x (i * stride) x_inc y 0 y_inc use_cuda) y

/-- Modelled from the spec: `doScopyLoop` of wrapper.h (not among the sources),
the copy of the numeric backend repeated over the bunch: `times` copies of `N`
elements, the `i`-th from offset `i * stride` of `x` to offset `i * stride` of
`y`. -/
def doScopyLoop (N : Nat) (x : Nat → α) (x_inc : Nat) (y : Nat → α) (y_inc : Nat)
    (times stride : Nat) (use_cuda : Bool) : Nat → α :=
  forLoop times (fun i y =>
    doScopy N x (i * stride) x_inc y (i * stride) y_inc use_cuda) y

/-- Modelled from the spec: `doVectorSetToZero` of wrapper.h (not among the
sources), the zeroing of the numeric backend with the call shape of its two
call sites (block, count, stride, offset, flag): for `i < v_size`,
`v[shift + i*inc] = 0`. -/
def doVectorSetToZero [Zero α] (v : Nat → α) (v_size inc shift : Nat)
    (_use_cuda : Bool) : Nat → α :=
  forLoop v_size (fun i v => store v (shift + i * inc) 0) v

end Backend

namespace Connections

variable {α : Type} [LinearOrderedField α]

/-- The method `Connections::computeMomentumOnPrevVector`: a saxpy with scale
`-1.0f` from `weights` into `prev_weights`, then a scaling of `prev_weights`
by `-momentum`. -/
def computeMomentumOnPrevVector (c : Connections α) (momentum : α) (use_cuda : Bool) :
    Connections α :=
  let c1 := { c with
    prev_weights := doSaxpy c.total_size (-1) c.weights 0 1 c.prev_weights 0 1 use_cuda }
  { c1 with
    prev_weights := doSscal c1.total_size (-momentum) c1.prev_weights 0 1 use_cuda }

/-- The method `Connections::computeWeightDecayOnPrevVector`: a saxpy with scale
`c_weight_decay` from `weights` into `prev_weights`. -/
def computeWeightDecayOnPrevVector (c : Connections α) (c_weight_decay : α)
    (use_cuda : Bool) : Connections α :=
  { c with
    prev_weights :=
      doSaxpy c.total_size c_weight_decay c.weights 0 1 c.prev_weights 0 1 use_cuda }

/-- The method `Connections::copyToPrevVector`. -/
def copyToPrevVector (c : Connections α) (use_cuda : Bool) : Connections α :=
  { c with prev_weights := doScopy c.total_size c.weights 0 1 c.prev_weights 0 1 use_cuda }

/-- The method `Connections::clone`: a new `Connections(num_inputs, num_outputs)`
(its two blocks hold `w0` and `p0` when allocated), then `total_size` elements
copied from each buffer into the buffer of the new object; `cuda_flag` is
`weights->getCudaFlag()`. Returns the new object; the method writes nothing
else. -/
def clone (c : Connections α) (w0 p0 : Nat → α) (cuda_flag : Bool) : Connections α :=
  let conn := Connections.new c.num_inputs c.num_outputs w0 p0
  let conn := { conn with
    weights := doScopy c.total_size c.weights 0 1 conn.weights 0 1 cuda_flag }
  { conn with
    prev_weights := doScopy c.total_size c.prev_weights 0 1 conn.prev_weights 0 1 cuda_flag }

end Connections

/-! ### Tokens and the bias component -/

/-- The class `TokenMemoryBlock` (token_memory_block.h, not among the sources)
as far as the bias component uses it: the memory block with its used and its
maximum size. In a bunch of `B` vectors, element `j` of vector `b` is at index
`j * B + b`. -/
structure TokenMemoryBlock (α : Type) where
  mem_block : Nat → α
  used_size : Nat
  max_size : Nat

/-- A `Token *`: a memory-block token (token code `token_mem_block`) or a token
of another kind, of which only the code matters here. A null pointer is the
`none` of `Option (Token α)`. -/
inductive Token (α : Type) where
  | memBlock (block : TokenMemoryBlock α)
  | other (code : Nat)

/-- The fields of `BiasANNComponent` (with those it inherits from
`ANNComponent`). The weight matrix `bias_vector` points to is shared with the
other components built on the same name: the field holds its address (`none`
for the null pointer), and the methods that use the matrix take and return its
state. The counts of `IncRef`/`DecRef` on the tokens are not modelled; those on
the weight matrices are kept in the `Memory`. -/
structure BiasANNComponent (α : Type) where
  name : String
  weights_name : String
  input_size : Nat
  output_size : Nat
  bunch_size : Nat
  use_cuda : Bool
  input : Option (TokenMemoryBlock α)
  output : TokenMemoryBlock α
  error : Option (TokenMemoryBlock α)
  bias_vector : Option Nat
  learning_rate : α
  momentum : α

/-- The `Connections` objects in memory, by address, and the next free address
(where `new Connections` puts its object); for each address the number of
holders that `IncRef` and `DecRef` count, and whether the object was deleted. -/
structure Memory (α : Type) where
  conn : Nat → Connections α
  next : Nat
  holders : Nat → Nat
  deleted : Nat → Bool

/-- Modelled from the spec: the macro `IncRef` (referenced.h is not among the
sources) on the `Connections` at address `a`; the spec has shared ownership by
counted references: one more holder. -/
def Memory.incRef {α : Type} (memory : Memory α) (a : Nat) : Memory α :=
  { memory with holders := store memory.holders a (memory.holders a + 1) }

/-- Modelled from the spec: the macro `DecRef` (referenced.h is not among the
sources) on the `Connections` at address `a`; the spec has the last holder
free the object: one holder less, and the object is deleted when none is
left. -/
def Memory.decRef {α : Type} (memory : Memory α) (a : Nat) : Memory α :=
  { memory with
    holders := store memory.holders a (memory.holders a - 1)
    deleted := store memory.deleted a (decide (memory.holders a ≤ 1)) }

/-- Modelled from the spec: `TokenMemoryBlock::resize` (token_memory_block.h is
not among the sources), which "resizes its output token to
`bunch_size × output_size`": the used size becomes `size`; a block too small is
replaced by a new one of that size, whose contents are `fresh`. -/
def TokenMemoryBlock.resize {α : Type} (t : TokenMemoryBlock α) (size : Nat)
    (fresh : Nat → α) : TokenMemoryBlock α :=
  if size > t.max_size then { mem_block := fresh, used_size := size, max_size := size }
  else { t with used_size := size }

/-- What one call of `BiasANNComponent::doUpdate` leaves: the state of the
shared weight matrix, and two observations of the run, `seeded` (the value of
`bias_vector->isFirstUpdateCall()`, that is whether the seeding block ran) and
`swapped` (the value returned by `bias_vector->endUpdate()`). -/
structure UpdateOutcome (α : Type) where
  bias_vector : Connections α
  seeded : Bool
  swapped : Bool

namespace BiasANNComponent

variable {α : Type} [LinearOrderedField α]

/-- The constructor `BiasANNComponent::BiasANNComponent(name, weights_name)`:
sizes 0, no input and no error token, an empty output token,
`learning_rate(-1.0f)`, `momentum(0.0f)`. `out0` stands for the contents of the
block of the new output token; `use_cuda` is the inherited flag. -/
def new (name weights_name : String) (use_cuda : Bool) (out0 : Nat → α) :
    BiasANNComponent α :=
  { name := name
    weights_name := weights_name
    input_size := 0
    output_size := 0
    bunch_size := 0
    use_cuda := use_cuda
    input := none
    output := { mem_block := out0, used_size := 0, max_size := 0 }
    error := none
    bias_vector := none
    learning_rate := -1
    momentum := 0 }

/-- The seeding block of `BiasANNComponent::doUpdate` (the `if` on
`isFirstUpdateCall`): momentum then weight decay with coefficient `1.0f` when
`momentum > 0.0f`, a copy of the weights otherwise. -/
def doUpdateSeed (comp : BiasANNComponent α) (bias_vector : Connections α) :
    Connections α :=
  if bias_vector.isFirstUpdateCall then
    if comp.momentum > 0 then
      (bias_vector.computeMomentumOnPrevVector comp.momentum
        comp.use_cuda).computeWeightDecayOnPrevVector 1 comp.use_cuda
    else bias_vector.copyToPrevVector comp.use_cuda
  else bias_vector

/-- The learning rule of `BiasANNComponent::doUpdate`: `norm_learn_rate` from the
number of references and the bunch size, then the `doSaxpyLoop` from the error
block into the block of `getPrevPtr()`. -/
def doUpdateAccumulate (sqrtf : α → α) (comp : BiasANNComponent α) (input_error : Nat → α)
    (bias_vector : Connections α) : Connections α :=
  let references := bias_vector.getNumReferences
  let norm_learn_rate :=
    -(1 / sqrtf ((references * comp.bunch_size : Nat) : α)) * comp.learning_rate
  { bias_vector with
    prev_weights :=
      doSaxpyLoop comp.output_size norm_learn_rate input_error comp.bunch_size
        bias_vector.getPrevPtr 1 comp.bunch_size 1 comp.use_cuda }

/-- The method `BiasANNComponent::doUpdate` on the weight matrix `bias_vector`
points to. The `assert` on the learning rate is the first thing to fail;
`error->getMemBlock()` needs a recorded error token. -/
def doUpdate (sqrtf : α → α) (comp : BiasANNComponent α) (bias_vector : Connections α) :
    Except Failure (UpdateOutcome α) :=
  if ¬ (comp.learning_rate > 0) then .error .learningRateNotFixed
  else
    let bv := bias_vector.beginUpdate
    match comp.error with
    | none => .error .nullToken
    | some error =>
      let input_error := error.mem_block
      let first := bv.isFirstUpdateCall
      let bv := doUpdateSeed comp bv
      let bv := doUpdateAccumulate sqrtf comp input_error bv
      let r := bv.endUpdate
      .ok { bias_vector := r.2, seeded := first, swapped := r.1 }

/-- The update step of a network: `doUpdate` of each component of the list in
turn, all of them on the same weight matrix. Returns the `seeded` observation of
each call, in order, and the final state of the matrix. -/
def updateCycle (sqrtf : α → α) :
    List (BiasANNComponent α) → Connections α → Except Failure (List Bool × Connections α)
  | [], bias_vector => .ok ([], bias_vector)
  | comp :: rest, bias_vector =>
    match doUpdate sqrtf comp bias_vector with
    | .error e => .error e
    | .ok r =>
      match updateCycle sqrtf rest r.bias_vector with
      | .error e => .error e
      | .ok s => .ok (r.seeded :: s.1, s.2)

/-- The method `BiasANNComponent::doForward` on the weight matrix `bias_vector`
points to (the `assert` says there is one). `fresh` is what a newly allocated
output block holds. Returns the output token and the new state of the
component; the input token and the weight matrix are only read. -/
def doForward (comp : BiasANNComponent α) (bias_vector : Connections α)
    (_input : Option (Token α)) (_during_training : Bool) (fresh : Nat → α) :
    Except Failure (TokenMemoryBlock α × BiasANNComponent α) :=
  match _input with
  | none => .error .incorrectTokenType
  | some (.other _) => .error .incorrectTokenType
  | some (.memBlock input) =>
    let bunch_size := input.used_size / comp.input_size
    let output := comp.output.resize (bunch_size * comp.output_size) fresh
    let input_ptr := input.mem_block
    let output_ptr := output.mem_block
    let bias_vector_ptr := bias_vector.getPtr
    let output_ptr := doScopyLoop comp.output_size input_ptr 1 output_ptr 1
      bunch_size bunch_size comp.use_cuda
    let output_ptr := doSaxpyLoop comp.output_size 1 bias_vector_ptr 1 output_ptr bunch_size
      bunch_size bunch_size comp.use_cuda
    let output := { output with mem_block := output_ptr }
    .ok (output, { comp with input := some input, bunch_size := bunch_size, output := output })

/-- The method `BiasANNComponent::reset`: `doVectorSetToZero` on the block of the
output token with count `getMaxSize()`, stride `0` and offset `0`, then the
input and the error token are released. -/
def reset (comp : BiasANNComponent α) : BiasANNComponent α :=
  { comp with
    output := { comp.output with
      mem_block := doVectorSetToZero comp.output.mem_block comp.output.max_size 0 0
        comp.use_cuda }
    input := none
    error := none }

/-- The method `BiasANNComponent::clone`: a new component on the same two names,
then the learning rate and the momentum are copied. `use_cuda` and `out0` are
what the constructor leaves in the flag and in the block of the output token.
Returns the new component; the method writes nothing else. -/
def clone (comp : BiasANNComponent α) (use_cuda : Bool) (out0 : Nat → α) :
    BiasANNComponent α :=
  let component : BiasANNComponent α := new comp.name comp.weights_name use_cuda out0
  let component := { component with learning_rate := comp.learning_rate }
  { component with momentum := comp.momentum }

/-- The method `BiasANNComponent::setOption`. The macro `mSetOption(key, var)` of
ann_component.h is not among the sources; modelled from the spec, which has the
accessors expose the two fields by string key: when `name` is the key, `var`
is assigned `value` and the method returns. Nothing follows the two macros. -/
def setOption (comp : BiasANNComponent α) (name : String) (value : α) :
    BiasANNComponent α :=
  if name = "learning_rate" then { comp with learning_rate := value }
  else if name = "momentum" then { comp with momentum := value }
  else comp

/-- The method `BiasANNComponent::hasOption` (`mHasOption(key)`, modelled from the
spec like `mSetOption`: returns true when `name` is the key), ending in
`return false`. -/
def hasOption (_comp : BiasANNComponent α) (name : String) : Bool :=
  if name = "learning_rate" then true
  else if name = "momentum" then true
  else false

/-- The method `BiasANNComponent::getOption` (`mGetOption(key, var)`, modelled
from the spec like `mSetOption`: returns `var` when `name` is the key), ending
in `return ANNComponent::getOption(name)`. The method of the base class, which
is not among the sources, is the parameter `baseGetOption`. -/
def getOption (baseGetOption : String → Except Failure α) (comp : BiasANNComponent α)
    (name : String) : Except Failure α :=
  if name = "learning_rate" then .ok comp.learning_rate
  else if name = "momentum" then .ok comp.momentum
  else baseGetOption name

/-- The statement `if (bias_vector != 0) DecRef(bias_vector);` of
`BiasANNComponent::build`: a component that is bound gives up its hold on its
matrix. -/
def releaseBound (comp : BiasANNComponent α) (memory : Memory α) : Memory α :=
  match comp.bias_vector with
  | some bias_vector => memory.decRef bias_vector
  | none => memory

/-- The method `BiasANNComponent::build`. `ANNComponent::build` is not among the
sources: it is the parameter `baseBuild`, which from the component, the two
sizes asked for and the dictionary of components either exits or gives the
resolved `input_size` and `output_size` and the new dictionary of components.
`weights_dict` maps a name to the address of its matrix (`none` when the name
is absent or maps to a null pointer); the dictionary holds the plain address
and is no holder of the matrix. `w0` and `p0` are what the blocks of a newly
allocated matrix hold. A matrix found in the dictionary after it was deleted
is used all the same by the code: the call ends there. Returns the component,
the memory and the two dictionaries as the method leaves them. -/
def build {D : Type} (baseBuild : BiasANNComponent α → Nat → Nat → D → Except Failure (Nat × Nat × D))
    (comp : BiasANNComponent α) (_input_size _output_size : Nat) (memory : Memory α)
    (weights_dict : String → Option Nat) (components_dict : D) (w0 p0 : Nat → α) :
    Except Failure (BiasANNComponent α × Memory α × (String → Option Nat) × D) :=
  match baseBuild comp _input_size _output_size components_dict with
  | .error e => .error e
  | .ok (input_size, output_size, components_dict) =>
    let comp := { comp with input_size := input_size, output_size := output_size }
    if input_size = 0 ∨ output_size = 0 then .error .impossibleSizes
    else if input_size ≠ output_size then .error .sizesNotEqual
    else
      let weights_input_size := 1
      let weights_output_size := output_size
      let memory := comp.releaseBound memory
      match weights_dict comp.weights_name with
      | some w =>
        if memory.deleted w then .error .deletedMatrix
        else
          let bias_vector := memory.conn w
          if !bias_vector.checkInputOutputSizes weights_input_size weights_output_size then
            .error .incorrectWeightsSize
          else
            .ok ({ comp with bias_vector := some w },
              ({ memory with
                conn := store memory.conn w bias_vector.countReference }).incRef w,
              weights_dict, components_dict)
      | none =>
        let w := memory.next
        let bias_vector := Connections.new weights_input_size weights_output_size w0 p0
        .ok ({ comp with bias_vector := some w },
          ({ conn := store memory.conn w bias_vector.countReference
             next := w + 1
             holders := store memory.holders w 0
             deleted := store memory.deleted w false } : Memory α).incRef w,
          fun key => if key = comp.weights_name then some w else weights_dict key,
          components_dict)

/-- The builds of a list of components one after another, each with its own two
sizes, on the same memory and dictionaries. Returns the built components, in
order, and the final memory and dictionaries. -/
def buildAll {D : Type}
    (baseBuild : BiasANNComponent α → Nat → Nat → D → Except Failure (Nat × Nat × D))
    (w0 p0 : Nat → α) :
    List (BiasANNComponent α × Nat × Nat) → Memory α → (String → Option Nat) → D →
      Except Failure (List (BiasANNComponent α) × Memory α × (String → Option Nat) × D)
  | [], memory, weights_dict, components_dict =>
    .ok ([], memory, weights_dict, components_dict)
  | (comp, i, o) :: rest, memory, weights_dict, components_dict =>
    match build baseBuild comp i o memory weights_dict components_dict w0 p0 with
    | .error e => .error e
    | .ok (built, memory, weights_dict, components_dict) =>
      match buildAll baseBuild w0 p0 rest memory weights_dict components_dict with
      | .error e => .error e
      | .ok (others, memory, weights_dict, components_dict) =>
        .ok (built :: others, memory, weights_dict, components_dict)

/-- Modelled from the spec: `ANNComponent::build` (ann_component.h is not among
the sources), of which the spec says that it binds the sizes: the resolved sizes
are the sizes asked for, and the dictionary of components (here without
content) is left as it is. -/
def baseBuildBind (_comp : BiasANNComponent α) (_input_size _output_size : Nat)
    (components_dict : Unit) : Except Failure (Nat × Nat × Unit) :=
  .ok (_input_size, _output_size, components_dict)

/-- The method `BiasANNComponent::copyWeights`. `weights_dict[weights_name]` is
the entry of the name (`none` when the name is absent or maps to a null
pointer). The method calls nothing on the matrix: the memory is given back as
it was. Returns the memory and the dictionary as the method leaves them. -/
def copyWeights (comp : BiasANNComponent α) (memory : Memory α)
    (weights_dict : String → Option Nat) :
    Except Failure (Memory α × (String → Option Nat)) :=
  match comp.bias_vector with
  | none => .error .notBuilt
  | some bias_vector =>
    match weights_dict comp.weights_name with
    | some w =>
      if w ≠ bias_vector then .error .weightsNotShared
      else .ok (memory, weights_dict)
    | none =>
      .ok (memory, fun key => if key = comp.weights_name then some bias_vector
        else weights_dict key)

/-- The method `build` called `n` times on one component, each time with the
same two sizes, on the same memory and dictionaries: each call is on the
component as the call before left it. -/
def buildTimes {D : Type}
    (baseBuild : BiasANNComponent α → Nat → Nat → D → Except Failure (Nat × Nat × D))
    (_input_size _output_size : Nat) (w0 p0 : Nat → α) :
    Nat → BiasANNComponent α → Memory α → (String → Option Nat) → D →
      Except Failure (BiasANNComponent α × Memory α × (String → Option Nat) × D)
  | 0, comp, memory, weights_dict, components_dict =>
    .ok (comp, memory, weights_dict, components_dict)
  | n + 1, comp, memory, weights_dict, components_dict =>
    match build baseBuild comp _input_size _output_size memory weights_dict components_dict
        w0 p0 with
    | .error e => .error e
    | .ok (comp, memory, weights_dict, components_dict) =>
      buildTimes baseBuild _input_size _output_size w0 p0 n comp memory weights_dict
        components_dict

/-- What the learning rule of `doUpdate` adds to element `j` of the staging
buffer of a matrix with `references` references, in closed form: the normalised
learning rate times the sum over the bunch of the recorded error of unit `j`
(nothing beyond `output_size`, nothing without a recorded error). The theorems
about whole update cycles are stated with it. -/
def stagedGradient (sqrtf : α → α) (comp : BiasANNComponent α) (references j : Nat) : α :=
  match comp.error with
  | none => 0
  | some e =>
    if j < comp.output_size then
      (-comp.learning_rate / sqrtf ((references * comp.bunch_size : Nat) : α)) *
        ∑ b in Finset.range comp.bunch_size, e.mem_block (j * comp.bunch_size + b)
    else 0

end BiasANNComponent

/-- A square root on the rationals for evaluating the model: exact on the
squares of rationals (`floor` of the root of numerator and denominator
otherwise). -/
def ratSqrt (q : ℚ) : ℚ :=
  (Nat.sqrt q.num.toNat : ℚ) / (Nat.sqrt q.den : ℚ)

/-! ### Loading and storing the weights -/

/-- The class `MatrixFloat` (matrix.h, not among the sources) as far as
`loadWeights` and `copyWeightsTo` use it: the raw data behind
`getRawDataAccess()`, the value of `size()` and of `isSimple()`. -/
structure MatrixFloat (α : Type) where
  data : Nat → α
  size : Nat
  isSimple : Bool

/-- The conversion `static_cast<int>(x)` of a 32-bit `unsigned int`. -/
def toInt32 (x : Nat) : Int :=
  if x % 2 ^ 32 < 2 ^ 31 then ((x % 2 ^ 32 : Nat) : Int)
  else ((x % 2 ^ 32 : Nat) : Int) - 2 ^ 32

/-- The value `min_size` of `loadWeights` and `copyWeightsTo`:
`total_size + max(0, static_cast<int>(column_size - num_inputs) - 1) * num_outputs
+ first_weight_pos`, the difference and the sum in 32-bit unsigned arithmetic. -/
def minSize (total_size num_inputs num_outputs first_weight_pos column_size : Nat) : Nat :=
  let diff : Nat := (column_size % 2 ^ 32 + 2 ^ 32 - num_inputs % 2 ^ 32) % 2 ^ 32
  let gap : Int := max 0 (toInt32 diff - 1)
  (total_size + gap.toNat * num_outputs + first_weight_pos) % 2 ^ 32

/-- The variables of the loops of `loadWeights` and `copyWeightsTo`: the two
blocks written (`w` and `prev_w`, or `data_ptr` and `old_data_ptr`) and a
position (`k` in the inner loop, `current_w_pos` in the outer one), an
`unsigned int` of 32 bits. -/
structure LoopState (α : Type) where
  first : Nat → α
  second : Nat → α
  pos : Nat

namespace Connections

variable {α : Type}

/-- The inner loop of `loadWeights` for output `j`: `k` starts at `j`, and for
each input `i`, `w[k] = d[current_w_pos+i]`, `prev_w[k] = old_d[current_w_pos+i]`,
`k += num_outputs`, the sums in 32-bit unsigned arithmetic. -/
def loadWeightsRow (num_inputs num_outputs : Nat) (d old_d : Nat → α)
    (current_w_pos j : Nat) (w prev_w : Nat → α) : LoopState α :=
  forLoop num_inputs (fun i s =>
    { first := store s.first s.pos (d ((current_w_pos + i) % 2 ^ 32))
      second := store s.second s.pos (old_d ((current_w_pos + i) % 2 ^ 32))
      pos := (s.pos + num_outputs) % 2 ^ 32 })
    { first := w, second := prev_w, pos := j }

/-- The outer loop of `loadWeights`: one row for each output `j`, then
`current_w_pos += column_size` in 32-bit unsigned arithmetic; `current_w_pos`
starts at the 32-bit value of `first_weight_pos`. -/
def loadWeightsLoop (num_inputs num_outputs : Nat) (d old_d : Nat → α)
    (first_weight_pos column_size : Nat) (w prev_w : Nat → α) : LoopState α :=
  forLoop num_outputs (fun j s =>
    let row := loadWeightsRow num_inputs num_outputs d old_d s.pos j s.first s.second
    { first := row.first, second := row.second, pos := (s.pos + column_size) % 2 ^ 32 })
    { first := w, second := prev_w, pos := first_weight_pos % 2 ^ 32 }

/-- The method `Connections::loadWeights`. A null `old_data` is `none`, and it
is then `data`, as it is when the caller gives `data` twice. The
matrices are the raw data the code indexes: an index that is not below the
size of the matrix is read all the same, as by the code, whose only test is
that of `min_size` against the size of `data`. Returns the value the method
returns (`current_w_pos` after the loop) and the new state. -/
def loadWeights (c : Connections α) (data : MatrixFloat α) (old_data : Option (MatrixFloat α))
    (first_weight_pos column_size : Nat) : Except Failure (Nat × Connections α) :=
  let min_size := minSize c.total_size c.num_inputs c.num_outputs first_weight_pos column_size
  if min_size > data.size then .error .incorrectMatrixSize
  else
    let old_data := old_data.getD data
    if !data.isSimple || !old_data.isSimple then .error .notSimple
    else
      let s := loadWeightsLoop c.num_inputs c.num_outputs data.data old_data.data
        first_weight_pos column_size c.weights c.prev_weights
      .ok (s.pos, { c with weights := s.first, prev_weights := s.second })

/-- The inner loop of `copyWeightsTo` for output `j`: `k` starts at `j`, and for
each input `i`, `data_ptr[current_w_pos+i] = w[k]`,
`old_data_ptr[current_w_pos+i] = prev_w[k]`, `k += num_outputs`, the sums in
32-bit unsigned arithmetic. -/
def copyWeightsToRow (num_inputs num_outputs : Nat) (w prev_w : Nat → α)
    (current_w_pos j : Nat) (data_ptr old_data_ptr : Nat → α) : LoopState α :=
  forLoop num_inputs (fun i s =>
    { first := store s.first ((current_w_pos + i) % 2 ^ 32) (w s.pos)
      second := store s.second ((current_w_pos + i) % 2 ^ 32) (prev_w s.pos)
      pos := (s.pos + num_outputs) % 2 ^ 32 })
    { first := data_ptr, second := old_data_ptr, pos := j }

/-- The outer loop of `copyWeightsTo`. -/
def copyWeightsToLoop (num_inputs num_outputs : Nat) (w prev_w : Nat → α)
    (first_weight_pos column_size : Nat) (data_ptr old_data_ptr : Nat → α) : LoopState α :=
  forLoop num_outputs (fun j s =>
    let row := copyWeightsToRow num_inputs num_outputs w prev_w s.pos j s.first s.second
    { first := row.first, second := row.second, pos := (s.pos + column_size) % 2 ^ 32 })
    { first := data_ptr, second := old_data_ptr, pos := first_weight_pos % 2 ^ 32 }

/-- The inner loop of `copyWeightsTo` for output `j` when `old_data` is the
pointer `data` itself, so that `data_ptr` and `old_data_ptr` are one block:
`data_ptr[current_w_pos+i] = w[k]`, then `old_data_ptr[current_w_pos+i] =
prev_w[k]` into the same block. Both fields of the state hold that block. -/
def copyWeightsToRowSame (num_inputs num_outputs : Nat) (w prev_w : Nat → α)
    (current_w_pos j : Nat) (data_ptr : Nat → α) : LoopState α :=
  forLoop num_inputs (fun i s =>
    let block := store (store s.first ((current_w_pos + i) % 2 ^ 32) (w s.pos))
      ((current_w_pos + i) % 2 ^ 32) (prev_w s.pos)
    { first := block, second := block, pos := (s.pos + num_outputs) % 2 ^ 32 })
    { first := data_ptr, second := data_ptr, pos := j }

/-- The outer loop of `copyWeightsTo` when `old_data` is the pointer `data`
itself. -/
def copyWeightsToLoopSame (num_inputs num_outputs : Nat) (w prev_w : Nat → α)
    (first_weight_pos column_size : Nat) (data_ptr : Nat → α) : LoopState α :=
  forLoop num_outputs (fun j s =>
    let row := copyWeightsToRowSame num_inputs num_outputs w prev_w s.pos j s.first
    { first := row.first, second := row.second, pos := (s.pos + column_size) % 2 ^ 32 })
    { first := data_ptr, second := data_ptr, pos := first_weight_pos % 2 ^ 32 }

/-- The argument `old_data` of `copyWeightsTo`: a null pointer, the pointer
`data` itself, or a pointer to another matrix. -/
inductive OldDataPointer (α : Type) where
  | null
  | same
  | other (old_data : MatrixFloat α)

/-- The method `Connections::copyWeightsTo`. The method has no test for a null
`old_data` and calls `old_data->isSimple()` once `data` is found simple. When
`old_data` is `data` itself the two stores of each step go to the one block,
and the matrix is returned in both places. Returns the value the method
returns and the two matrices as the method leaves them. The matrices are the
raw data the code indexes: an index that is not below the size of the matrix
is written all the same, as by the code. -/
def copyWeightsTo (c : Connections α) (data : MatrixFloat α)
    (old_data : OldDataPointer α) (first_weight_pos column_size : Nat) :
    Except Failure (Nat × MatrixFloat α × MatrixFloat α) :=
  let min_size := minSize c.total_size c.num_inputs c.num_outputs first_weight_pos column_size
  if min_size > data.size then .error .incorrectMatrixSize
  else if !data.isSimple then .error .notSimple
  else
    match old_data with
    | .null => .error .nullMatrix
    | .same =>
      let s := copyWeightsToLoopSame c.num_inputs c.num_outputs c.weights c.prev_weights
        first_weight_pos column_size data.data
      .ok (s.pos, { data with data := s.first }, { data with data := s.second })
    | .other old_data =>
      if !old_data.isSimple then .error .notSimple
      else
        let s := copyWeightsToLoop c.num_inputs c.num_outputs c.weights c.prev_weights
          first_weight_pos column_size data.data old_data.data
        .ok (s.pos, { data with data := s.first }, { old_data with data := s.second })

end Connections

/-! ### Random weights -/

/-- The loop `for (unsigned int i = 0; i < n; ++i) s = body(i, s);` whose body
may fail to give a next state. -/
def forLoopM {σ : Type} (n : Nat) (body : Nat → σ → Option σ) (s : σ) : Option σ :=
  match n with
  | 0 => some s
  | m + 1 => (forLoopM m body s).bind (body m)

/-- The variables of the loops of `randomizeWeights`: the two blocks `w` and
`prev_w`, the position `k`, and the number of draws the generator has given. -/
structure RandomLoopState (α : Type) where
  first : Nat → α
  second : Nat → α
  pos : Nat
  drawn : Nat

namespace Connections

variable {α : Type} [LinearOrderedField α]

/-- The constant `Connections::weightnearzero = 1e-7`. -/
def weightnearzero : α := 1 / 10 ^ 7

/-- Modelled from the spec: the macro `rnd_weight(rnd, value, dinf, range,
weightnearzero)` and the generator `MTRand`, neither among the sources. The
spec has the weights filled uniformly in the interval excluding the near-zero
band, never giving a value within it across repeated draws, from a generator
of uniform draws. The generator is the sequence `rnd` of the uniform draws of
`[0, 1]` it gives, `drawn` of them given so far; a value is
`rnd drawn * range + dinf`, drawn again while it is strictly inside
`(-weightnearzero, weightnearzero)`. `fuel` bounds the number of draws of one
call: `none` when all of them fall in the band. Returns the value and the new
number of draws. -/
def rnd_weight (fuel : Nat) (rnd : Nat → α) (drawn : Nat) (dinf range nearzero : α) :
    Option (α × Nat) :=
  match fuel with
  | 0 => none
  | f + 1 =>
    let value := rnd drawn * range + dinf
    if value > -nearzero ∧ value < nearzero then
      rnd_weight f rnd (drawn + 1) dinf range nearzero
    else some (value, drawn + 1)

/-- The inner loop of `randomizeWeights` for output `j`: `k` starts at `j`, and
for each input, `rnd_weight(rnd, w[k], ...)`, `prev_w[k] = w[k]`,
`k += num_outputs`. -/
def randomizeWeightsRow (fuel num_inputs num_outputs : Nat) (rnd : Nat → α)
    (dinf range : α) (j : Nat) (w prev_w : Nat → α) (drawn : Nat) :
    Option (RandomLoopState α) :=
  forLoopM num_inputs (fun _ s =>
    match rnd_weight fuel rnd s.drawn dinf range weightnearzero with
    | none => none
    | some (value, drawn) =>
      some { first := store s.first s.pos value
             second := store s.second s.pos value
             pos := s.pos + num_outputs
             drawn := drawn })
    { first := w, second := prev_w, pos := j, drawn := drawn }

/-- The method `Connections::randomizeWeights`. The two `assert`s exit; `none` is
a run in which some call of `rnd_weight` used up its `fuel` draws. Returns the
new state and the number of draws the generator has given. -/
def randomizeWeights (fuel : Nat) (c : Connections α) (rnd : Nat → α) (drawn : Nat)
    (low high : α) : Except Failure (Option (Connections α × Nat)) :=
  let dinf := low
  let dsup := high
  if ¬ (|dinf| > weightnearzero) then .error .nearZeroBound
  else if ¬ (|dsup| > weightnearzero) then .error .nearZeroBound
  else
    let range := dsup - dinf
    match forLoopM c.num_outputs (fun j s =>
        randomizeWeightsRow fuel c.num_inputs c.num_outputs rnd dinf range j
          s.first s.second s.drawn)
        { first := c.weights, second := c.prev_weights, pos := 0, drawn := drawn } with
    | none => .ok none
    | some s => .ok (some ({ c with weights := s.first, prev_weights := s.second }, s.drawn))

end Connections

/-- The fields of `ANNConfiguration` (not among the sources) that the activation
functions read. -/
structure ANNConfiguration where
  cur_bunch_size : Nat
  max_bunch_size : Nat

/-- The fields of `SoftmaxActivationFunction`. Each of the three reduction
blocks is represented by the number of elements it was allocated with (`none`
for the null pointer): what they hold is scratch space of one accelerator
call. -/
structure SoftmaxActivationFunction where
  size : Nat
  minimums : Option Nat
  maximums : Option Nat
  sums : Option Nat
  deriving DecidableEq, Repr

namespace SoftmaxActivationFunction

/-- The constructor `SoftmaxActivationFunction::SoftmaxActivationFunction()`. -/
def new : SoftmaxActivationFunction :=
  { size := 0, minimums := none, maximums := none, sums := none }

/-- The method `SoftmaxActivationFunction::applyActivation`. `ceilingPowerOfTwo`
(ceiling_power_of_two.h) and the kernel `doApplySoftmaxActivation` (wrapper.h)
are not among the sources and are parameters; the kernel gives the new contents
of `units`. Returns the units and the new state of the object. -/
def applyActivation {α : Type} (ceilingPowerOfTwo : Nat → Nat)
    (doApplySoftmaxActivation :
      (Nat → α) → Option Nat → Option Nat → Option Nat → Nat → ANNConfiguration → Bool →
        (Nat → α))
    (self : SoftmaxActivationFunction) (units : Nat → α) (units_size : Nat)
    (conf : ANNConfiguration) (use_cuda : Bool) :
    Except Failure ((Nat → α) × SoftmaxActivationFunction) :=
  let run (self : SoftmaxActivationFunction) :
      Except Failure ((Nat → α) × SoftmaxActivationFunction) :=
    .ok (doApplySoftmaxActivation units self.minimums self.maximums self.sums units_size
      conf use_cuda, self)
  if use_cuda then
    if self.size = 0 then
      let reduction_size := ceilingPowerOfTwo units_size >>> 1
      run { size := units_size
            minimums := some (reduction_size * conf.max_bunch_size)
            maximums := some (reduction_size * conf.max_bunch_size)
            sums := some (reduction_size * conf.max_bunch_size) }
    else if self.size ≠ units_size then .error .softmaxSizeChanged
    else run self
  else run self

end SoftmaxActivationFunction

/-- The variables of the loops of `BinarySamplingActivationFunction`: the block
of the units, the offset `pos` of the pointer `units_ptr` in it, and the number
of draws the generator has given. -/
structure SamplingLoopState (α : Type) where
  units : Nat → α
  pos : Nat
  drawn : Nat
  /-- The indices of the block at which the loops have read or written an
  element so far, in order. -/
  accessed : List Nat

/-- What a call of `BinarySamplingActivationFunction::applyActivation` leaves:
the units, the number of draws the generator has given, whether the error
message was printed, and the indices of the units block the call has read or
written, in order. -/
structure SamplingOutcome (α : Type) where
  units : Nat → α
  drawn : Nat
  error_printed : Bool
  accessed : List Nat

namespace BinarySamplingActivationFunction

variable {α : Type} [LinearOrderedField α]

/-- The macro `sigmoid(numerator, value)` of activation_function.cc:
`(numerator) / (exp(-(value))+1.0f)`; `exp` of the C library is a parameter. -/
def sigmoid (exp : α → α) (numerator value : α) : α :=
  numerator / (exp (-value) + 1)

/-- Modelled from the spec: `StochasticActivationFunction::sampleOne`
(activation_function.h is not among the sources), the Bernoulli sample of the
spec, which consumes the attached generator: 1 when the next uniform draw is
below `prob`, 0 otherwise. The generator is the sequence `rnd` of its draws,
`drawn` of them given so far. Returns the sample and the new number of
draws. -/
def sampleOne (rnd : Nat → α) (drawn : Nat) (prob : α) : α × Nat :=
  (if rnd drawn < prob then 1 else 0, drawn + 1)

/-- The method `BinarySamplingActivationFunction::applyActivation`. `ERROR_PRINT`
prints its message and returns (it is followed by `return false` in
`Connections::checkInputOutputSizes`): the loops run after it. The pointer
`units_ptr` is the block with the offset `pos`, which the outer loop advances
by `max_bunch_size`; the read and the write of `units_ptr[i]` are at the index
`pos + i` of the block. -/
def applyActivation (exp : α → α) (rnd : Nat → α) (drawn : Nat) (units : Nat → α)
    (units_size : Nat) (conf : ANNConfiguration) (use_cuda : Bool) : SamplingOutcome α :=
  let error_printed := if use_cuda then true else false
  let s := forLoop units_size (fun i (s : SamplingLoopState α) =>
    let s := forLoop conf.cur_bunch_size (fun _ (s : SamplingLoopState α) =>
      let r := sampleOne rnd s.drawn (sigmoid exp 1 (s.units (s.pos + i)))
      { s with
        units := store s.units (s.pos + i) r.1
        drawn := r.2
        accessed := s.accessed ++ [s.pos + i] }) s
    { s with pos := s.pos + conf.max_bunch_size })
    { units := units, pos := 0, drawn := drawn, accessed := [] }
  { units := s.units, drawn := s.drawn, error_printed := error_printed, accessed := s.accessed }

/-- The method `BinarySamplingActivationFunction::randomize`: the loops of
`applyActivation` with the body `units_ptr[i] = the_rand->rand()`, one draw of
the generator written at the index `pos + i` of the block. -/
def randomize (rnd : Nat → α) (drawn : Nat) (units : Nat → α) (size : Nat)
    (conf : ANNConfiguration) (_use_cuda : Bool) : SamplingOutcome α :=
  let s := forLoop size (fun i (s : SamplingLoopState α) =>
    let s := forLoop conf.cur_bunch_size (fun _ (s : SamplingLoopState α) =>
      { s with
        units := store s.units (s.pos + i) (rnd s.drawn)
        drawn := s.drawn + 1
        accessed := s.accessed ++ [s.pos + i] }) s
    { s with pos := s.pos + conf.max_bunch_size })
    { units := units, pos := 0, drawn := drawn, accessed := [] }
  { units := s.units, drawn := s.drawn, error_printed := false, accessed := s.accessed }

end BinarySamplingActivationFunction

/-! ### Loss functions -/

/-- Modelled from the spec: the constructor `TokenMemoryBlock(size)`
(token_memory_block.h is not among the sources), a token holding `size` scalars:
a new block of `size` elements, whose contents are `fresh`, all of them in
use. -/
def TokenMemoryBlock.new {α : Type} (size : Nat) (fresh : Nat → α) : TokenMemoryBlock α :=
  { mem_block := fresh, used_size := size, max_size := size }

/-- The condition the loss functions put on a pair of tokens: both are
memory-block tokens and their used sizes are equal. -/
def Token.equalSizedBlocks {α : Type} : Token α → Token α → Bool
  | .memBlock input, .memBlock target => input.used_size == target.used_size
  | _, _ => false

/-- The fields of the abstract class `LossFunction` (loss_function.h). -/
structure LossFunction (α : Type) where
  error_output : Option (TokenMemoryBlock α)
  size : Nat

namespace LossFunction

variable {α : Type}

/-- The constructor `LossFunction::LossFunction(size)`. -/
def new (size : Nat) : Except Failure (LossFunction α) :=
  if size = 0 then .error .zeroSizeLossFunction
  else .ok { error_output := none, size := size }

/-- The method `LossFunction::reset`: the error token is released. -/
def reset (self : LossFunction α) : LossFunction α :=
  { self with error_output := none }

end LossFunction

/-- What the pointer member `input` of `MSELossFunction` holds. The constructor
does not initialise it: until a call assigns it, it holds what the memory of
the object held, the null pointer or a `wild` value that is not null and points
to no token. -/
inductive InputPointer (α : Type) where
  | wild
  | null
  | token (t : Token α)

/-- Whether the pointer is the `wild` one. -/
def InputPointer.isWild {α : Type} : InputPointer α → Bool
  | .wild => true
  | _ => false

/-- The fields of `MSELossFunction`. Its `error_output` is set by the constructor
to the token `error_mem_block` and no method of the class changes it: the one
field `error_mem_block` stands for both. -/
structure MSELossFunction (α : Type) where
  size : Nat
  accumulated_loss : α
  error_mem_block : TokenMemoryBlock α
  input : InputPointer α

namespace MSELossFunction

variable {α : Type} [LinearOrderedField α]

/-- The constructor `MSELossFunction::MSELossFunction(size)`; `fresh` is what the
block of the new error token holds. The member `input` is left as the memory
of the object was: null when that memory held zero (`zeroed`), wild
otherwise. -/
def new (size : Nat) (fresh : Nat → α) (zeroed : Bool) : Except Failure (MSELossFunction α) :=
  if size = 0 then .error .zeroSizeLossFunction
  else .ok { size := size, accumulated_loss := 0
             error_mem_block := TokenMemoryBlock.new size fresh
             input := if zeroed then .null else .wild }

/-- The method `MSELossFunction::addLoss`. The kernel `doMSELossFunction` of
wrapper.h is not among the sources and is a parameter; `cuda_flag` is
`input_mem_token->getCudaFlag()`. `if (input != 0) DecRef(input)` goes through
the member `input`: the call ends there when it is wild. The quotient by
`bunch_size` is that of the field; the code divides floats, and the two agree
for `bunch_size >= 1` only (a division by zero gives the code an infinity or a
NaN). Returns the loss and the new state; a fatal exit comes with the state of
the object at the exit. -/
def addLoss (doMSELossFunction : (Nat → α) → (Nat → α) → α → Nat → Nat → Bool → α)
    (self : MSELossFunction α) (_input target : Token α) (cuda_flag : Bool) :
    Except (Failure × MSELossFunction α) (α × MSELossFunction α) :=
  match _input, target with
  | .other _, _ => .error (.expectedMemoryBlock, self)
  | .memBlock _, .other _ => .error (.expectedMemoryBlock, self)
  | .memBlock input_mem_token, .memBlock target_mem_block =>
    if self.input.isWild then .error (.wildPointer, self)
    else
      let self := { self with input := .token _input }
      if input_mem_token.used_size ≠ target_mem_block.used_size then
        .error (.differentTokenSizes, self)
      else
        let bunch_size := input_mem_token.used_size / self.size
        let loss := doMSELossFunction input_mem_token.mem_block target_mem_block.mem_block
          0 self.size bunch_size cuda_flag
        let loss := loss * ((1 / 2) / (bunch_size : α))
        .ok (loss, { self with accumulated_loss := self.accumulated_loss + loss })

/-- The method `MSELossFunction::computeGrandient` (so spelled). The kernel
`doAccumulateMSEGradient` is a parameter that gives the new contents of the
error block; `fresh` is what a newly allocated error block holds. A wild
`input` differs from `_input` and from null, so that
`if (input != _input) { if (input != 0) DecRef(input); ... }` goes through it:
the call ends there. Returns the token `error_output` and the new state; a
fatal exit comes with the state of the object at the exit. -/
def computeGrandient
    (doAccumulateMSEGradient :
      (Nat → α) → (Nat → α) → (Nat → α) → α → Nat → Nat → Bool → (Nat → α))
    (self : MSELossFunction α) (_input target : Token α) (cuda_flag : Bool)
    (fresh : Nat → α) :
    Except (Failure × MSELossFunction α) (TokenMemoryBlock α × MSELossFunction α) :=
  match _input, target with
  | .other _, _ => .error (.expectedMemoryBlock, self)
  | .memBlock _, .other _ => .error (.expectedMemoryBlock, self)
  | .memBlock input_mem_token, .memBlock target_mem_block =>
    if self.input.isWild then .error (.wildPointer, self)
    else
      let self := { self with input := .token _input }
      if input_mem_token.used_size ≠ target_mem_block.used_size then
        .error (.differentTokenSizes, self)
      else
        let bunch_size := input_mem_token.used_size / self.size
        let error_mem_block := self.error_mem_block.resize bunch_size fresh
        let error_mem_block := { error_mem_block with
          mem_block := doAccumulateMSEGradient input_mem_token.mem_block
            target_mem_block.mem_block error_mem_block.mem_block 0 self.size bunch_size
            cuda_flag }
        .ok (error_mem_block, { self with error_mem_block := error_mem_block })

/-- The method `MSELossFunction::reset`; `cuda_flag` is
`error_mem_block->getCudaFlag()`. -/
def reset (self : MSELossFunction α) (cuda_flag : Bool) : MSELossFunction α :=
  { self with
    accumulated_loss := 0
    error_mem_block := { self.error_mem_block with
      mem_block := doVectorSetToZero self.error_mem_block.mem_block
        self.error_mem_block.max_size 1 0 cuda_flag } }

/-- The calls of `addLoss` on a list of pairs of an output and a target token,
one after another. Returns the losses the calls returned, in order, and the
final state. -/
def addLossAll (doMSELossFunction : (Nat → α) → (Nat → α) → α → Nat → Nat → Bool → α)
    (cuda_flag : Bool) :
    List (Token α × Token α) → MSELossFunction α →
      Except (Failure × MSELossFunction α) (List α × MSELossFunction α)
  | [], self => .ok ([], self)
  | (_input, target) :: rest, self =>
    match addLoss doMSELossFunction self _input target cuda_flag with
    | .error e => .error e
    | .ok (loss, self) =>
      match addLossAll doMSELossFunction cuda_flag rest self with
      | .error e => .error e
      | .ok (losses, self) => .ok (loss :: losses, self)

end MSELossFunction

/-- The fields of `MAELossFunction`, those of `LossFunction` among them. -/
structure MAELossFunction (α : Type) extends LossFunction α where
  accumulated_loss : α
  N : Nat

namespace MAELossFunction

variable {α : Type} [LinearOrderedField α]

/-- The constructor `MAELossFunction::MAELossFunction(size)`. -/
def new (size : Nat) : Except Failure (MAELossFunction α) :=
  match (LossFunction.new size : Except Failure (LossFunction α)) with
  | .error e => .error e
  | .ok base => .ok { toLossFunction := base, accumulated_loss := 0, N := 0 }

/-- The method `MAELossFunction::addLoss`. The kernel `doMAELossFunction` of
wrapper.h is not among the sources and is a parameter. The quotient by
`bunch_size` is that of the field; the code divides floats, and the two agree
for `bunch_size >= 1` only. Returns the loss and the new state; a fatal exit
comes with the state of the object at the exit. -/
def addLoss (doMAELossFunction : (Nat → α) → (Nat → α) → α → Nat → Nat → Bool → α)
    (self : MAELossFunction α) (input target : Token α) (cuda_flag : Bool) :
    Except (Failure × MAELossFunction α) (α × MAELossFunction α) :=
  match input, target with
  | .other _, _ => .error (.expectedMemoryBlock, self)
  | .memBlock _, .other _ => .error (.expectedMemoryBlock, self)
  | .memBlock input_mem_token, .memBlock target_mem_block =>
    if input_mem_token.used_size ≠ target_mem_block.used_size then
      .error (.differentTokenSizes, self)
    else
      let bunch_size := input_mem_token.used_size / self.size
      let loss := doMAELossFunction input_mem_token.mem_block target_mem_block.mem_block
        0 self.size bunch_size cuda_flag
      let loss := loss / (bunch_size : α)
      .ok (loss, { self with accumulated_loss := self.accumulated_loss + loss, N := self.N + 1 })

/-- The method `MAELossFunction::computeGradient`. The kernel
`doComputeMAEGradient` and the constant `NEAR_ZERO` are not among the sources
and are parameters; `fresh` is what the block of the new error token holds.
Returns the token `error_output` and the new state; a fatal exit comes with the
state of the object at the exit. -/
def computeGradient
    (doComputeMAEGradient :
      (Nat → α) → (Nat → α) → (Nat → α) → α → Nat → Nat → Bool → (Nat → α))
    (NEAR_ZERO : α) (self : MAELossFunction α) (input target : Token α) (cuda_flag : Bool)
    (fresh : Nat → α) :
    Except (Failure × MAELossFunction α) (TokenMemoryBlock α × MAELossFunction α) :=
  match input, target with
  | .other _, _ => .error (.expectedMemoryBlock, self)
  | .memBlock _, .other _ => .error (.expectedMemoryBlock, self)
  | .memBlock input_mem_token, .memBlock target_mem_block =>
    if input_mem_token.used_size ≠ target_mem_block.used_size then
      .error (.differentTokenSizes, self)
    else
      let bunch_size := input_mem_token.used_size / self.size
      let error_mem_block := TokenMemoryBlock.new input_mem_token.used_size fresh
      let error_mem_block := { error_mem_block with
        mem_block := doComputeMAEGradient input_mem_token.mem_block
          target_mem_block.mem_block error_mem_block.mem_block NEAR_ZERO self.size bunch_size
          cuda_flag }
      .ok (error_mem_block, { self with error_output := some error_mem_block })

/-- The method `MAELossFunction::reset`. -/
def reset (self : MAELossFunction α) : MAELossFunction α :=
  { self with
    toLossFunction := self.toLossFunction.reset
    accumulated_loss := 0
    N := 0 }

/-- The calls of `addLoss` on a list of pairs of an output and a target token,
one after another. Returns the losses the calls returned, in order, and the
final state. -/
def addLossAll (doMAELossFunction : (Nat → α) → (Nat → α) → α → Nat → Nat → Bool → α)
    (cuda_flag : Bool) :
    List (Token α × Token α) → MAELossFunction α →
      Except (Failure × MAELossFunction α) (List α × MAELossFunction α)
  | [], self => .ok ([], self)
  | (input, target) :: rest, self =>
    match addLoss doMAELossFunction self input target cuda_flag with
    | .error e => .error e
    | .ok (loss, self) =>
      match addLossAll doMAELossFunction cuda_flag rest self with
      | .error e => .error e
      | .ok (losses, self) => .ok (loss :: losses, self)

end MAELossFunction

/-! ### Worked examples -/

/-- The bias component of the spec's worked update: three units, bunch size 1,
recorded error `[0.1, 0.1, 0.1]`, learning rate `0.1`, momentum `0`. -/
def exampleBias : BiasANNComponent ℚ :=
  { BiasANNComponent.new "bias" "b1" false (fun _ => 0) with
    input_size := 3
    output_size := 3
    bunch_size := 1
    error := some { mem_block := fun _ => 1 / 10, used_size := 3, max_size := 3 }
    learning_rate := 1 / 10 }

/-- The weight matrix of the spec's worked update: a 1 x 3 matrix holding the
bias `[1, 2, 3]`, staging buffer `[7, 7, 7]`, referenced by one component. -/
def exampleBiasVector : Connections ℚ :=
  (Connections.new 1 3 (fun k => (k : ℚ) + 1) (fun _ => 7)).countReference

/-- A bias component of one unit with learning rate 1, momentum 0 and a recorded
error of bunch size 1 that is zero. -/
def exampleTiedA : BiasANNComponent ℚ :=
  { BiasANNComponent.new "a" "shared" false (fun _ => 0) with
    input_size := 1
    output_size := 1
    bunch_size := 1
    error := some { mem_block := fun _ => 0, used_size := 1, max_size := 1 }
    learning_rate := 1 }

/-- The same component as `exampleTiedA` under another name, with momentum
`1/2`. -/
def exampleTiedB : BiasANNComponent ℚ :=
  { exampleTiedA with name := "b", momentum := 1 / 2 }

/-- A 1 x 1 weight matrix holding the weight 1 and the staged value 0,
referenced by two components. -/
def exampleTiedVector : Connections ℚ :=
  ((Connections.new 1 1 (fun _ => 1) (fun _ => 0)).countReference).countReference

/-- A 2 x 2 weight matrix, both buffers zero. -/
def exampleConnections : Connections ℚ :=
  Connections.new 2 2 (fun _ => 0) (fun _ => 0)

/-- A simple dense matrix of 4 elements, element `q` being `q + 10`; the same
function gives what lies in memory after the matrix. -/
def exampleMatrix : MatrixFloat ℚ :=
  { data := fun q => (q : ℚ) + 10, size := 4, isSimple := true }

/-- A simple dense matrix of 4 elements, all of them zero. -/
def exampleTarget : MatrixFloat ℚ :=
  { data := fun _ => 0, size := 4, isSimple := true }

/-- A simple dense matrix of 6 elements, element `q` being `q + 10`. -/
def exampleMatrixSix : MatrixFloat ℚ :=
  { data := fun q => (q : ℚ) + 10, size := 6, isSimple := true }

/-- A simple dense matrix of 6 elements, all of them zero. -/
def exampleTargetSix : MatrixFloat ℚ :=
  { data := fun _ => 0, size := 6, isSimple := true }

/-- A bias component of three units as build leaves it, before any forward
step (the spec's worked forward example). -/
def exampleBuilt : BiasANNComponent ℚ :=
  { BiasANNComponent.new "bias" "b1" false (fun _ => 0) with
    input_size := 3
    output_size := 3
    bias_vector := some 0 }

/-- A memory without any matrix of interest: every address holds an empty
matrix without holders, and address 0 is the next free one. -/
def exampleMemory : Memory ℚ :=
  { conn := fun _ => Connections.new 0 0 (fun _ => 0) (fun _ => 0), next := 0
    holders := fun _ => 0, deleted := fun _ => false }

/-- A bias component of two units as build leaves it. -/
def exampleBuiltTwo : BiasANNComponent ℚ :=
  { BiasANNComponent.new "bias" "b2" false (fun _ => 0) with
    input_size := 2
    output_size := 2
    bias_vector := some 0 }

/-- A 1 x 2 weight matrix holding the bias `[1, 2]` (zero after it), referenced
by one component. -/
def exampleBiasTwo : Connections ℚ :=
  (Connections.new 1 2 (fun k => if k < 2 then (k : ℚ) + 1 else 0) (fun _ => 0)).countReference

/-- An input token of a bunch of two vectors of two units: `[10, 20, 30, 40]`,
unit 0 of the two vectors and then unit 1 of the two vectors. -/
def exampleInputTwo : TokenMemoryBlock ℚ :=
  { mem_block := fun k => 10 * ((k : ℚ) + 1), used_size := 4, max_size := 4 }

/-- A bias component of three units whose output token has room for three
elements and holds `[5, 6, 7]`. -/
def exampleForwarded : BiasANNComponent ℚ :=
  { exampleBuilt with
    output := { mem_block := fun k => (k : ℚ) + 5, used_size := 3, max_size := 3 } }

/-- A generator whose uniform draws alternate between `1/2` and `1/4`. -/
def exampleDraws : Nat → ℚ :=
  fun n => if n % 2 = 0 then 1 / 2 else 1 / 4

/-- The error token of three elements, each 1/10, that `exampleSingle` has
recorded. -/
def exampleSingleError : TokenMemoryBlock ℚ :=
  { mem_block := fun _ => 1 / 10, used_size := 3, max_size := 3 }

/-- A bias component of three units with learning rate 1/10 and momentum 1/2,
bunch size 1, and the recorded error `exampleSingleError`. -/
def exampleSingle : BiasANNComponent ℚ :=
  { BiasANNComponent.new "bias" "b1" false (fun _ => 0) with
    input_size := 3
    output_size := 3
    bunch_size := 1
    error := some exampleSingleError
    learning_rate := 1 / 10
    momentum := 1 / 2 }

/-- A stand-in for `ceilingPowerOfTwo` for evaluating the model: the least power
of two that is not below `n`. -/
def exampleCeilingPowerOfTwo (n : Nat) : Nat :=
  2 ^ Nat.clog 2 n

/-- A stand-in for the kernel `doApplySoftmaxActivation` for evaluating the
model: it leaves the units as they are. -/
def exampleSoftmaxKernel (units : Nat → ℚ) (_minimums _maximums _sums : Option Nat)
    (_units_size : Nat) (_conf : ANNConfiguration) (_use_cuda : Bool) : Nat → ℚ :=
  units

/-- A softmax activation function whose size was fixed to 3 by a call on the
accelerator path with maximum bunch size 2. -/
def exampleSoftmax : SoftmaxActivationFunction :=
  { size := 3, minimums := some 4, maximums := some 4, sums := some 4 }

/-- A stand-in for the kernel `doMSELossFunction` for evaluating the model: the
sum of the squares of the differences of the first `size * bunch_size`
elements. -/
def exampleMSEKernel (input target : Nat → ℚ) (_zero : ℚ) (size bunch_size : Nat)
    (_use_cuda : Bool) : ℚ :=
  ∑ k in Finset.range (size * bunch_size), (input k - target k) ^ 2

/-- A stand-in for the kernel `doMAELossFunction` for evaluating the model: the
sum of the absolute differences of the first `size * bunch_size` elements. -/
def exampleMAEKernel (input target : Nat → ℚ) (_zero : ℚ) (size bunch_size : Nat)
    (_use_cuda : Bool) : ℚ :=
  ∑ k in Finset.range (size * bunch_size), |input k - target k|

/-- An output token of four elements `[0, 1, 2, 3]`: a bunch of two vectors of
size two. -/
def exampleLossInput : TokenMemoryBlock ℚ :=
  { mem_block := fun k => (k : ℚ), used_size := 4, max_size := 4 }

/-- A target token of four elements, all of them zero. -/
def exampleLossTarget : TokenMemoryBlock ℚ :=
  { mem_block := fun _ => 0, used_size := 4, max_size := 4 }

/-- The MSE loss function of vector size 2 as its constructor leaves it when the
memory of the member `input` held zero: `input` is null. -/
def exampleMSE : MSELossFunction ℚ :=
  { size := 2, accumulated_loss := 0
    error_mem_block := TokenMemoryBlock.new 2 (fun _ => 0), input := .null }

/-- The MAE loss function of vector size 2 as its constructor leaves it. -/
def exampleMAE : MAELossFunction ℚ :=
  { error_output := none, size := 2, accumulated_loss := 0, N := 0 }
/-! ## Part II: theorems -/

namespace Connections

variable {α : Type}

theorem runSteps_lt (c : Connections α) (h0 : c.update_weights_calls = 0) (n : Nat)
    (hn : n < c.num_references) :
    runSteps n c = (List.replicate n false, { c with update_weights_calls := n }) := by
  induction n with
  | zero =>
    cases c
    simp_all [runSteps]
  | succ m ih =>
    have hm : m < c.num_references := by omega
    have hne : ¬ (m + 1 = c.num_references) := by omega
    simp [runSteps, ih hm, updateStep, beginUpdate, endUpdate, hne, List.replicate_succ']

theorem runSteps_eq (c : Connections α) (h0 : c.update_weights_calls = 0)
    (hK : 1 ≤ c.num_references) :
    runSteps c.num_references c =
      (List.replicate (c.num_references - 1) false ++ [true],
        { c with weights := c.prev_weights
                 prev_weights := c.weights
                 update_weights_calls := 0 }) := by
  obtain ⟨m, hm⟩ : ∃ m, c.num_references = m + 1 := ⟨c.num_references - 1, by omega⟩
  have hlt : m < c.num_references := by omega
  rw [hm]
  simp [runSteps, runSteps_lt c h0 m hlt, updateStep, beginUpdate, endUpdate, hm]

theorem updateStep_calls (c : Connections α) :
    (updateStep c).2.update_weights_calls =
      (if c.update_weights_calls + 1 = c.num_references then 0
       else c.update_weights_calls + 1) := by
  unfold updateStep endUpdate beginUpdate
  by_cases h : c.update_weights_calls + 1 = c.num_references <;> simp [h]

theorem updateStep_references (c : Connections α) :
    (updateStep c).2.num_references = c.num_references := by
  unfold updateStep endUpdate beginUpdate
  by_cases h : c.update_weights_calls + 1 = c.num_references <;> simp [h]

theorem runSteps_succ (n : Nat) (c : Connections α) :
    (runSteps (n + 1) c).2 = (updateStep (runSteps n c).2).2 := rfl

theorem runSteps_references (c : Connections α) (n : Nat) :
    (runSteps n c).2.num_references = c.num_references := by
  induction n with
  | zero => rfl
  | succ m ih => rw [runSteps_succ, updateStep_references, ih]

theorem runSteps_calls_lt (c : Connections α) (hK : 1 ≤ c.num_references)
    (h0 : c.update_weights_calls = 0) (n : Nat) :
    (runSteps n c).2.update_weights_calls < c.num_references := by
  induction n with
  | zero => simp only [runSteps]; omega
  | succ m ih =>
    rw [runSteps_succ, updateStep_calls, runSteps_references]
    split <;> omega

/-- Claim C1: on a Connections with reference count K >= 1 and no pending
update call, running beginUpdate/endUpdate pairs one after another, each of
the first K-1 calls of endUpdate returns false and the two buffers are as they
were; the K-th returns true, after it the two buffers are exchanged (swapped
exactly once: one `true` among the K returned values) and
update_weights_calls is 0 again. -/
theorem update_barrier_cycle (c : Connections α) (hK : 1 ≤ c.num_references)
    (h0 : c.update_weights_calls = 0) :
    (∀ n, n < c.num_references →
        (runSteps n c).1 = List.replicate n false ∧
        (runSteps n c).2.weights = c.weights ∧
        (runSteps n c).2.prev_weights = c.prev_weights) ∧
    (runSteps c.num_references c).1 =
        List.replicate (c.num_references - 1) false ++ [true] ∧
    (runSteps c.num_references c).2.weights = c.prev_weights ∧
    (runSteps c.num_references c).2.prev_weights = c.weights ∧
    (runSteps c.num_references c).2.update_weights_calls = 0 := by
  refine ⟨fun n hn => ?_, ?_, ?_, ?_, ?_⟩
  · rw [runSteps_lt c h0 n hn]
    exact ⟨rfl, rfl, rfl⟩
  all_goals rw [runSteps_eq c h0 hK]

/-- Witness of claim C1: a 1 x 3 matrix referenced by three components. -/
theorem update_barrier_cycle_witness :
    (runSteps 3 (countReference (countReference (countReference
        (new 1 3 (fun k => (k : ℚ)) (fun _ => 0)))))).1 = [false, false, true] := by
  have h := (update_barrier_cycle (countReference (countReference (countReference
        (new 1 3 (fun k => (k : ℚ)) (fun _ => 0))))) (by decide) rfl).2.1
  exact h

/-- Claim C2: endUpdate returns true exactly when update_weights_calls equals
num_references at the call; then the two buffers are exchanged and
update_weights_calls becomes 0 (sizes and reference count as before); when it
returns false the whole state, buffers and both counters, is unchanged. -/
theorem endUpdate_spec (c : Connections α) :
    ((endUpdate c).1 = true ↔ c.update_weights_calls = c.num_references) ∧
    ((endUpdate c).1 = true →
        (endUpdate c).2.weights = c.prev_weights ∧
        (endUpdate c).2.prev_weights = c.weights ∧
        (endUpdate c).2.update_weights_calls = 0 ∧
        (endUpdate c).2.num_references = c.num_references ∧
        (endUpdate c).2.total_size = c.total_size ∧
        (endUpdate c).2.num_inputs = c.num_inputs ∧
        (endUpdate c).2.num_outputs = c.num_outputs) ∧
    ((endUpdate c).1 = false → (endUpdate c).2 = c) := by
  unfold endUpdate
  by_cases h : c.update_weights_calls = c.num_references <;> simp [h]

/-- Counterexample to claim C3 as stated (any reference count): a freshly
constructed matrix has reference count 0, and after one update step its
update_weights_calls is 1, above the reference count. -/
theorem pending_calls_exceed_zero_references :
    (new 1 1 (fun _ => (0 : ℚ)) (fun _ => 0)).update_weights_calls = 0 ∧
    (new 1 1 (fun _ => (0 : ℚ)) (fun _ => 0)).num_references = 0 ∧
    (runSteps 1 (new 1 1 (fun _ => (0 : ℚ)) (fun _ => 0))).2.update_weights_calls = 1 ∧
    ¬ ((runSteps 1 (new 1 1 (fun _ => (0 : ℚ)) (fun _ => 0))).2.update_weights_calls ≤
        (runSteps 1 (new 1 1 (fun _ => (0 : ℚ)) (fun _ => 0))).2.num_references) := by
  refine ⟨rfl, rfl, ?_, ?_⟩ <;> decide

/-- Claim C3, amended: on a Connections with reference count at least 1 that
starts with update_weights_calls = 0, after every number n of update steps
(beginUpdate then endUpdate) update_weights_calls is at most the reference
count, the reference count is unchanged, and the step that follows resets
update_weights_calls to 0 exactly when beginUpdate makes it reach the
reference count. -/
theorem pending_calls_bounded (c : Connections α) (hK : 1 ≤ c.num_references)
    (h0 : c.update_weights_calls = 0) (n : Nat) :
    (runSteps n c).2.update_weights_calls ≤ (runSteps n c).2.num_references ∧
    (runSteps n c).2.num_references = c.num_references ∧
    ((runSteps (n + 1) c).2.update_weights_calls = 0 ↔
      (runSteps n c).2.update_weights_calls + 1 = c.num_references) := by
  have hlt := runSteps_calls_lt c hK h0 n
  have href := runSteps_references c n
  refine ⟨by omega, href, ?_⟩
  rw [runSteps_succ, updateStep_calls, href]
  split <;> simp_all

/-- Witness of claim C3 (amended): two references, five update steps. -/
theorem pending_calls_bounded_witness :
    (runSteps 5 (countReference (countReference
        (new 2 2 (fun _ => (0 : ℚ)) (fun _ => 1))))).2.update_weights_calls ≤
      (runSteps 5 (countReference (countReference
        (new 2 2 (fun _ => (0 : ℚ)) (fun _ => 1))))).2.num_references :=
  (pending_calls_bounded (countReference (countReference
        (new 2 2 (fun _ => (0 : ℚ)) (fun _ => 1)))) (by decide) rfl 5).1

end Connections

/-! ### The numeric backend on contiguous blocks -/

section BackendLemmas

variable {α : Type}

theorem forLoop_succ {σ : Type} (n : Nat) (body : Nat → σ → σ) (s : σ) :
    forLoop (n + 1) body s = body n (forLoop n body s) := rfl

theorem doSaxpy_apply [Add α] [Mul α] (N : Nat) (alpha : α) (x : Nat → α)
    (x_shift x_inc : Nat) (y : Nat → α) (u : Bool) (k : Nat) :
    doSaxpy N alpha x x_shift x_inc y 0 1 u k =
      if k < N then alpha * x (x_shift + k * x_inc) + y k else y k := by
  unfold doSaxpy
  induction N with
  | zero => simp [forLoop]
  | succ n ih =>
    rw [forLoop_succ]
    simp only [store, Nat.zero_add, Nat.mul_one]
    by_cases hk : k = n
    · subst hk
      simp only [Nat.zero_add, Nat.mul_one] at ih
      simp [ih]
    · simp only [Nat.zero_add, Nat.mul_one] at ih
      rw [if_neg hk, ih]
      by_cases hlt : k < n
      · have : k < n + 1 := by omega
        simp [hlt, this]
      · have : ¬ k < n + 1 := by omega
        simp [hlt, this]

theorem doSscal_apply [Mul α] (N : Nat) (alpha : α) (x : Nat → α) (u : Bool) (k : Nat) :
    doSscal N alpha x 0 1 u k = if k < N then alpha * x k else x k := by
  unfold doSscal
  induction N with
  | zero => simp [forLoop]
  | succ n ih =>
    rw [forLoop_succ]
    simp only [store, Nat.zero_add, Nat.mul_one]
    simp only [Nat.zero_add, Nat.mul_one] at ih
    by_cases hk : k = n
    · subst hk
      simp [ih]
    · rw [if_neg hk, ih]
      by_cases hlt : k < n
      · have : k < n + 1 := by omega
        simp [hlt, this]
      · have : ¬ k < n + 1 := by omega
        simp [hlt, this]

theorem doScopy_apply (N : Nat) (x y : Nat → α) (u : Bool) (k : Nat) :
    doScopy N x 0 1 y 0 1 u k = if k < N then x k else y k := by
  unfold doScopy
  induction N with
  | zero => simp [forLoop]
  | succ n ih =>
    rw [forLoop_succ]
    simp only [store, Nat.zero_add, Nat.mul_one]
    simp only [Nat.zero_add, Nat.mul_one] at ih
    by_cases hk : k = n
    · subst hk
      simp
    · rw [if_neg hk, ih]
      by_cases hlt : k < n
      · have : k < n + 1 := by omega
        simp [hlt, this]
      · have : ¬ k < n + 1 := by omega
        simp [hlt, this]

theorem doSaxpyLoop_apply [LinearOrderedField α] (N : Nat) (alpha : α) (x : Nat → α)
    (x_inc : Nat) (y : Nat → α) (times stride : Nat) (u : Bool) (k : Nat) :
    doSaxpyLoop N alpha x x_inc y 1 times stride u k =
      if k < N then
        y k + ∑ i in Finset.range times, alpha * x (i * stride + k * x_inc)
      else y k := by
  unfold doSaxpyLoop
  induction times with
  | zero => simp [forLoop]
  | succ n ih =>
    rw [forLoop_succ, doSaxpy_apply, ih]
    by_cases hk : k < N
    · simp only [hk, if_true, Finset.sum_range_succ]
      ring
    · simp [hk]

theorem copyToPrevVector_apply (bv : Connections α) (u : Bool) (i : Nat) :
    (bv.copyToPrevVector u).prev_weights i =
      if i < bv.total_size then bv.weights i else bv.prev_weights i := by
  simp only [Connections.copyToPrevVector, doScopy_apply]

end BackendLemmas

/-! ### The update of the bias component -/

namespace BiasANNComponent

variable {α : Type} [LinearOrderedField α]

theorem doUpdate_ok (sqrtf : α → α) (comp : BiasANNComponent α) (e : TokenMemoryBlock α)
    (bv : Connections α) (hlr : 0 < comp.learning_rate) (herr : comp.error = some e) :
    doUpdate sqrtf comp bv = .ok
      { bias_vector :=
          (doUpdateAccumulate sqrtf comp e.mem_block (doUpdateSeed comp bv.beginUpdate)).endUpdate.2
        seeded := bv.beginUpdate.isFirstUpdateCall
        swapped :=
          (doUpdateAccumulate sqrtf comp e.mem_block (doUpdateSeed comp bv.beginUpdate)).endUpdate.1 } := by
  unfold doUpdate
  simp [hlr, herr]

theorem momentum_then_decay (bv : Connections α) (m c : α) (u : Bool) (i : Nat) :
    ((bv.computeMomentumOnPrevVector m u).computeWeightDecayOnPrevVector c u).prev_weights i =
      if i < bv.total_size then -m * (bv.prev_weights i - bv.weights i) + c * bv.weights i
      else bv.prev_weights i := by
  simp only [Connections.computeMomentumOnPrevVector,
    Connections.computeWeightDecayOnPrevVector, doSaxpy_apply, doSscal_apply]
  by_cases h : i < bv.total_size
  · simp only [h, if_true, Nat.zero_add, Nat.mul_one]
    ring
  · simp [h]

theorem doUpdateSeed_frame (comp : BiasANNComponent α) (bv : Connections α) :
    (doUpdateSeed comp bv).weights = bv.weights ∧
    (doUpdateSeed comp bv).total_size = bv.total_size ∧
    (doUpdateSeed comp bv).num_inputs = bv.num_inputs ∧
    (doUpdateSeed comp bv).num_outputs = bv.num_outputs ∧
    (doUpdateSeed comp bv).num_references = bv.num_references ∧
    (doUpdateSeed comp bv).update_weights_calls = bv.update_weights_calls := by
  unfold doUpdateSeed
  split
  · split <;>
      simp [Connections.computeMomentumOnPrevVector,
        Connections.computeWeightDecayOnPrevVector, Connections.copyToPrevVector]
  · simp

/-- Claim C6: in the update of a bias component the staging buffer is seeded on
the first update call of a cycle, before the gradient is added (doUpdate runs
the seeding block on the state left by beginUpdate and the learning rule on
its result). With momentum > 0 every staging element i of the matrix becomes
-momentum * (staging[i] - weights[i]) + c * weights[i], where the weight-decay
coefficient c is 1 in the bias component; otherwise it becomes weights[i]. The
seeding does not modify the live weights, and on a call that is not the first
of its cycle the matrix is left as it is. -/
theorem seeding_rule (sqrtf : α → α) (comp : BiasANNComponent α) (bv : Connections α) :
    (∀ e, 0 < comp.learning_rate → comp.error = some e →
      ∃ r, doUpdate sqrtf comp bv = .ok r ∧
        r.seeded = bv.beginUpdate.isFirstUpdateCall ∧
        r.bias_vector =
          (doUpdateAccumulate sqrtf comp e.mem_block
            (doUpdateSeed comp bv.beginUpdate)).endUpdate.2) ∧
    (∀ (m c : α) (u : Bool) (i : Nat), i < bv.total_size →
      ((bv.computeMomentumOnPrevVector m u).computeWeightDecayOnPrevVector c u).prev_weights i =
        -m * (bv.prev_weights i - bv.weights i) + c * bv.weights i) ∧
    (bv.isFirstUpdateCall = true → 0 < comp.momentum → ∀ i, i < bv.total_size →
      (doUpdateSeed comp bv).prev_weights i =
        -comp.momentum * (bv.prev_weights i - bv.weights i) + 1 * bv.weights i) ∧
    (bv.isFirstUpdateCall = true → ¬ 0 < comp.momentum → ∀ i, i < bv.total_size →
      (doUpdateSeed comp bv).prev_weights i = bv.weights i) ∧
    (doUpdateSeed comp bv).weights = bv.weights ∧
    (bv.isFirstUpdateCall = false → doUpdateSeed comp bv = bv) := by
  refine ⟨fun e hlr herr => ⟨_, doUpdate_ok sqrtf comp e bv hlr herr, rfl, rfl⟩,
    fun m c u i hi => ?_, fun hf hm i hi => ?_, fun hf hm i hi => ?_,
    (doUpdateSeed_frame comp bv).1, fun hf => ?_⟩
  · rw [momentum_then_decay, if_pos hi]
  · unfold doUpdateSeed
    have hm2 : comp.momentum > 0 := hm
    rw [if_pos hf, if_pos hm2, momentum_then_decay, if_pos hi]
  · unfold doUpdateSeed
    have hm2 : ¬ comp.momentum > 0 := hm
    rw [if_pos hf, if_neg hm2, copyToPrevVector_apply, if_pos hi]
  · unfold doUpdateSeed
    simp [hf]

theorem doUpdateAccumulate_apply (sqrtf : α → α) (comp : BiasANNComponent α)
    (x : Nat → α) (bv : Connections α) (j : Nat) :
    (doUpdateAccumulate sqrtf comp x bv).prev_weights j =
      if j < comp.output_size then
        bv.prev_weights j +
          (-comp.learning_rate / sqrtf ((bv.num_references * comp.bunch_size : Nat) : α)) *
            ∑ b in Finset.range comp.bunch_size, x (j * comp.bunch_size + b)
      else bv.prev_weights j := by
  simp only [doUpdateAccumulate, Connections.getPrevPtr, Connections.getNumReferences,
    doSaxpyLoop_apply]
  by_cases h : j < comp.output_size
  · simp only [h, if_true, Nat.mul_one, ← Finset.mul_sum]
    congr 1
    have hs : ∀ b, x (b + j * comp.bunch_size) = x (j * comp.bunch_size + b) :=
      fun b => by rw [Nat.add_comm]
    simp only [hs]
    ring
  · simp [h]

/-- Claim C7: for a bias component with learning_rate > 0 and a recorded error of
bunch size B, on a weight matrix of reference count K, doUpdate succeeds and
its learning rule adds to every staging element j < output_size, on top of the
seeded value, exactly (-learning_rate / sqrt(K * B)) * (sum over b < B of
error[b, j]), element (b, j) of the error being at index j * B + b; the other
staging elements and the live weights are as the seeding left them, the live
weights being those before the call: nothing is added to them before the swap
of endUpdate. -/
theorem learning_rule_staging (sqrtf : α → α) (comp : BiasANNComponent α)
    (e : TokenMemoryBlock α) (bv : Connections α)
    (hlr : 0 < comp.learning_rate) (herr : comp.error = some e) :
    (∃ r, doUpdate sqrtf comp bv = .ok r ∧
      r.bias_vector =
        (doUpdateAccumulate sqrtf comp e.mem_block
          (doUpdateSeed comp bv.beginUpdate)).endUpdate.2) ∧
    (∀ j, j < comp.output_size →
      (doUpdateAccumulate sqrtf comp e.mem_block
          (doUpdateSeed comp bv.beginUpdate)).prev_weights j =
        (doUpdateSeed comp bv.beginUpdate).prev_weights j +
          (-comp.learning_rate / sqrtf ((bv.num_references * comp.bunch_size : Nat) : α)) *
            ∑ b in Finset.range comp.bunch_size, e.mem_block (j * comp.bunch_size + b)) ∧
    (∀ j, comp.output_size ≤ j →
      (doUpdateAccumulate sqrtf comp e.mem_block
          (doUpdateSeed comp bv.beginUpdate)).prev_weights j =
        (doUpdateSeed comp bv.beginUpdate).prev_weights j) ∧
    (doUpdateAccumulate sqrtf comp e.mem_block
        (doUpdateSeed comp bv.beginUpdate)).weights = bv.weights := by
  have hfr := doUpdateSeed_frame comp bv.beginUpdate
  refine ⟨⟨_, doUpdate_ok sqrtf comp e bv hlr herr, rfl⟩, fun j hj => ?_, fun j hj => ?_, ?_⟩
  · rw [doUpdateAccumulate_apply, if_pos hj, hfr.2.2.2.2.1]
    rfl
  · rw [doUpdateAccumulate_apply, if_neg (by omega)]
  · exact hfr.1

theorem ratSqrt_one : ratSqrt 1 = 1 := by
  simp [ratSqrt]

/-- Witness of claim C7, the spec's worked update: error [0.1, 0.1, 0.1],
learning rate 0.1, momentum 0, one reference, bunch size 1. The seeded staging
buffer is the bias [1, 2, 3], and the learning rule changes each staged bias by
-0.01. -/
theorem learning_rule_staging_witness :
    (doUpdateSeed exampleBias exampleBiasVector.beginUpdate).prev_weights 0 = 1 ∧
    (doUpdateSeed exampleBias exampleBiasVector.beginUpdate).prev_weights 1 = 2 ∧
    (doUpdateSeed exampleBias exampleBiasVector.beginUpdate).prev_weights 2 = 3 ∧
    (doUpdateAccumulate ratSqrt exampleBias (fun _ => 1 / 10)
      (doUpdateSeed exampleBias exampleBiasVector.beginUpdate)).prev_weights 0 = 1 - 1 / 100 ∧
    (doUpdateAccumulate ratSqrt exampleBias (fun _ => 1 / 10)
      (doUpdateSeed exampleBias exampleBiasVector.beginUpdate)).prev_weights 1 = 2 - 1 / 100 ∧
    (doUpdateAccumulate ratSqrt exampleBias (fun _ => 1 / 10)
      (doUpdateSeed exampleBias exampleBiasVector.beginUpdate)).prev_weights 2 = 3 - 1 / 100 := by
  have h := (learning_rule_staging ratSqrt exampleBias
    { mem_block := fun _ => 1 / 10, used_size := 3, max_size := 3 } exampleBiasVector
    (by norm_num [exampleBias]) rfl).2.1
  have hs : ∀ i, i < 3 →
      (doUpdateSeed exampleBias exampleBiasVector.beginUpdate).prev_weights i = (i : ℚ) + 1 := by
    intro i hi
    have hf : exampleBiasVector.beginUpdate.isFirstUpdateCall = true := by decide
    have hm : ¬ (exampleBias.momentum > 0) := by norm_num [exampleBias, new]
    unfold doUpdateSeed
    rw [if_pos hf, if_neg hm, copyToPrevVector_apply, if_pos (by exact hi)]
    rfl
  have h0 := h 0 (by decide)
  have h1 := h 1 (by decide)
  have h2 := h 2 (by decide)
  rw [hs 0 (by decide)] at h0
  rw [hs 1 (by decide)] at h1
  rw [hs 2 (by decide)] at h2
  have hk : ((exampleBiasVector.num_references * exampleBias.bunch_size : Nat) : ℚ) = 1 := by
    norm_num [exampleBias, exampleBiasVector, Connections.countReference, Connections.new]
  have hb : exampleBias.bunch_size = 1 := rfl
  have hl : exampleBias.learning_rate = 1 / 10 := rfl
  rw [hk, ratSqrt_one, hb, hl] at h0 h1 h2
  refine ⟨?_, ?_, ?_, ?_, ?_, ?_⟩
  · rw [hs 0 (by decide)]; norm_num
  · rw [hs 1 (by decide)]; norm_num
  · rw [hs 2 (by decide)]; norm_num
  · rw [h0]; norm_num
  · rw [h1]; norm_num
  · rw [h2]; norm_num

/-! ### Whole update cycles -/

theorem doUpdateAccumulate_eq (sqrtf : α → α) (comp : BiasANNComponent α)
    (e : TokenMemoryBlock α) (herr : comp.error = some e) (bv : Connections α) :
    doUpdateAccumulate sqrtf comp e.mem_block bv =
      { bv with
        prev_weights := fun j =>
          bv.prev_weights j + stagedGradient sqrtf comp bv.num_references j } := by
  apply Connections.ext <;> try rfl
  funext j
  rw [doUpdateAccumulate_apply]
  simp only [stagedGradient, herr]
  split <;> simp

theorem doUpdateSeed_later (comp : BiasANNComponent α) (bv : Connections α)
    (h1 : 1 ≤ bv.update_weights_calls) : doUpdateSeed comp bv.beginUpdate = bv.beginUpdate := by
  unfold doUpdateSeed
  have : bv.beginUpdate.isFirstUpdateCall = false := by
    simp only [Connections.isFirstUpdateCall, Connections.beginUpdate]
    simp
    omega
  simp [this]

theorem updateCycle_cons (sqrtf : α → α) (comp : BiasANNComponent α)
    (rest : List (BiasANNComponent α)) (bv : Connections α) (r : UpdateOutcome α)
    (h : doUpdate sqrtf comp bv = .ok r) :
    updateCycle sqrtf (comp :: rest) bv =
      match updateCycle sqrtf rest r.bias_vector with
      | .error e => .error e
      | .ok s => .ok (r.seeded :: s.1, s.2) := by
  rw [updateCycle, h]

theorem updateCycle_later (sqrtf : α → α) (rest : List (BiasANNComponent α)) :
    ∀ (s : Connections α), 1 ≤ s.update_weights_calls →
      s.update_weights_calls + rest.length ≤ s.num_references →
      (∀ c ∈ rest, 0 < c.learning_rate ∧ c.error.isSome = true) →
      updateCycle sqrtf rest s = .ok (List.replicate rest.length false,
        if 0 < rest.length ∧ s.update_weights_calls + rest.length = s.num_references then
          { s with
            weights := fun j => s.prev_weights j +
              (rest.map (fun c => stagedGradient sqrtf c s.num_references j)).sum
            prev_weights := s.weights
            update_weights_calls := 0 }
        else
          { s with
            prev_weights := fun j => s.prev_weights j +
              (rest.map (fun c => stagedGradient sqrtf c s.num_references j)).sum
            update_weights_calls := s.update_weights_calls + rest.length }) := by
  induction rest with
  | nil =>
    intro s _ _ _
    simp [updateCycle]
  | cons c cs ih =>
    intro s h1 hle hok
    obtain ⟨hlr, herr⟩ := hok c (List.mem_cons_self _ _)
    obtain ⟨e, he⟩ := Option.isSome_iff_exists.mp herr
    have hcs : ∀ c ∈ cs, 0 < c.learning_rate ∧ c.error.isSome = true :=
      fun c hc => hok c (List.mem_cons_of_mem _ hc)
    rw [updateCycle_cons sqrtf c cs s _ (doUpdate_ok sqrtf c e s hlr he)]
    simp only [doUpdateSeed_later c s h1, doUpdateAccumulate_eq sqrtf c e he]
    simp only [List.length_cons] at hle
    by_cases hend : s.update_weights_calls + 1 = s.num_references
    · have hnil : cs = [] := List.eq_nil_of_length_eq_zero (by omega)
      subst hnil
      simp [updateCycle, Connections.endUpdate, Connections.beginUpdate, hend,
        Connections.isFirstUpdateCall]
      omega
    · have hstep : (Connections.endUpdate
          { s.beginUpdate with
            prev_weights := fun j => s.beginUpdate.prev_weights j +
              stagedGradient sqrtf c s.beginUpdate.num_references j }).2 =
          { s with
            prev_weights := fun j => s.prev_weights j + stagedGradient sqrtf c s.num_references j
            update_weights_calls := s.update_weights_calls + 1 } := by
        simp [Connections.endUpdate, Connections.beginUpdate, hend]
      rw [hstep, ih _ (by simp) (by simpa using by omega) hcs]
      have hfirst : s.beginUpdate.isFirstUpdateCall = false := by
        simp only [Connections.isFirstUpdateCall, Connections.beginUpdate]
        simp
        omega
      simp only [hfirst, List.length_cons, List.replicate_succ, List.map_cons, List.sum_cons]
      by_cases hc : cs = []
      · subst hc
        simp [hend]
      · have hiff : (s.update_weights_calls + 1 + cs.length = s.num_references) ↔
            (s.update_weights_calls + (cs.length + 1) = s.num_references) := by omega
        have hcomm : 1 + cs.length = cs.length + 1 := Nat.add_comm _ _
        by_cases hfin : s.update_weights_calls + (cs.length + 1) = s.num_references
        · simp [hc, hcomm, hfin, hiff.mpr hfin, add_assoc]
        · simp [hc, hcomm, hfin, mt hiff.mp hfin, add_assoc]

theorem doUpdateSeed_eq (comp : BiasANNComponent α) (bv : Connections α) :
    doUpdateSeed comp bv = { bv with prev_weights := (doUpdateSeed comp bv).prev_weights } := by
  obtain ⟨h1, h2, h3, h4, h5, h6⟩ := doUpdateSeed_frame comp bv
  apply Connections.ext <;> simp [*]

theorem doUpdateSeed_congr (a b : BiasANNComponent α) (bv : Connections α)
    (h : a.momentum = b.momentum) : doUpdateSeed a bv = doUpdateSeed b bv := by
  simp [doUpdateSeed, h, Connections.computeMomentumOnPrevVector,
    Connections.computeWeightDecayOnPrevVector, Connections.copyToPrevVector, doSaxpy,
    doSscal, doScopy]

theorem updateCycle_full (sqrtf : α → α) (a : BiasANNComponent α)
    (rest : List (BiasANNComponent α)) (s : Connections α)
    (hK : s.num_references = rest.length + 1) (h0 : s.update_weights_calls = 0)
    (hok : ∀ c ∈ a :: rest, 0 < c.learning_rate ∧ c.error.isSome = true) :
    updateCycle sqrtf (a :: rest) s = .ok (true :: List.replicate rest.length false,
      { s with
        weights := fun j => (doUpdateSeed a s.beginUpdate).prev_weights j +
          ((a :: rest).map (fun c => stagedGradient sqrtf c s.num_references j)).sum
        prev_weights := s.weights
        update_weights_calls := 0 }) := by
  obtain ⟨hlr, herr⟩ := hok a (List.mem_cons_self _ _)
  obtain ⟨e, he⟩ := Option.isSome_iff_exists.mp herr
  have hrest : ∀ c ∈ rest, 0 < c.learning_rate ∧ c.error.isSome = true :=
    fun c hc => hok c (List.mem_cons_of_mem _ hc)
  rw [updateCycle_cons sqrtf a rest s _ (doUpdate_ok sqrtf a e s hlr he)]
  have hfirst : s.beginUpdate.isFirstUpdateCall = true := by
    simp [Connections.isFirstUpdateCall, Connections.beginUpdate, h0]
  simp only [hfirst, doUpdateAccumulate_eq sqrtf a e he]
  rw [doUpdateSeed_eq a s.beginUpdate]
  generalize (doUpdateSeed a s.beginUpdate).prev_weights = seeded
  by_cases hend : rest.length = 0
  · have hnil : rest = [] := List.eq_nil_of_length_eq_zero hend
    subst hnil
    simp [updateCycle, Connections.endUpdate, Connections.beginUpdate, h0, hK]
  · have hstep : (Connections.endUpdate
        { ({ s.beginUpdate with prev_weights := seeded } : Connections α) with
          prev_weights := fun j => seeded j + stagedGradient sqrtf a s.num_references j }).2 =
        { s with
          prev_weights := fun j => seeded j + stagedGradient sqrtf a s.num_references j
          update_weights_calls := 1 } := by
      have : ¬ (1 = rest.length + 1) := by omega
      simp [Connections.endUpdate, Connections.beginUpdate, h0, hK, this]
    have hstep2 : (Connections.endUpdate
        { ({ s.beginUpdate with prev_weights := seeded } : Connections α) with
          prev_weights := fun j =>
            ({ s.beginUpdate with prev_weights := seeded } : Connections α).prev_weights j +
              stagedGradient sqrtf a
                ({ s.beginUpdate with prev_weights := seeded } : Connections α).num_references j }).2 =
        { s with
          prev_weights := fun j => seeded j + stagedGradient sqrtf a s.num_references j
          update_weights_calls := 1 } := hstep
    rw [hstep2, updateCycle_later sqrtf rest _ (by simp) (by simp [hK]; omega) hrest]
    have hpos : 0 < rest.length := by omega
    have hcomm : 1 + rest.length = rest.length + 1 := Nat.add_comm _ _
    simp [hpos, hK, hcomm, add_assoc]

/-- Claim C4: when K >= 1 bias components (a first one and K-1 others) share one
weight matrix of reference count K and a cycle of K calls of doUpdate starts
with update_weights_calls = 0 (every component with its learning rate fixed
and a recorded error), the cycle succeeds, isFirstUpdateCall is true in the
first doUpdate of the cycle and false in each of the other K-1, and the seeding
of the staging buffer has run exactly once, in the first call and before any
gradient was added: the weights the cycle leaves are, at every index j of the
matrix, the seeded value (-momentum * (staging[j] - weights[j]) + weights[j]
with the momentum of the first component when it is > 0, weights[j]
otherwise) plus the K gradients of the components, and above the matrix the
old staging value plus the K gradients; the staging buffer holds the old
weights and update_weights_calls is 0. -/
theorem seeding_once_per_cycle (sqrtf : α → α) (a : BiasANNComponent α)
    (rest : List (BiasANNComponent α))
    (bv : Connections α) (hK : bv.num_references = rest.length + 1)
    (h0 : bv.update_weights_calls = 0)
    (hok : ∀ c ∈ a :: rest, 0 < c.learning_rate ∧ c.error.isSome = true) :
    ∃ r, updateCycle sqrtf (a :: rest) bv = .ok r ∧
      r.1 = true :: List.replicate rest.length false ∧
      r.1.count true = 1 ∧
      r.2.update_weights_calls = 0 ∧
      r.2.prev_weights = bv.weights ∧
      (∀ j, j < bv.total_size →
        r.2.weights j =
          (if 0 < a.momentum then
            -a.momentum * (bv.prev_weights j - bv.weights j) + 1 * bv.weights j
           else bv.weights j) +
          ((a :: rest).map (fun c => stagedGradient sqrtf c bv.num_references j)).sum) ∧
      (∀ j, bv.total_size ≤ j →
        r.2.weights j = bv.prev_weights j +
          ((a :: rest).map (fun c => stagedGradient sqrtf c bv.num_references j)).sum) := by
  have hfirst : bv.beginUpdate.isFirstUpdateCall = true := by
    simp [Connections.isFirstUpdateCall, Connections.beginUpdate, h0]
  have hseed : ∀ j, (doUpdateSeed a bv.beginUpdate).prev_weights j =
      if j < bv.total_size then
        (if 0 < a.momentum then
          -a.momentum * (bv.prev_weights j - bv.weights j) + 1 * bv.weights j
         else bv.weights j)
      else bv.prev_weights j := by
    intro j
    unfold doUpdateSeed
    rw [if_pos hfirst]
    by_cases hm : 0 < a.momentum
    · have hm2 : a.momentum > 0 := hm
      rw [if_pos hm2, momentum_then_decay]
      simp only [hm, if_true]
      rfl
    · have hm2 : ¬ a.momentum > 0 := hm
      rw [if_neg hm2, copyToPrevVector_apply]
      simp only [hm, if_false]
      rfl
  refine ⟨_, updateCycle_full sqrtf a rest bv hK h0 hok, rfl, ?_, rfl, rfl, ?_, ?_⟩
  · simp [List.count_cons, List.count_replicate]
  · intro j hj
    show (doUpdateSeed a bv.beginUpdate).prev_weights j + _ = _
    rw [hseed j, if_pos hj]
  · intro j hj
    show (doUpdateSeed a bv.beginUpdate).prev_weights j + _ = _
    rw [hseed j, if_neg (by omega)]

/-- Witness of claim C4: two one-unit components tied to one matrix with two
references, weight 1 and staged value 0; the first to update has momentum 1/2
and the errors are zero: the cycle leaves the weight
-1/2 * (0 - 1) + 1 = 3/2. -/
theorem seeding_once_per_cycle_witness :
    ∃ r, updateCycle ratSqrt [exampleTiedB, exampleTiedA] exampleTiedVector = .ok r ∧
      r.1 = [true, false] ∧ r.1.count true = 1 ∧ r.2.update_weights_calls = 0 ∧
      r.2.prev_weights 0 = 1 ∧ r.2.weights 0 = 3 / 2 := by
  obtain ⟨r, h1, h2, h3, h4, h5, h6, _⟩ :=
    seeding_once_per_cycle ratSqrt exampleTiedB [exampleTiedA] exampleTiedVector rfl rfl (by
      intro c hc
      simp only [List.mem_cons, List.mem_singleton, List.not_mem_nil, or_false] at hc
      rcases hc with rfl | rfl <;> exact ⟨by norm_num [exampleTiedA, exampleTiedB], rfl⟩)
  refine ⟨r, h1, h2, h3, h4, by rw [h5]; rfl, ?_⟩
  rw [h6 0 (by decide)]
  norm_num [exampleTiedA, exampleTiedB, exampleTiedVector, stagedGradient,
    Connections.new, Connections.countReference, BiasANNComponent.new]

theorem exampleTied_ok (l : List (BiasANNComponent ℚ))
    (hl : ∀ c ∈ l, c = exampleTiedA ∨ c = exampleTiedB) :
    ∀ c ∈ l, 0 < c.learning_rate ∧ c.error.isSome = true := by
  intro c hc
  rcases hl c hc with rfl | rfl <;> exact ⟨by norm_num [exampleTiedA, exampleTiedB], rfl⟩

/-- Counterexample to claim C5 as stated: two components tied to one matrix
(weight 1, staged value 0, two references), one with momentum 0 and one with
momentum 1/2, both with a zero recorded error. Updating the momentum-free one
first leaves the live weight 1; updating the other one first leaves 3/2. -/
theorem update_order_matters_with_distinct_momentum :
    (∃ s, updateCycle ratSqrt [exampleTiedA, exampleTiedB] exampleTiedVector =
        .ok ([true, false], s) ∧ s.weights 0 = 1) ∧
    (∃ s, updateCycle ratSqrt [exampleTiedB, exampleTiedA] exampleTiedVector =
        .ok ([true, false], s) ∧ s.weights 0 = 3 / 2) := by
  have hsg : ∀ c, c = exampleTiedA ∨ c = exampleTiedB → ∀ K, stagedGradient ratSqrt c K 0 = 0 := by
    intro c hc K
    rcases hc with rfl | rfl <;> simp [stagedGradient, exampleTiedA, exampleTiedB]
  have hf : exampleTiedVector.beginUpdate.isFirstUpdateCall = true := by decide
  constructor
  · refine ⟨_, updateCycle_full ratSqrt exampleTiedA [exampleTiedB] exampleTiedVector rfl rfl
      (exampleTied_ok _ (by simp)), ?_⟩
    have hm : ¬ (exampleTiedA.momentum > 0) := by norm_num [exampleTiedA, new]
    simp only [List.map_cons, List.map_nil, List.sum_cons, List.sum_nil,
      hsg _ (Or.inl rfl), hsg _ (Or.inr rfl), add_zero]
    unfold doUpdateSeed
    rw [if_pos hf, if_neg hm, copyToPrevVector_apply, if_pos (by decide)]
    rfl
  · refine ⟨_, updateCycle_full ratSqrt exampleTiedB [exampleTiedA] exampleTiedVector rfl rfl
      (exampleTied_ok _ (by simp)), ?_⟩
    have hm : exampleTiedB.momentum > 0 := by norm_num [exampleTiedA, exampleTiedB]
    simp only [List.map_cons, List.map_nil, List.sum_cons, List.sum_nil,
      hsg _ (Or.inl rfl), hsg _ (Or.inr rfl), add_zero]
    unfold doUpdateSeed
    rw [if_pos hf, if_pos hm, momentum_then_decay, if_pos (by decide)]
    norm_num [exampleTiedA, exampleTiedB, exampleTiedVector, Connections.beginUpdate,
      Connections.countReference, Connections.new]

/-- Claim C5, amended: for K >= 1 bias components sharing one weight matrix of
reference count K, each with its own recorded error, bunch size, learning rate
(fixed) and momentum, one complete cycle of K doUpdate calls from
update_weights_calls = 0 succeeds in either of two orders that are permutations
of each other, and leaves the same matrix (live weights, staging buffer,
counters) in both, provided the component updated first has the same momentum
in the two orders; in particular for every permutation when all K components
have one momentum. -/
theorem update_order_irrelevant (sqrtf : α → α) (l1 l2 : List (BiasANNComponent α))
    (bv : Connections α) (hperm : l1.Perm l2) (hK : bv.num_references = l1.length)
    (h1 : 1 ≤ l1.length) (h0 : bv.update_weights_calls = 0)
    (hok : ∀ c ∈ l1, 0 < c.learning_rate ∧ c.error.isSome = true)
    (hm : l1.head?.map (fun c => c.momentum) = l2.head?.map (fun c => c.momentum)) :
    ∃ f1 f2 s, updateCycle sqrtf l1 bv = .ok (f1, s) ∧ updateCycle sqrtf l2 bv = .ok (f2, s) := by
  have hlen : l1.length = l2.length := hperm.length_eq
  have hok2 : ∀ c ∈ l2, 0 < c.learning_rate ∧ c.error.isSome = true :=
    fun c hc => hok c (hperm.mem_iff.mpr hc)
  cases l1 with
  | nil => simp at h1
  | cons a r1 =>
    cases l2 with
    | nil => simp at hlen
    | cons b r2 =>
      have hab : a.momentum = b.momentum := by simpa using hm
      have hK1 : bv.num_references = r1.length + 1 := by simpa using hK
      have hK2 : bv.num_references = r2.length + 1 := by
        rw [hK1]
        simpa using hlen
      refine ⟨_, true :: List.replicate r2.length false, _,
        updateCycle_full sqrtf a r1 bv hK1 h0 hok, ?_⟩
      rw [updateCycle_full sqrtf b r2 bv hK2 h0 hok2, doUpdateSeed_congr a b _ hab]
      have hsum : ∀ j, ((a :: r1).map (fun c => stagedGradient sqrtf c bv.num_references j)).sum =
          ((b :: r2).map (fun c => stagedGradient sqrtf c bv.num_references j)).sum :=
        fun j => (hperm.map _).sum_eq
      simp only [hsum]

/-- Witness of claim C5 (amended): two components with the same momentum tied
to one matrix, updated in the two possible orders. -/
theorem update_order_irrelevant_witness :
    ∃ f1 f2 s,
      updateCycle ratSqrt [exampleTiedA, { exampleTiedA with name := "c" }] exampleTiedVector =
        .ok (f1, s) ∧
      updateCycle ratSqrt [{ exampleTiedA with name := "c" }, exampleTiedA] exampleTiedVector =
        .ok (f2, s) :=
  update_order_irrelevant ratSqrt [exampleTiedA, { exampleTiedA with name := "c" }]
    [{ exampleTiedA with name := "c" }, exampleTiedA] exampleTiedVector
    (List.Perm.swap _ _ _) rfl (by decide) rfl
    (by
      intro c hc
      simp only [List.mem_cons, List.mem_singleton, List.not_mem_nil, or_false] at hc
      rcases hc with rfl | rfl <;> exact ⟨by norm_num [exampleTiedA], rfl⟩)
    rfl

end BiasANNComponent

/-! ### Loading and storing the weights -/

namespace Connections

variable {α : Type}

theorem index_mod (j i O : Nat) (hj : j < O) : (j + i * O) % O = j := by
  rw [Nat.add_mul_mod_self_right, Nat.mod_eq_of_lt hj]

theorem index_div (j i O : Nat) (hj : j < O) : (j + i * O) / O = i := by
  have hO : 0 < O := by omega
  rw [Nat.add_mul_div_right _ _ hO, Nat.div_eq_of_lt hj, Nat.zero_add]

theorem index_eq (q j n O : Nat) (hm : q % O = j) (hd : q / O = n) : q = j + n * O := by
  have h := Nat.div_add_mod q O
  rw [hm, hd] at h
  rw [← h, Nat.mul_comm, Nat.add_comm]

theorem wrap_add (a b : Nat) : (a % 2 ^ 32 + b) % 2 ^ 32 = (a + b) % 2 ^ 32 :=
  Nat.mod_add_mod a (2 ^ 32) b

theorem index_lt (I O j i : Nat) (hj : j < O) (hi : i < I) : j + i * O < I * O := by
  have h1 : (i + 1) * O ≤ I * O := Nat.mul_le_mul_right O hi
  have h2 : (i + 1) * O = i * O + O := Nat.succ_mul i O
  omega

theorem loadWeightsRow_spec (n O : Nat) (d old_d : Nat → α) (cur j : Nat)
    (w prev_w : Nat → α) (hj : j < O) (hjW : j < 2 ^ 32)
    (hW : ∀ i, i < n → j + i * O < 2 ^ 32) :
    (loadWeightsRow n O d old_d cur j w prev_w).pos = (j + n * O) % 2 ^ 32 ∧
    (∀ q, (loadWeightsRow n O d old_d cur j w prev_w).first q =
      if q % O = j ∧ q / O < n then d ((cur + q / O) % 2 ^ 32) else w q) ∧
    (∀ q, (loadWeightsRow n O d old_d cur j w prev_w).second q =
      if q % O = j ∧ q / O < n then old_d ((cur + q / O) % 2 ^ 32) else prev_w q) := by
  unfold loadWeightsRow
  induction n with
  | zero =>
    refine ⟨?_, fun q => ?_, fun q => ?_⟩
    · simp only [forLoop, Nat.zero_mul, Nat.add_zero]
      exact (Nat.mod_eq_of_lt hjW).symm
    · simp [forLoop]
    · simp [forLoop]
  | succ m ih =>
    obtain ⟨hpos, hfirst, hsecond⟩ := ih (fun i hi => hW i (by omega))
    have hposm : (forLoop m (fun i (s : LoopState α) =>
        ({ first := store s.first s.pos (d ((cur + i) % 2 ^ 32))
           second := store s.second s.pos (old_d ((cur + i) % 2 ^ 32))
           pos := (s.pos + O) % 2 ^ 32 } : LoopState α))
        { first := w, second := prev_w, pos := j }).pos = j + m * O := by
      rw [hpos]
      exact Nat.mod_eq_of_lt (hW m (by omega))
    rw [forLoop_succ]
    refine ⟨?_, fun q => ?_, fun q => ?_⟩
    · simp only [hposm]
      congr 1
      ring
    · simp only [store, hposm, hfirst]
      by_cases hq : q = j + m * O
      · simp [hq, index_mod j m O hj, index_div j m O hj]
      · rw [if_neg hq]
        by_cases hc : q % O = j ∧ q / O < m
        · have : q % O = j ∧ q / O < m + 1 := ⟨hc.1, by omega⟩
          rw [if_pos hc, if_pos this]
        · have : ¬ (q % O = j ∧ q / O < m + 1) := by
            rintro ⟨h1, h2⟩
            by_cases h3 : q / O = m
            · exact hq (index_eq q j m O h1 h3)
            · exact hc ⟨h1, by omega⟩
          rw [if_neg hc, if_neg this]
    · simp only [store, hposm, hsecond]
      by_cases hq : q = j + m * O
      · simp [hq, index_mod j m O hj, index_div j m O hj]
      · rw [if_neg hq]
        by_cases hc : q % O = j ∧ q / O < m
        · have : q % O = j ∧ q / O < m + 1 := ⟨hc.1, by omega⟩
          rw [if_pos hc, if_pos this]
        · have : ¬ (q % O = j ∧ q / O < m + 1) := by
            rintro ⟨h1, h2⟩
            by_cases h3 : q / O = m
            · exact hq (index_eq q j m O h1 h3)
            · exact hc ⟨h1, by omega⟩
          rw [if_neg hc, if_neg this]

theorem loadWeightsLoop_prefix (I O m : Nat) (d old_d : Nat → α) (p col : Nat)
    (w prev_w : Nat → α) (hm : m ≤ O) (hO : O < 2 ^ 32) (hprod : I * O < 2 ^ 32) :
    (forLoop m (fun j (s : LoopState α) =>
        ({ first := (loadWeightsRow I O d old_d s.pos j s.first s.second).first
           second := (loadWeightsRow I O d old_d s.pos j s.first s.second).second
           pos := (s.pos + col) % 2 ^ 32 } : LoopState α))
      { first := w, second := prev_w, pos := p % 2 ^ 32 }).pos = (p + m * col) % 2 ^ 32 ∧
    (∀ q, (forLoop m (fun j (s : LoopState α) =>
        ({ first := (loadWeightsRow I O d old_d s.pos j s.first s.second).first
           second := (loadWeightsRow I O d old_d s.pos j s.first s.second).second
           pos := (s.pos + col) % 2 ^ 32 } : LoopState α))
      { first := w, second := prev_w, pos := p % 2 ^ 32 }).first q =
      if q % O < m ∧ q / O < I then d ((p + q % O * col + q / O) % 2 ^ 32) else w q) ∧
    (∀ q, (forLoop m (fun j (s : LoopState α) =>
        ({ first := (loadWeightsRow I O d old_d s.pos j s.first s.second).first
           second := (loadWeightsRow I O d old_d s.pos j s.first s.second).second
           pos := (s.pos + col) % 2 ^ 32 } : LoopState α))
      { first := w, second := prev_w, pos := p % 2 ^ 32 }).second q =
      if q % O < m ∧ q / O < I then old_d ((p + q % O * col + q / O) % 2 ^ 32)
      else prev_w q) := by
  induction m with
  | zero =>
    refine ⟨?_, fun q => ?_, fun q => ?_⟩ <;> simp [forLoop]
  | succ k ih =>
    obtain ⟨hpos, hfirst, hsecond⟩ := ih (by omega)
    have hk : k < O := by omega
    have hrow := fun a b c => loadWeightsRow_spec I O d old_d a k b c hk (by omega)
      (fun i hi => by
        have := index_lt I O k i hk hi
        omega)
    rw [forLoop_succ]
    refine ⟨?_, fun q => ?_, fun q => ?_⟩
    · simp only [hpos, wrap_add]
      congr 1
      ring
    · simp only [(hrow _ _ _).2.1 q, hpos, hfirst, wrap_add]
      by_cases hq : q % O = k
      · by_cases hi : q / O < I
        · simp [hq, hi]
        · simp [hq, hi]
      · by_cases hc : q % O < k ∧ q / O < I
        · have : q % O < k + 1 ∧ q / O < I := ⟨by omega, hc.2⟩
          simp [hq, hc, this]
        · have : ¬ (q % O < k + 1 ∧ q / O < I) := by
            rintro ⟨h1, h2⟩
            exact hc ⟨by omega, h2⟩
          simp [hq, hc, this]
    · simp only [(hrow _ _ _).2.2 q, hpos, hsecond, wrap_add]
      by_cases hq : q % O = k
      · by_cases hi : q / O < I
        · simp [hq, hi]
        · simp [hq, hi]
      · by_cases hc : q % O < k ∧ q / O < I
        · have : q % O < k + 1 ∧ q / O < I := ⟨by omega, hc.2⟩
          simp [hq, hc, this]
        · have : ¬ (q % O < k + 1 ∧ q / O < I) := by
            rintro ⟨h1, h2⟩
            exact hc ⟨by omega, h2⟩
          simp [hq, hc, this]

theorem loadWeightsLoop_spec (I O : Nat) (d old_d : Nat → α) (p col : Nat)
    (w prev_w : Nat → α) (hO : O < 2 ^ 32) (hprod : I * O < 2 ^ 32) :
    (loadWeightsLoop I O d old_d p col w prev_w).pos = (p + O * col) % 2 ^ 32 ∧
    (∀ j i, j < O → i < I →
      (loadWeightsLoop I O d old_d p col w prev_w).first (j + i * O) =
        d ((p + j * col + i) % 2 ^ 32) ∧
      (loadWeightsLoop I O d old_d p col w prev_w).second (j + i * O) =
        old_d ((p + j * col + i) % 2 ^ 32)) ∧
    (∀ q, I * O ≤ q →
      (loadWeightsLoop I O d old_d p col w prev_w).first q = w q ∧
      (loadWeightsLoop I O d old_d p col w prev_w).second q = prev_w q) := by
  obtain ⟨hpos, hfirst, hsecond⟩ :=
    loadWeightsLoop_prefix I O O d old_d p col w prev_w (le_refl _) hO hprod
  refine ⟨hpos, fun j i hj hi => ?_, fun q hq => ?_⟩
  · have h1 := hfirst (j + i * O)
    have h2 := hsecond (j + i * O)
    rw [index_mod j i O hj, index_div j i O hj] at h1 h2
    exact ⟨by simpa [loadWeightsLoop, hj, hi] using h1, by simpa [loadWeightsLoop, hj, hi] using h2⟩
  · have h1 := hfirst q
    have h2 := hsecond q
    have hc : ¬ (q % O < O ∧ q / O < I) := by
      rintro ⟨ha, hb⟩
      have hO : 0 < O := by omega
      have hlt : q < I * O := by
        rw [Nat.mul_comm]
        exact (Nat.div_lt_iff_lt_mul hO).mp hb |>.trans_eq (Nat.mul_comm _ _)
      omega
    rw [if_neg hc] at h1 h2
    exact ⟨h1, h2⟩

theorem copyWeightsToRow_spec (n O : Nat) (w prev_w f g : Nat → α) (cur j : Nat)
    (data_ptr old_data_ptr : Nat → α) (hjW : j < 2 ^ 32)
    (hW : ∀ i, i < n → j + i * O < 2 ^ 32)
    (hw : ∀ i, i < n → w (j + i * O) = f ((cur + i) % 2 ^ 32) ∧
      prev_w (j + i * O) = g ((cur + i) % 2 ^ 32)) :
    (copyWeightsToRow n O w prev_w cur j data_ptr old_data_ptr).pos = (j + n * O) % 2 ^ 32 ∧
    (∀ i, i < n →
      (copyWeightsToRow n O w prev_w cur j data_ptr old_data_ptr).first ((cur + i) % 2 ^ 32) =
        f ((cur + i) % 2 ^ 32) ∧
      (copyWeightsToRow n O w prev_w cur j data_ptr old_data_ptr).second ((cur + i) % 2 ^ 32) =
        g ((cur + i) % 2 ^ 32)) ∧
    (∀ q, (∀ i, i < n → q ≠ (cur + i) % 2 ^ 32) →
      (copyWeightsToRow n O w prev_w cur j data_ptr old_data_ptr).first q = data_ptr q ∧
      (copyWeightsToRow n O w prev_w cur j data_ptr old_data_ptr).second q =
        old_data_ptr q) := by
  unfold copyWeightsToRow
  induction n with
  | zero =>
    refine ⟨?_, fun i hi => by omega, fun q _ => ⟨rfl, rfl⟩⟩
    simp only [forLoop, Nat.zero_mul, Nat.add_zero]
    exact (Nat.mod_eq_of_lt hjW).symm
  | succ m ih =>
    obtain ⟨hpos, hin, hout⟩ := ih (fun i hi => hW i (by omega)) (fun i hi => hw i (by omega))
    obtain ⟨hwm, hpm⟩ := hw m (by omega)
    have hposm : (forLoop m (fun i (s : LoopState α) =>
        ({ first := store s.first ((cur + i) % 2 ^ 32) (w s.pos)
           second := store s.second ((cur + i) % 2 ^ 32) (prev_w s.pos)
           pos := (s.pos + O) % 2 ^ 32 } : LoopState α))
        { first := data_ptr, second := old_data_ptr, pos := j }).pos = j + m * O := by
      rw [hpos]
      exact Nat.mod_eq_of_lt (hW m (by omega))
    rw [forLoop_succ]
    refine ⟨?_, fun i hi => ?_, fun q hq => ?_⟩
    · simp only [hposm]
      congr 1
      ring
    · simp only [store, hposm, hwm, hpm]
      by_cases he : (cur + i) % 2 ^ 32 = (cur + m) % 2 ^ 32
      · rw [if_pos he, if_pos he, he]
        exact ⟨rfl, rfl⟩
      · rw [if_neg he, if_neg he]
        have him : i < m := by
          by_contra hge
          have : i = m := by omega
          exact he (by rw [this])
        exact hin i him
    · simp only [store, hposm]
      have hne : q ≠ (cur + m) % 2 ^ 32 := hq m (by omega)
      rw [if_neg hne, if_neg hne]
      exact hout q (fun i hi => hq i (by omega))

theorem copyWeightsToLoop_prefix (I O m : Nat) (w prev_w f g : Nat → α) (p col : Nat)
    (data_ptr old_data_ptr : Nat → α) (hm : m ≤ O) (hO : O < 2 ^ 32) (hprod : I * O < 2 ^ 32)
    (hw : ∀ j i, j < O → i < I →
      w (j + i * O) = f ((p + j * col + i) % 2 ^ 32) ∧
      prev_w (j + i * O) = g ((p + j * col + i) % 2 ^ 32)) :
    (forLoop m (fun j (s : LoopState α) =>
        ({ first := (copyWeightsToRow I O w prev_w s.pos j s.first s.second).first
           second := (copyWeightsToRow I O w prev_w s.pos j s.first s.second).second
           pos := (s.pos + col) % 2 ^ 32 } : LoopState α))
      { first := data_ptr, second := old_data_ptr, pos := p % 2 ^ 32 }).pos =
        (p + m * col) % 2 ^ 32 ∧
    (∀ j i, j < m → i < I →
      (forLoop m (fun j (s : LoopState α) =>
        ({ first := (copyWeightsToRow I O w prev_w s.pos j s.first s.second).first
           second := (copyWeightsToRow I O w prev_w s.pos j s.first s.second).second
           pos := (s.pos + col) % 2 ^ 32 } : LoopState α))
        { first := data_ptr, second := old_data_ptr, pos := p % 2 ^ 32 }).first
          ((p + j * col + i) % 2 ^ 32) = f ((p + j * col + i) % 2 ^ 32) ∧
      (forLoop m (fun j (s : LoopState α) =>
        ({ first := (copyWeightsToRow I O w prev_w s.pos j s.first s.second).first
           second := (copyWeightsToRow I O w prev_w s.pos j s.first s.second).second
           pos := (s.pos + col) % 2 ^ 32 } : LoopState α))
        { first := data_ptr, second := old_data_ptr, pos := p % 2 ^ 32 }).second
          ((p + j * col + i) % 2 ^ 32) = g ((p + j * col + i) % 2 ^ 32)) ∧
    (∀ q, (∀ j i, j < m → i < I → q ≠ (p + j * col + i) % 2 ^ 32) →
      (forLoop m (fun j (s : LoopState α) =>
        ({ first := (copyWeightsToRow I O w prev_w s.pos j s.first s.second).first
           second := (copyWeightsToRow I O w prev_w s.pos j s.first s.second).second
           pos := (s.pos + col) % 2 ^ 32 } : LoopState α))
        { first := data_ptr, second := old_data_ptr, pos := p % 2 ^ 32 }).first q =
          data_ptr q ∧
      (forLoop m (fun j (s : LoopState α) =>
        ({ first := (copyWeightsToRow I O w prev_w s.pos j s.first s.second).first
           second := (copyWeightsToRow I O w prev_w s.pos j s.first s.second).second
           pos := (s.pos + col) % 2 ^ 32 } : LoopState α))
        { first := data_ptr, second := old_data_ptr, pos := p % 2 ^ 32 }).second q =
          old_data_ptr q) := by
  induction m with
  | zero =>
    refine ⟨by simp [forLoop], fun j i hj => by omega, fun q _ => by simp [forLoop]⟩
  | succ k ih =>
    obtain ⟨hpos, hin, hout⟩ := ih (by omega)
    have hk : k < O := by omega
    rw [forLoop_succ]
    have hrow := fun a b => copyWeightsToRow_spec I O w prev_w f g ((p + k * col) % 2 ^ 32) k
      a b (by omega)
      (fun i hi => by
        have := index_lt I O k i hk hi
        omega)
      (fun i hi => by
        rw [wrap_add]
        exact hw k i hk hi)
    simp only [hpos]
    refine ⟨?_, fun j i hj hi => ?_, fun q hq => ?_⟩
    · rw [wrap_add]
      congr 1
      ring
    · by_cases hit : ∃ i2, i2 < I ∧
          (p + j * col + i) % 2 ^ 32 = ((p + k * col) % 2 ^ 32 + i2) % 2 ^ 32
      · obtain ⟨i2, hi2, he⟩ := hit
        rw [he]
        exact (hrow _ _).2.1 i2 hi2
      · have hmiss : ∀ i2, i2 < I →
            (p + j * col + i) % 2 ^ 32 ≠ ((p + k * col) % 2 ^ 32 + i2) % 2 ^ 32 :=
          fun i2 hi2 he => hit ⟨i2, hi2, he⟩
        rw [((hrow _ _).2.2 _ hmiss).1, ((hrow _ _).2.2 _ hmiss).2]
        have hjk : j < k := by
          by_contra hge
          have hjk : j = k := by omega
          subst hjk
          exact hmiss i hi (by rw [wrap_add])
        exact hin j i hjk hi
    · have hmiss : ∀ i2, i2 < I → q ≠ ((p + k * col) % 2 ^ 32 + i2) % 2 ^ 32 := by
        intro i2 hi2
        rw [wrap_add]
        exact hq k i2 (by omega) hi2
      rw [((hrow _ _).2.2 _ hmiss).1, ((hrow _ _).2.2 _ hmiss).2]
      exact hout q (fun j i hj hi => hq j i (by omega) hi)

theorem copyWeightsToLoop_spec (I O : Nat) (w prev_w f g : Nat → α) (p col : Nat)
    (data_ptr old_data_ptr : Nat → α) (hO : O < 2 ^ 32) (hprod : I * O < 2 ^ 32)
    (hw : ∀ j i, j < O → i < I →
      w (j + i * O) = f ((p + j * col + i) % 2 ^ 32) ∧
      prev_w (j + i * O) = g ((p + j * col + i) % 2 ^ 32)) :
    (copyWeightsToLoop I O w prev_w p col data_ptr old_data_ptr).pos =
      (p + O * col) % 2 ^ 32 ∧
    (∀ j i, j < O → i < I →
      (copyWeightsToLoop I O w prev_w p col data_ptr old_data_ptr).first
          ((p + j * col + i) % 2 ^ 32) = f ((p + j * col + i) % 2 ^ 32) ∧
      (copyWeightsToLoop I O w prev_w p col data_ptr old_data_ptr).second
          ((p + j * col + i) % 2 ^ 32) = g ((p + j * col + i) % 2 ^ 32)) ∧
    (∀ q, (∀ j i, j < O → i < I → q ≠ (p + j * col + i) % 2 ^ 32) →
      (copyWeightsToLoop I O w prev_w p col data_ptr old_data_ptr).first q = data_ptr q ∧
      (copyWeightsToLoop I O w prev_w p col data_ptr old_data_ptr).second q =
        old_data_ptr q) :=
  copyWeightsToLoop_prefix I O O w prev_w f g p col data_ptr old_data_ptr (le_refl _) hO hprod hw

theorem copyWeightsToLoop_pos (I O : Nat) (w prev_w : Nat → α) (p col : Nat)
    (data_ptr old_data_ptr : Nat → α) :
    (copyWeightsToLoop I O w prev_w p col data_ptr old_data_ptr).pos =
      (p + O * col) % 2 ^ 32 := by
  have h : ∀ m, (forLoop m (fun j (s : LoopState α) =>
        ({ first := (copyWeightsToRow I O w prev_w s.pos j s.first s.second).first
           second := (copyWeightsToRow I O w prev_w s.pos j s.first s.second).second
           pos := (s.pos + col) % 2 ^ 32 } : LoopState α))
      { first := data_ptr, second := old_data_ptr, pos := p % 2 ^ 32 }).pos =
        (p + m * col) % 2 ^ 32 := by
    intro m
    induction m with
    | zero => simp [forLoop]
    | succ k ih =>
      rw [forLoop_succ]
      simp only [ih, wrap_add]
      congr 1
      ring
  exact h O

theorem loadWeightsLoop_pos (I O : Nat) (d old_d : Nat → α) (p col : Nat)
    (w prev_w : Nat → α) :
    (loadWeightsLoop I O d old_d p col w prev_w).pos = (p + O * col) % 2 ^ 32 := by
  have h : ∀ m, (forLoop m (fun j (s : LoopState α) =>
        ({ first := (loadWeightsRow I O d old_d s.pos j s.first s.second).first
           second := (loadWeightsRow I O d old_d s.pos j s.first s.second).second
           pos := (s.pos + col) % 2 ^ 32 } : LoopState α))
      { first := w, second := prev_w, pos := p % 2 ^ 32 }).pos =
        (p + m * col) % 2 ^ 32 := by
    intro m
    induction m with
    | zero => simp [forLoop]
    | succ k ih =>
      rw [forLoop_succ]
      simp only [ih, wrap_add]
      congr 1
      ring
  exact h O

theorem loadWeights_eq (c : Connections α) (data : MatrixFloat α)
    (old_data : Option (MatrixFloat α)) (p col : Nat)
    (hsz : minSize c.total_size c.num_inputs c.num_outputs p col ≤ data.size)
    (hs1 : data.isSimple = true) (hs2 : (old_data.getD data).isSimple = true) :
    loadWeights c data old_data p col = .ok
      ((loadWeightsLoop c.num_inputs c.num_outputs data.data (old_data.getD data).data
          p col c.weights c.prev_weights).pos,
        { c with
          weights := (loadWeightsLoop c.num_inputs c.num_outputs data.data
            (old_data.getD data).data p col c.weights c.prev_weights).first
          prev_weights := (loadWeightsLoop c.num_inputs c.num_outputs data.data
            (old_data.getD data).data p col c.weights c.prev_weights).second }) := by
  unfold loadWeights
  have h : ¬ (minSize c.total_size c.num_inputs c.num_outputs p col > data.size) := by omega
  simp [h, hs1, hs2]

theorem loadWeights_checks (c : Connections α) (data : MatrixFloat α)
    (old_data : Option (MatrixFloat α)) (p col : Nat) (x : Nat × Connections α)
    (h : loadWeights c data old_data p col = .ok x) :
    minSize c.total_size c.num_inputs c.num_outputs p col ≤ data.size ∧
    data.isSimple = true ∧ (old_data.getD data).isSimple = true := by
  unfold loadWeights at h
  by_cases h1 : minSize c.total_size c.num_inputs c.num_outputs p col > data.size
  · simp [h1] at h
  · by_cases h2 : data.isSimple = true
    · by_cases h3 : (old_data.getD data).isSimple = true
      · exact ⟨by omega, h2, h3⟩
      · simp [h1, h2, h3] at h
    · simp [h1, h2] at h

theorem copyWeightsTo_eq (c : Connections α) (data old_data : MatrixFloat α) (p col : Nat)
    (hsz : minSize c.total_size c.num_inputs c.num_outputs p col ≤ data.size)
    (hs1 : data.isSimple = true) (hs2 : old_data.isSimple = true) :
    copyWeightsTo c data (.other old_data) p col = .ok
      ((copyWeightsToLoop c.num_inputs c.num_outputs c.weights c.prev_weights p col
          data.data old_data.data).pos,
        { data with
          data := (copyWeightsToLoop c.num_inputs c.num_outputs c.weights c.prev_weights
            p col data.data old_data.data).first },
        { old_data with
          data := (copyWeightsToLoop c.num_inputs c.num_outputs c.weights c.prev_weights
            p col data.data old_data.data).second }) := by
  unfold copyWeightsTo
  have h : ¬ (minSize c.total_size c.num_inputs c.num_outputs p col > data.size) := by omega
  simp [h, hs1, hs2]

theorem copyWeightsTo_null (c : Connections α) (data : MatrixFloat α) (p col : Nat)
    (hsz : minSize c.total_size c.num_inputs c.num_outputs p col ≤ data.size)
    (hs1 : data.isSimple = true) :
    copyWeightsTo c data .null p col = .error .nullMatrix := by
  unfold copyWeightsTo
  have h : ¬ (minSize c.total_size c.num_inputs c.num_outputs p col > data.size) := by omega
  simp [h, hs1]

theorem store_store (f : Nat → α) (q : Nat) (x y : α) :
    store (store f q x) q y = store f q y := by
  funext k
  simp only [store]
  by_cases h : k = q <;> simp [h]

theorem copyWeightsToRowSame_eq (n O : Nat) (w prev_w : Nat → α) (cur j : Nat)
    (a b : Nat → α) :
    (copyWeightsToRowSame n O w prev_w cur j b).first =
      (copyWeightsToRow n O w prev_w cur j a b).second ∧
    (copyWeightsToRowSame n O w prev_w cur j b).second =
      (copyWeightsToRow n O w prev_w cur j a b).second ∧
    (copyWeightsToRowSame n O w prev_w cur j b).pos =
      (copyWeightsToRow n O w prev_w cur j a b).pos := by
  unfold copyWeightsToRowSame copyWeightsToRow
  induction n with
  | zero => exact ⟨rfl, rfl, rfl⟩
  | succ m ih =>
    obtain ⟨h1, _, h3⟩ := ih
    rw [forLoop_succ, forLoop_succ]
    dsimp only
    rw [store_store, h1, h3]
    exact ⟨rfl, rfl, rfl⟩

theorem copyWeightsToLoopSame_prefix (I O m : Nat) (w prev_w : Nat → α) (p col : Nat)
    (a b : Nat → α) :
    (forLoop m (fun j (s : LoopState α) =>
        ({ first := (copyWeightsToRowSame I O w prev_w s.pos j s.first).first
           second := (copyWeightsToRowSame I O w prev_w s.pos j s.first).second
           pos := (s.pos + col) % 2 ^ 32 } : LoopState α))
      { first := b, second := b, pos := p % 2 ^ 32 }).first =
    (forLoop m (fun j (s : LoopState α) =>
        ({ first := (copyWeightsToRow I O w prev_w s.pos j s.first s.second).first
           second := (copyWeightsToRow I O w prev_w s.pos j s.first s.second).second
           pos := (s.pos + col) % 2 ^ 32 } : LoopState α))
      { first := a, second := b, pos := p % 2 ^ 32 }).second ∧
    (forLoop m (fun j (s : LoopState α) =>
        ({ first := (copyWeightsToRowSame I O w prev_w s.pos j s.first).first
           second := (copyWeightsToRowSame I O w prev_w s.pos j s.first).second
           pos := (s.pos + col) % 2 ^ 32 } : LoopState α))
      { first := b, second := b, pos := p % 2 ^ 32 }).second =
    (forLoop m (fun j (s : LoopState α) =>
        ({ first := (copyWeightsToRow I O w prev_w s.pos j s.first s.second).first
           second := (copyWeightsToRow I O w prev_w s.pos j s.first s.second).second
           pos := (s.pos + col) % 2 ^ 32 } : LoopState α))
      { first := a, second := b, pos := p % 2 ^ 32 }).second ∧
    (forLoop m (fun j (s : LoopState α) =>
        ({ first := (copyWeightsToRowSame I O w prev_w s.pos j s.first).first
           second := (copyWeightsToRowSame I O w prev_w s.pos j s.first).second
           pos := (s.pos + col) % 2 ^ 32 } : LoopState α))
      { first := b, second := b, pos := p % 2 ^ 32 }).pos =
    (forLoop m (fun j (s : LoopState α) =>
        ({ first := (copyWeightsToRow I O w prev_w s.pos j s.first s.second).first
           second := (copyWeightsToRow I O w prev_w s.pos j s.first s.second).second
           pos := (s.pos + col) % 2 ^ 32 } : LoopState α))
      { first := a, second := b, pos := p % 2 ^ 32 }).pos := by
  induction m with
  | zero => exact ⟨rfl, rfl, rfl⟩
  | succ k ih =>
    obtain ⟨h1, _, h3⟩ := ih
    rw [forLoop_succ, forLoop_succ]
    dsimp only
    rw [h1, h3]
    exact ⟨(copyWeightsToRowSame_eq I O w prev_w _ k _ _).1,
      (copyWeightsToRowSame_eq I O w prev_w _ k _ _).2.1, rfl⟩

theorem copyWeightsToLoopSame_eq (I O : Nat) (w prev_w : Nat → α) (p col : Nat)
    (a b : Nat → α) :
    (copyWeightsToLoopSame I O w prev_w p col b).first =
      (copyWeightsToLoop I O w prev_w p col a b).second ∧
    (copyWeightsToLoopSame I O w prev_w p col b).second =
      (copyWeightsToLoop I O w prev_w p col a b).second ∧
    (copyWeightsToLoopSame I O w prev_w p col b).pos =
      (copyWeightsToLoop I O w prev_w p col a b).pos :=
  copyWeightsToLoopSame_prefix I O O w prev_w p col a b

theorem copyWeightsTo_eq_same (c : Connections α) (data : MatrixFloat α) (p col : Nat)
    (hsz : minSize c.total_size c.num_inputs c.num_outputs p col ≤ data.size)
    (hs1 : data.isSimple = true) :
    copyWeightsTo c data .same p col = .ok
      ((p + c.num_outputs * col) % 2 ^ 32,
        { data with
          data := (copyWeightsToLoop c.num_inputs c.num_outputs c.weights c.prev_weights
            p col data.data data.data).second },
        { data with
          data := (copyWeightsToLoop c.num_inputs c.num_outputs c.weights c.prev_weights
            p col data.data data.data).second }) := by
  unfold copyWeightsTo
  have h : ¬ (minSize c.total_size c.num_inputs c.num_outputs p col > data.size) := by omega
  obtain ⟨h1, h2, h3⟩ := copyWeightsToLoopSame_eq c.num_inputs c.num_outputs c.weights
    c.prev_weights p col data.data data.data
  simp only [h, hs1, if_false, Bool.not_true, Bool.false_eq_true, h1, h2, h3,
    copyWeightsToLoop_pos]

theorem copyWeightsTo_value (c : Connections α) (data : MatrixFloat α)
    (old_data : OldDataPointer α) (p col : Nat)
    (x : Nat × MatrixFloat α × MatrixFloat α) (h : copyWeightsTo c data old_data p col = .ok x) :
    x.1 = (p + c.num_outputs * col) % 2 ^ 32 := by
  unfold copyWeightsTo at h
  by_cases h1 : minSize c.total_size c.num_inputs c.num_outputs p col > data.size
  · simp [h1] at h
  · by_cases h2 : data.isSimple = true
    · cases old_data with
      | null => simp [h1, h2] at h
      | same =>
        simp only [h1, h2, Bool.not_true, Bool.false_eq_true, if_false,
          Except.ok.injEq] at h
        subst h
        exact (copyWeightsToLoopSame_eq _ _ _ _ _ _ data.data data.data).2.2.trans
          (copyWeightsToLoop_pos _ _ _ _ _ _ _ _)
      | other od =>
        by_cases h3 : od.isSimple = true
        · simp only [h1, h2, h3, Bool.not_true, Bool.false_eq_true, if_false,
            Except.ok.injEq] at h
          subst h
          exact copyWeightsToLoop_pos _ _ _ _ _ _ _ _
        · simp [h1, h2, h3] at h
    · simp [h1, h2] at h

theorem copyWeightsTo_after_load (c : Connections α) (D Dold D2 Dold2 : MatrixFloat α)
    (p col : Nat) (hO : c.num_outputs < 2 ^ 32) (hprod : c.num_inputs * c.num_outputs < 2 ^ 32)
    (hsz2 : minSize c.total_size c.num_inputs c.num_outputs p col ≤ D2.size)
    (hs3 : D2.isSimple = true) (hs4 : Dold2.isSimple = true) :
    ∃ E Eold,
      copyWeightsTo
        ({ c with
            weights := (loadWeightsLoop c.num_inputs c.num_outputs D.data Dold.data p col
              c.weights c.prev_weights).first
            prev_weights := (loadWeightsLoop c.num_inputs c.num_outputs D.data Dold.data p col
              c.weights c.prev_weights).second } : Connections α)
        D2 (.other Dold2) p col = .ok ((p + c.num_outputs * col) % 2 ^ 32, E, Eold) ∧
      (∀ j i, j < c.num_outputs → i < c.num_inputs →
        E.data ((p + j * col + i) % 2 ^ 32) = D.data ((p + j * col + i) % 2 ^ 32) ∧
        Eold.data ((p + j * col + i) % 2 ^ 32) = Dold.data ((p + j * col + i) % 2 ^ 32)) ∧
      (∀ q, (∀ j i, j < c.num_outputs → i < c.num_inputs → q ≠ (p + j * col + i) % 2 ^ 32) →
        E.data q = D2.data q ∧ Eold.data q = Dold2.data q) ∧
      E.size = D2.size ∧ E.isSimple = D2.isSimple ∧
      Eold.size = Dold2.size ∧ Eold.isSimple = Dold2.isSimple := by
  obtain ⟨_, hload, _⟩ := loadWeightsLoop_spec c.num_inputs c.num_outputs D.data
    Dold.data p col c.weights c.prev_weights hO hprod
  have hcopy := copyWeightsToLoop_spec c.num_inputs c.num_outputs _ _ D.data
    Dold.data p col D2.data Dold2.data hO hprod hload
  have hC := copyWeightsTo_eq
    ({ c with
            weights := (loadWeightsLoop c.num_inputs c.num_outputs D.data Dold.data p col
              c.weights c.prev_weights).first
            prev_weights := (loadWeightsLoop c.num_inputs c.num_outputs D.data Dold.data p col
              c.weights c.prev_weights).second } : Connections α)
    D2 Dold2 p col hsz2 hs3 hs4
  rw [hcopy.1] at hC
  exact ⟨_, _, hC, hcopy.2.1, hcopy.2.2, rfl, rfl, rfl, rfl⟩

theorem copyWeightsTo_same_after_load (c : Connections α) (D Dold D2 : MatrixFloat α)
    (p col : Nat) (hO : c.num_outputs < 2 ^ 32) (hprod : c.num_inputs * c.num_outputs < 2 ^ 32)
    (hsz2 : minSize c.total_size c.num_inputs c.num_outputs p col ≤ D2.size)
    (hs3 : D2.isSimple = true) :
    ∃ F,
      copyWeightsTo
        ({ c with
            weights := (loadWeightsLoop c.num_inputs c.num_outputs D.data Dold.data p col
              c.weights c.prev_weights).first
            prev_weights := (loadWeightsLoop c.num_inputs c.num_outputs D.data Dold.data p col
              c.weights c.prev_weights).second } : Connections α)
        D2 .same p col = .ok ((p + c.num_outputs * col) % 2 ^ 32, F, F) ∧
      (∀ j i, j < c.num_outputs → i < c.num_inputs →
        F.data ((p + j * col + i) % 2 ^ 32) = Dold.data ((p + j * col + i) % 2 ^ 32)) ∧
      (∀ q, (∀ j i, j < c.num_outputs → i < c.num_inputs → q ≠ (p + j * col + i) % 2 ^ 32) →
        F.data q = D2.data q) ∧
      F.size = D2.size ∧ F.isSimple = D2.isSimple := by
  obtain ⟨_, hload, _⟩ := loadWeightsLoop_spec c.num_inputs c.num_outputs D.data
    Dold.data p col c.weights c.prev_weights hO hprod
  have hcopy := copyWeightsToLoop_spec c.num_inputs c.num_outputs _ _ D.data
    Dold.data p col D2.data D2.data hO hprod hload
  have hC := copyWeightsTo_eq_same
    ({ c with
            weights := (loadWeightsLoop c.num_inputs c.num_outputs D.data Dold.data p col
              c.weights c.prev_weights).first
            prev_weights := (loadWeightsLoop c.num_inputs c.num_outputs D.data Dold.data p col
              c.weights c.prev_weights).second } : Connections α)
    D2 p col hsz2 hs3
  exact ⟨_, hC, fun j i hj hi => (hcopy.2.1 j i hj hi).2, fun q hq => (hcopy.2.2 q hq).2,
    rfl, rfl⟩

theorem matrix_eq_of_data (E D : MatrixFloat α) (h : ∀ q, E.data q = D.data q)
    (h1 : E.size = D.size) (h2 : E.isSimple = D.isSimple) : E = D := by
  cases E
  cases D
  simp only [MatrixFloat.mk.injEq]
  exact ⟨funext h, h1, h2⟩

theorem copyWeightsTo_back (c : Connections α) (D Dold : MatrixFloat α) (p col : Nat)
    (hO : c.num_outputs < 2 ^ 32) (hprod : c.num_inputs * c.num_outputs < 2 ^ 32)
    (hsz : minSize c.total_size c.num_inputs c.num_outputs p col ≤ D.size)
    (hs1 : D.isSimple = true) (hs2 : Dold.isSimple = true) :
    copyWeightsTo
      ({ c with
            weights := (loadWeightsLoop c.num_inputs c.num_outputs D.data Dold.data p col
              c.weights c.prev_weights).first
            prev_weights := (loadWeightsLoop c.num_inputs c.num_outputs D.data Dold.data p col
              c.weights c.prev_weights).second } : Connections α)
      D (.other Dold) p col = .ok ((p + c.num_outputs * col) % 2 ^ 32, D, Dold) := by
  obtain ⟨E, Eold, hrun, hin, hout, h1, h2, h3, h4⟩ :=
    copyWeightsTo_after_load c D Dold D Dold p col hO hprod hsz hs1 hs2
  have hfun : ∀ q, E.data q = D.data q ∧ Eold.data q = Dold.data q := by
    intro q
    by_cases hq : ∃ j i, j < c.num_outputs ∧ i < c.num_inputs ∧ q = (p + j * col + i) % 2 ^ 32
    · obtain ⟨j, i, hj, hi, rfl⟩ := hq
      exact hin j i hj hi
    · exact hout q (fun j i hj hi he => hq ⟨j, i, hj, hi, he⟩)
  rw [matrix_eq_of_data E D (fun q => (hfun q).1) h1 h2,
    matrix_eq_of_data Eold Dold (fun q => (hfun q).2) h3 h4] at hrun
  exact hrun

theorem copyWeightsTo_back_same (c : Connections α) (D : MatrixFloat α) (p col : Nat)
    (hO : c.num_outputs < 2 ^ 32) (hprod : c.num_inputs * c.num_outputs < 2 ^ 32)
    (hsz : minSize c.total_size c.num_inputs c.num_outputs p col ≤ D.size)
    (hs1 : D.isSimple = true) :
    copyWeightsTo
      ({ c with
          weights := (loadWeightsLoop c.num_inputs c.num_outputs D.data D.data p col
            c.weights c.prev_weights).first
          prev_weights := (loadWeightsLoop c.num_inputs c.num_outputs D.data D.data p col
            c.weights c.prev_weights).second } : Connections α)
      D .same p col = .ok ((p + c.num_outputs * col) % 2 ^ 32, D, D) := by
  obtain ⟨F, hrun, hin, hout, h1, h2⟩ :=
    copyWeightsTo_same_after_load c D D D p col hO hprod hsz hs1
  have hfun : ∀ q, F.data q = D.data q := by
    intro q
    by_cases hq : ∃ j i, j < c.num_outputs ∧ i < c.num_inputs ∧ q = (p + j * col + i) % 2 ^ 32
    · obtain ⟨j, i, hj, hi, rfl⟩ := hq
      exact hin j i hj hi
    · exact hout q (fun j i hj hi he => hq ⟨j, i, hj, hi, he⟩)
  rw [matrix_eq_of_data F D hfun h1 h2] at hrun
  exact hrun

theorem forall_lt_two (P : Nat → Nat → Prop) (h00 : P 0 0) (h01 : P 0 1) (h10 : P 1 0)
    (h11 : P 1 1) : ∀ j i, j < 2 → i < 2 → P j i := by
  intro j i hj hi
  interval_cases j <;> interval_cases i <;> assumption

/-- Counterexample to claim C8 as stated: a 2 x 2
Connections loaded from a simple matrix of 6 elements (element q is q + 10,
also given as the old matrix) at offset 2 with row stride 4294967295 and copied
into two zero matrices of 6 elements. min_size is 6, so both size checks pass;
the 32-bit position wraps, the four positions touched are 2, 3, 1, 2, all
inside the matrices, and both calls return 0. Position 1 is none of
2 + j*4294967295 + i with j, i < 2, and the copy changes it from 0 to 11. -/
theorem copyWeightsTo_writes_a_wrapped_position :
    minSize exampleConnections.total_size exampleConnections.num_inputs
        exampleConnections.num_outputs 2 4294967295 = 6 ∧
    exampleMatrixSix.size = 6 ∧ exampleTargetSix.size = 6 ∧
    (∀ j i, j < 2 → i < 2 → (2 + j * 4294967295 + i) % 2 ^ 32 < 6) ∧
    (∀ j i, j < 2 → i < 2 → 1 ≠ 2 + j * 4294967295 + i) ∧
    exampleTargetSix.data 1 = 0 ∧
    (∃ c2 E Eold,
      loadWeights exampleConnections exampleMatrixSix (some exampleMatrixSix) 2 4294967295 =
        .ok (0, c2) ∧
      copyWeightsTo c2 exampleTargetSix (.other exampleTargetSix) 2 4294967295 =
        .ok (0, E, Eold) ∧
      E.data 1 = 11) := by
  refine ⟨by decide, rfl, rfl, forall_lt_two _ (by decide) (by decide) (by decide) (by decide),
    forall_lt_two _ (by decide) (by decide) (by decide) (by decide), rfl, ?_⟩
  have hL := loadWeights_eq exampleConnections exampleMatrixSix (some exampleMatrixSix)
    2 4294967295 (by decide) rfl rfl
  rw [loadWeightsLoop_pos] at hL
  obtain ⟨E, Eold, hrun, hin, _⟩ := copyWeightsTo_after_load exampleConnections
    exampleMatrixSix exampleMatrixSix exampleTargetSix exampleTargetSix 2 4294967295
    (by decide) (by decide) (by decide) rfl rfl
  have h0 : (2 + exampleConnections.num_outputs * 4294967295) % 2 ^ 32 = 0 := by decide
  have h1 : (2 + 1 * 4294967295 + 0) % 2 ^ 32 = 1 := by decide
  rw [h0] at hL hrun
  refine ⟨_, E, Eold, hL, hrun, ?_⟩
  have h := (hin 1 0 (by decide) (by decide)).1
  rw [h1] at h
  rw [h]
  norm_num [exampleMatrixSix]

/-- Claim C8, amended: on a Connections with num_outputs and num_inputs *
num_outputs below 2^32, for every offset p and row stride c and all dense
matrices that pass the checks of the two methods (the size check and the
simple-matrix check), every position (p + j*c + i) mod 2^32 with
j < num_outputs and i < num_inputs lying inside the four matrices:
loadWeights(D, Dold, p, c) followed by copyWeightsTo(D2, Dold2, p, c) on two
target matrices succeeds and writes D2[q] = D[q] and Dold2[q] = Dold[q] at
every such position q (Dold being D when no old matrix is given), and leaves
every other position of D2 and Dold2, what lies after their ends, and their
size, as they were; when the one matrix D2 is given as both targets it
receives Dold[q] at every such position and keeps the rest; copying back into
the two matrices that were loaded, or into D given as both when Dold is D,
leaves them exactly as they were; and copyWeightsTo with a null old matrix is
a fatal null access. -/
theorem load_then_copy_roundtrip (c : Connections α) (D : MatrixFloat α)
    (Dold : Option (MatrixFloat α)) (D2 Dold2 : MatrixFloat α) (p col : Nat)
    (hO : c.num_outputs < 2 ^ 32) (hprod : c.num_inputs * c.num_outputs < 2 ^ 32)
    (hsz : minSize c.total_size c.num_inputs c.num_outputs p col ≤ D.size)
    (hs1 : D.isSimple = true) (hs2 : (Dold.getD D).isSimple = true)
    (hsz2 : minSize c.total_size c.num_inputs c.num_outputs p col ≤ D2.size)
    (hs3 : D2.isSimple = true) (hs4 : Dold2.isSimple = true)
    (hin : ∀ j i, j < c.num_outputs → i < c.num_inputs →
      (p + j * col + i) % 2 ^ 32 < D.size ∧
      (p + j * col + i) % 2 ^ 32 < (Dold.getD D).size ∧
      (p + j * col + i) % 2 ^ 32 < D2.size ∧
      (p + j * col + i) % 2 ^ 32 < Dold2.size) :
    ∃ r c2 E Eold F,
      loadWeights c D Dold p col = .ok (r, c2) ∧
      copyWeightsTo c2 D2 (.other Dold2) p col = .ok (r, E, Eold) ∧
      (∀ j i, j < c.num_outputs → i < c.num_inputs →
        E.data ((p + j * col + i) % 2 ^ 32) = D.data ((p + j * col + i) % 2 ^ 32) ∧
        Eold.data ((p + j * col + i) % 2 ^ 32) =
          (Dold.getD D).data ((p + j * col + i) % 2 ^ 32)) ∧
      (∀ q, (∀ j i, j < c.num_outputs → i < c.num_inputs → q ≠ (p + j * col + i) % 2 ^ 32) →
        E.data q = D2.data q ∧ Eold.data q = Dold2.data q) ∧
      (∀ q, D2.size ≤ q → E.data q = D2.data q) ∧
      (∀ q, Dold2.size ≤ q → Eold.data q = Dold2.data q) ∧
      E.size = D2.size ∧ E.isSimple = D2.isSimple ∧
      Eold.size = Dold2.size ∧ Eold.isSimple = Dold2.isSimple ∧
      copyWeightsTo c2 D2 .same p col = .ok (r, F, F) ∧
      (∀ j i, j < c.num_outputs → i < c.num_inputs →
        F.data ((p + j * col + i) % 2 ^ 32) =
          (Dold.getD D).data ((p + j * col + i) % 2 ^ 32)) ∧
      (∀ q, (∀ j i, j < c.num_outputs → i < c.num_inputs → q ≠ (p + j * col + i) % 2 ^ 32) →
        F.data q = D2.data q) ∧
      F.size = D2.size ∧ F.isSimple = D2.isSimple ∧
      (∀ Dold0, Dold = some Dold0 →
        copyWeightsTo c2 D (.other Dold0) p col = .ok (r, D, Dold0)) ∧
      (Dold.getD D = D → copyWeightsTo c2 D .same p col = .ok (r, D, D)) ∧
      copyWeightsTo c2 D2 .null p col = .error .nullMatrix := by
  have hL := loadWeights_eq c D Dold p col hsz hs1 hs2
  rw [loadWeightsLoop_pos] at hL
  obtain ⟨E, Eold, hrun, hwr, hout, h1, h2, h3, h4⟩ :=
    copyWeightsTo_after_load c D (Dold.getD D) D2 Dold2 p col hO hprod hsz2 hs3 hs4
  obtain ⟨F, hrunF, hwrF, houtF, h5, h6⟩ :=
    copyWeightsTo_same_after_load c D (Dold.getD D) D2 p col hO hprod hsz2 hs3
  refine ⟨_, _, E, Eold, F, hL, hrun, hwr, hout, fun q hq => ?_, fun q hq => ?_, h1, h2, h3, h4,
    hrunF, hwrF, houtF, h5, h6, fun Dold0 h0 => ?_, fun hsame => ?_,
    copyWeightsTo_null _ D2 p col hsz2 hs3⟩
  · refine (hout q (fun j i hj hi he => ?_)).1
    have := (hin j i hj hi).2.2.1
    omega
  · refine (hout q (fun j i hj hi he => ?_)).2
    have := (hin j i hj hi).2.2.2
    omega
  · subst h0
    exact copyWeightsTo_back c D Dold0 p col hO hprod hsz hs1 hs2
  · rw [hsame]
    exact copyWeightsTo_back_same c D p col hO hprod hsz hs1

/-- Witness of claim C8: a dense 2 x 2 matrix loaded, with no old matrix, at
offset 0 with row stride 2 and copied into two zero matrices. -/
theorem load_then_copy_roundtrip_witness :
    ∃ r c2 E Eold F,
      loadWeights exampleConnections exampleMatrix none 0 2 = .ok (r, c2) ∧
      copyWeightsTo c2 exampleTarget (.other exampleTarget) 0 2 = .ok (r, E, Eold) ∧
      (∀ j i, j < 2 → i < 2 →
        E.data ((0 + j * 2 + i) % 2 ^ 32) = exampleMatrix.data ((0 + j * 2 + i) % 2 ^ 32) ∧
        Eold.data ((0 + j * 2 + i) % 2 ^ 32) =
          exampleMatrix.data ((0 + j * 2 + i) % 2 ^ 32)) ∧
      (∀ q, (∀ j i, j < 2 → i < 2 → q ≠ (0 + j * 2 + i) % 2 ^ 32) →
        E.data q = exampleTarget.data q ∧ Eold.data q = exampleTarget.data q) ∧
      (∀ q, 4 ≤ q → E.data q = exampleTarget.data q) ∧
      (∀ q, 4 ≤ q → Eold.data q = exampleTarget.data q) ∧
      E.size = 4 ∧ E.isSimple = true ∧ Eold.size = 4 ∧ Eold.isSimple = true ∧
      copyWeightsTo c2 exampleTarget .same 0 2 = .ok (r, F, F) ∧
      (∀ j i, j < 2 → i < 2 →
        F.data ((0 + j * 2 + i) % 2 ^ 32) = exampleMatrix.data ((0 + j * 2 + i) % 2 ^ 32)) ∧
      (∀ q, (∀ j i, j < 2 → i < 2 → q ≠ (0 + j * 2 + i) % 2 ^ 32) →
        F.data q = exampleTarget.data q) ∧
      F.size = 4 ∧ F.isSimple = true ∧
      (∀ Dold0, (none : Option (MatrixFloat ℚ)) = some Dold0 →
        copyWeightsTo c2 exampleMatrix (.other Dold0) 0 2 = .ok (r, exampleMatrix, Dold0)) ∧
      (exampleMatrix = exampleMatrix →
        copyWeightsTo c2 exampleMatrix .same 0 2 = .ok (r, exampleMatrix, exampleMatrix)) ∧
      copyWeightsTo c2 exampleTarget .null 0 2 = .error .nullMatrix :=
  load_then_copy_roundtrip exampleConnections exampleMatrix none exampleTarget
    exampleTarget 0 2 (by decide) (by decide) (by decide) rfl rfl (by decide) rfl rfl
    (forall_lt_two _ (by decide) (by decide) (by decide) (by decide))

/-- Claim C9 fails on the code; the code at the failing input: a 2 x 2
Connections loaded from a simple matrix of 4 elements at offset 0 with row
stride 3. min_size is 4, so the size check passes and the call succeeds, and
weight 3 (output 1, input 1) is read from position 0 + 1*3 + 1 = 4, which is
not smaller than the size of the matrix. -/
theorem loadWeights_reads_past_the_end :
    minSize exampleConnections.total_size exampleConnections.num_inputs
        exampleConnections.num_outputs 0 3 = 4 ∧
    exampleMatrix.size = 4 ∧
    (∃ c2, loadWeights exampleConnections exampleMatrix none 0 3 = .ok (6, c2) ∧
      c2.weights (1 + 1 * 2) = exampleMatrix.data (0 + 1 * 3 + 1)) ∧
    ¬ (0 + 1 * 3 + 1 < exampleMatrix.size) := by
  refine ⟨by decide, rfl, ⟨_, loadWeights_eq exampleConnections exampleMatrix none 0 3
    (by decide) rfl rfl, ?_⟩, by decide⟩
  exact ((loadWeightsLoop_spec 2 2 exampleMatrix.data exampleMatrix.data 0 3
    exampleConnections.weights exampleConnections.prev_weights (by decide)
    (by decide)).2.1 1 1 (by decide) (by decide)).1

/-- Counterexample to claim C10 as stated: a 2 x 2
Connections loaded from a simple matrix of 6 elements (element q is q + 10), no
old matrix, at offset 2 with row stride 4294967295. min_size is 6, so the size
check passes, and the four positions read, 2, 3, 1, 2, are inside the matrix.
The call returns 0, not 2 + 2*4294967295; weight 1 (output 1, input 0) is
element 1 of the matrix, 11, not an element at position 2 + 1*4294967295 + 0;
and copyWeightsTo with the same arguments, the old matrix being null, is a
fatal null access after the size check. -/
theorem loadWeights_returns_a_wrapped_position :
    minSize exampleConnections.total_size exampleConnections.num_inputs
        exampleConnections.num_outputs 2 4294967295 = 6 ∧
    exampleMatrixSix.size = 6 ∧
    (∀ j i, j < 2 → i < 2 → (2 + j * 4294967295 + i) % 2 ^ 32 < 6) ∧
    (∃ c2,
      loadWeights exampleConnections exampleMatrixSix none 2 4294967295 = .ok (0, c2) ∧
      c2.weights (1 + 0 * 2) = 11 ∧
      copyWeightsTo c2 exampleMatrixSix .null 2 4294967295 = .error .nullMatrix) ∧
    (0 : Nat) ≠ 2 + 2 * 4294967295 ∧
    ¬ (2 + 1 * 4294967295 + 0 < exampleMatrixSix.size) ∧
    exampleMatrixSix.data (2 + 1 * 4294967295 + 0) ≠ 11 := by
  refine ⟨by decide, rfl, forall_lt_two _ (by decide) (by decide) (by decide) (by decide),
    ?_, by decide, by decide, by norm_num [exampleMatrixSix]⟩
  have hL := loadWeights_eq exampleConnections exampleMatrixSix none
    2 4294967295 (by decide) rfl rfl
  rw [loadWeightsLoop_pos] at hL
  have h0 : (2 + exampleConnections.num_outputs * 4294967295) % 2 ^ 32 = 0 := by decide
  have h1 : (2 + 1 * 4294967295 + 0) % 2 ^ 32 = 1 := by decide
  rw [h0] at hL
  refine ⟨_, hL, ?_, ?_⟩
  · have h := ((loadWeightsLoop_spec 2 2 exampleMatrixSix.data exampleMatrixSix.data
      2 4294967295 exampleConnections.weights exampleConnections.prev_weights
      (by decide) (by decide)).2.1 1 0 (by decide) (by decide)).1
    rw [h1] at h
    refine Eq.trans h ?_
    norm_num [exampleMatrixSix]
  · exact copyWeightsTo_null _ _ _ _ (by decide) rfl

/-- Claim C10, amended: on a Connections with num_outputs and num_inputs *
num_outputs below 2^32, after a successful loadWeights(D, Dold, p, c) whose
positions (p + j*c + i) mod 2^32, for j < num_outputs and i < num_inputs, lie
inside D and Dold (Dold being D itself when no old matrix is given): each such
position q is inside D and weights[j + i*num_outputs] = D[q] and
prev_weights[j + i*num_outputs] = Dold[q], so the staging buffer equals the
weights when no old matrix is given; the call returns
(p + num_outputs*c) mod 2^32, which is p + num_outputs*c when that is below
2^32; copyWeightsTo on D with the old matrix that was loaded, or with D given
as both, succeeds with the same value, and so does every successful
copyWeightsTo at the same offset and stride; copyWeightsTo with a null old
matrix is a fatal null access. -/
theorem loadWeights_result (c : Connections α) (D : MatrixFloat α)
    (Dold : Option (MatrixFloat α)) (p col r : Nat) (c2 : Connections α)
    (hO : c.num_outputs < 2 ^ 32) (hprod : c.num_inputs * c.num_outputs < 2 ^ 32)
    (h : loadWeights c D Dold p col = .ok (r, c2))
    (hin : ∀ j i, j < c.num_outputs → i < c.num_inputs →
      (p + j * col + i) % 2 ^ 32 < D.size ∧
      (p + j * col + i) % 2 ^ 32 < (Dold.getD D).size) :
    (∀ j i, j < c.num_outputs → i < c.num_inputs →
      (p + j * col + i) % 2 ^ 32 < D.size ∧
      (p + j * col + i) % 2 ^ 32 < (Dold.getD D).size ∧
      c2.weights (j + i * c.num_outputs) = D.data ((p + j * col + i) % 2 ^ 32) ∧
      c2.prev_weights (j + i * c.num_outputs) =
        (Dold.getD D).data ((p + j * col + i) % 2 ^ 32)) ∧
    (Dold = none → ∀ j i, j < c.num_outputs → i < c.num_inputs →
      c2.prev_weights (j + i * c.num_outputs) = c2.weights (j + i * c.num_outputs)) ∧
    r = (p + c.num_outputs * col) % 2 ^ 32 ∧
    (p + c.num_outputs * col < 2 ^ 32 → r = p + c.num_outputs * col) ∧
    (∀ Dold0, Dold = some Dold0 →
      ∃ m, copyWeightsTo c2 D (.other Dold0) p col = .ok (r, m)) ∧
    (∃ m, copyWeightsTo c2 D .same p col = .ok (r, m)) ∧
    (∀ D2 Dold2 r2 m, copyWeightsTo c2 D2 Dold2 p col = .ok (r2, m) → r2 = r) ∧
    copyWeightsTo c2 D .null p col = .error .nullMatrix := by
  obtain ⟨hsz, hs1, hs2⟩ := loadWeights_checks c D Dold p col _ h
  rw [loadWeights_eq c D Dold p col hsz hs1 hs2] at h
  obtain ⟨hpos, hload, _⟩ := loadWeightsLoop_spec c.num_inputs c.num_outputs D.data
    (Dold.getD D).data p col c.weights c.prev_weights hO hprod
  simp only [Except.ok.injEq, Prod.mk.injEq] at h
  obtain ⟨hr, hc2⟩ := h
  subst hc2
  rw [hpos] at hr
  subst hr
  refine ⟨fun j i hj hi => ⟨(hin j i hj hi).1, (hin j i hj hi).2, hload j i hj hi⟩,
    fun hnone j i hj hi => ?_, rfl, fun hlt => Nat.mod_eq_of_lt hlt, fun Dold0 h0 => ?_,
    ?_, fun D2 Dold2 r2 m hcp => ?_, copyWeightsTo_null _ D p col hsz hs1⟩
  · subst hnone
    exact (hload j i hj hi).2.trans (hload j i hj hi).1.symm
  · subst h0
    exact ⟨_, copyWeightsTo_back c D Dold0 p col hO hprod hsz hs1 hs2⟩
  · exact ⟨_, copyWeightsTo_eq_same _ D p col hsz hs1⟩
  · exact copyWeightsTo_value _ D2 Dold2 p col _ hcp

/-- Witness of claim C10: a dense 2 x 2 matrix loaded at offset 0 with row
stride 2 and no old matrix; the call returns 0 + 2*2 = 4. -/
theorem loadWeights_result_witness :
    ∃ c2, loadWeights exampleConnections exampleMatrix none 0 2 = .ok (4, c2) ∧
      c2.weights (1 + 0 * 2) = exampleMatrix.data ((0 + 1 * 2 + 0) % 2 ^ 32) ∧
      c2.prev_weights (1 + 0 * 2) = c2.weights (1 + 0 * 2) ∧
      (∃ m, copyWeightsTo c2 exampleMatrix .same 0 2 = .ok (4, m)) ∧
      copyWeightsTo c2 exampleMatrix .null 0 2 = .error .nullMatrix :=
  ⟨_, loadWeights_eq exampleConnections exampleMatrix none 0 2 (by decide) rfl rfl,
    ((loadWeights_result exampleConnections exampleMatrix none 0 2 4 _ (by decide) (by decide)
      (loadWeights_eq exampleConnections exampleMatrix none 0 2 (by decide) rfl rfl)
      (forall_lt_two _ (by decide) (by decide) (by decide) (by decide))).1
      1 0 (by decide) (by decide)).2.2.1,
    (loadWeights_result exampleConnections exampleMatrix none 0 2 4 _ (by decide) (by decide)
      (loadWeights_eq exampleConnections exampleMatrix none 0 2 (by decide) rfl rfl)
      (forall_lt_two _ (by decide) (by decide) (by decide) (by decide))).2.1
      rfl 1 0 (by decide) (by decide),
    (loadWeights_result exampleConnections exampleMatrix none 0 2 4 _ (by decide) (by decide)
      (loadWeights_eq exampleConnections exampleMatrix none 0 2 (by decide) rfl rfl)
      (forall_lt_two _ (by decide) (by decide) (by decide) (by decide))).2.2.2.2.2.1,
    (loadWeights_result exampleConnections exampleMatrix none 0 2 4 _ (by decide) (by decide)
      (loadWeights_eq exampleConnections exampleMatrix none 0 2 (by decide) rfl rfl)
      (forall_lt_two _ (by decide) (by decide) (by decide) (by decide))).2.2.2.2.2.2.2⟩

end Connections

/-! ### Copies of matrices and components, backward step, build -/

section Copies

variable {α : Type}

/-- Claim C11: for every Connections c (its total_size being num_inputs *
num_outputs, as the constructor leaves it), the object c.clone() returns has
the same num_inputs, num_outputs and total_size as c, a weights buffer and a
staging buffer equal to those of c at every index below total_size, reference
count 0 and update_weights_calls 0, whatever the counters of c are. The method
returns a new object with two blocks of its own and writes nothing to c. -/
theorem Connections.clone_copies_buffers (c : Connections α) (w0 p0 : Nat → α) (cuda_flag : Bool)
    (hwf : c.total_size = c.num_inputs * c.num_outputs) :
    (c.clone w0 p0 cuda_flag).num_inputs = c.num_inputs ∧
    (c.clone w0 p0 cuda_flag).num_outputs = c.num_outputs ∧
    (c.clone w0 p0 cuda_flag).total_size = c.total_size ∧
    (∀ i, i < c.total_size →
      (c.clone w0 p0 cuda_flag).weights i = c.weights i ∧
      (c.clone w0 p0 cuda_flag).prev_weights i = c.prev_weights i) ∧
    (c.clone w0 p0 cuda_flag).num_references = 0 ∧
    (c.clone w0 p0 cuda_flag).update_weights_calls = 0 := by
  refine ⟨rfl, rfl, hwf.symm, fun i hi => ?_, rfl, rfl⟩
  simp only [Connections.clone, Connections.new, doScopy_apply, if_pos hi, and_self]

/-- Witness of claim C11: the clone of a 1 x 3 matrix that one component
references. -/
theorem Connections.clone_copies_buffers_witness :
    (exampleBiasVector.clone (fun _ => 0) (fun _ => 0) false).total_size = 3 ∧
    (exampleBiasVector.clone (fun _ => 0) (fun _ => 0) false).weights 2 =
      exampleBiasVector.weights 2 ∧
    exampleBiasVector.num_references = 1 ∧
    (exampleBiasVector.clone (fun _ => 0) (fun _ => 0) false).num_references = 0 :=
  ⟨(Connections.clone_copies_buffers exampleBiasVector (fun _ => 0) (fun _ => 0) false rfl).2.2.1,
    ((Connections.clone_copies_buffers exampleBiasVector (fun _ => 0) (fun _ => 0) false rfl).2.2.2.1
      2 (by decide)).1,
    rfl,
    (Connections.clone_copies_buffers exampleBiasVector (fun _ => 0) (fun _ => 0) false rfl).2.2.2.2.1⟩

end Copies

namespace BiasANNComponent

variable {α : Type} [LinearOrderedField α]

/-- Claim C17: doUpdate fails on its assertion whenever learning_rate is not
positive, as it is (-1) in a freshly constructed component; the assertion is
the first statement of the method, so the exit comes before beginUpdate or any
write to the weight matrix. -/
theorem doUpdate_needs_learning_rate (sqrtf : α → α) (comp : BiasANNComponent α)
    (bv : Connections α) :
    (¬ 0 < comp.learning_rate → doUpdate sqrtf comp bv = .error .learningRateNotFixed) ∧
    (∀ (name weights_name : String) (use_cuda : Bool) (out0 : Nat → α),
      (new name weights_name use_cuda out0 : BiasANNComponent α).learning_rate = -1 ∧
      doUpdate sqrtf (new name weights_name use_cuda out0) bv =
        .error .learningRateNotFixed) := by
  refine ⟨fun h => ?_, fun name weights_name use_cuda out0 => ⟨rfl, ?_⟩⟩
  · unfold doUpdate
    have h2 : ¬ comp.learning_rate > 0 := h
    simp [h2]
  · unfold doUpdate
    have h2 : ¬ ((new name weights_name use_cuda out0 : BiasANNComponent α).learning_rate > 0) := by
      simp [new]
    simp [h2]

/-- Claim C19: for every bias component c, built or not, c.clone() is a component
with the name, the weights_name, the learning_rate and the momentum of c, with
no bound weight matrix, no input and no error token (and sizes 0). The method
returns a new object and writes nothing to c or to the matrix of c. -/
theorem clone_keeps_options (comp : BiasANNComponent α) (use_cuda : Bool) (out0 : Nat → α) :
    (comp.clone use_cuda out0).name = comp.name ∧
    (comp.clone use_cuda out0).weights_name = comp.weights_name ∧
    (comp.clone use_cuda out0).learning_rate = comp.learning_rate ∧
    (comp.clone use_cuda out0).momentum = comp.momentum ∧
    (comp.clone use_cuda out0).bias_vector = none ∧
    (comp.clone use_cuda out0).input = none ∧
    (comp.clone use_cuda out0).error = none ∧
    (comp.clone use_cuda out0).input_size = 0 ∧
    (comp.clone use_cuda out0).output_size = 0 :=
  ⟨rfl, rfl, rfl, rfl, rfl, rfl, rfl, rfl, rfl⟩

end BiasANNComponent

/-! ### Building bias components -/

section Build

variable {α : Type} {D : Type}

open BiasANNComponent

theorem BiasANNComponent.build_eq_of_base
    (baseBuild : BiasANNComponent α → Nat → Nat → D → Except Failure (Nat × Nat × D))
    (comp : BiasANNComponent α) (i o : Nat) (memory : Memory α)
    (weights_dict : String → Option Nat) (cd : D) (w0 p0 : Nat → α)
    (isz osz : Nat) (cd2 : D) (hbase : baseBuild comp i o cd = .ok (isz, osz, cd2)) :
    build baseBuild comp i o memory weights_dict cd w0 p0 =
      if isz = 0 ∨ osz = 0 then .error .impossibleSizes
      else if isz ≠ osz then .error .sizesNotEqual
      else
        match weights_dict comp.weights_name with
        | some w =>
          if (comp.releaseBound memory).deleted w then .error .deletedMatrix
          else if !(memory.conn w).checkInputOutputSizes 1 osz then .error .incorrectWeightsSize
          else
            .ok ({ comp with input_size := isz, output_size := osz, bias_vector := some w },
              { conn := store memory.conn w (memory.conn w).countReference
                next := memory.next
                holders := store (comp.releaseBound memory).holders w
                  ((comp.releaseBound memory).holders w + 1)
                deleted := (comp.releaseBound memory).deleted },
              weights_dict, cd2)
        | none =>
          .ok ({ comp with
                input_size := isz, output_size := osz, bias_vector := some memory.next },
            { conn := store memory.conn memory.next (Connections.new 1 osz w0 p0).countReference
              next := memory.next + 1
              holders := store (store (comp.releaseBound memory).holders memory.next 0)
                memory.next 1
              deleted := store (comp.releaseBound memory).deleted memory.next false },
            fun key => if key = comp.weights_name then some memory.next else weights_dict key,
            cd2) := by
  have hconn : (comp.releaseBound memory).conn = memory.conn := by
    unfold releaseBound
    cases comp.bias_vector <;> rfl
  have hnext : (comp.releaseBound memory).next = memory.next := by
    unfold releaseBound
    cases comp.bias_vector <;> rfl
  have hrel : ({ comp with input_size := isz, output_size := osz } :
      BiasANNComponent α).releaseBound memory = comp.releaseBound memory := rfl
  unfold build
  rw [hbase]
  simp only [hrel, hconn, hnext, Memory.incRef, store]
  split
  · rfl
  · split
    · rfl
    · cases weights_dict comp.weights_name with
      | none => simp
      | some w => simp

theorem Connections.checkInputOutputSizes_iff (c : Connections α) (a b : Nat) :
    c.checkInputOutputSizes a b = true ↔ c.num_inputs = a ∧ c.num_outputs = b := by
  unfold Connections.checkInputOutputSizes
  by_cases h1 : c.num_inputs = a <;> by_cases h2 : c.num_outputs = b <;> simp [h1, h2]

/-- Claim C13: with the input_size and output_size the build of the base class
resolves, BiasANNComponent::build fails (exit 141) whenever either of the two
is 0 and fails (exit 142) whenever they differ; it gets past the two size
checks exactly when input_size = output_size > 0. -/
theorem BiasANNComponent.build_size_validation
    (baseBuild : BiasANNComponent α → Nat → Nat → D → Except Failure (Nat × Nat × D))
    (comp : BiasANNComponent α) (i o : Nat) (memory : Memory α)
    (weights_dict : String → Option Nat) (cd : D) (w0 p0 : Nat → α)
    (isz osz : Nat) (cd2 : D) (hbase : baseBuild comp i o cd = .ok (isz, osz, cd2)) :
    (isz = 0 ∨ osz = 0 →
      build baseBuild comp i o memory weights_dict cd w0 p0 = .error .impossibleSizes) ∧
    (isz ≠ 0 → osz ≠ 0 → isz ≠ osz →
      build baseBuild comp i o memory weights_dict cd w0 p0 = .error .sizesNotEqual) ∧
    ((build baseBuild comp i o memory weights_dict cd w0 p0 ≠ .error .impossibleSizes ∧
      build baseBuild comp i o memory weights_dict cd w0 p0 ≠ .error .sizesNotEqual) ↔
      (isz = osz ∧ 0 < isz)) := by
  rw [build_eq_of_base baseBuild comp i o memory weights_dict cd w0 p0 isz osz cd2 hbase]
  refine ⟨fun h => by rw [if_pos h], fun h1 h2 h3 => ?_, ?_⟩
  · rw [if_neg (by omega), if_pos h3]
  · by_cases h0 : isz = 0 ∨ osz = 0
    · rw [if_pos h0]
      constructor
      · intro h
        exact absurd rfl h.1
      · intro h
        omega
    · rw [if_neg h0]
      by_cases hne : isz ≠ osz
      · rw [if_pos hne]
        constructor
        · intro h
          exact absurd rfl h.2
        · intro h
          exact absurd h.1 hne
      · rw [if_neg hne]
        have heq : isz = osz := by omega
        constructor
        · intro _
          exact ⟨heq, by omega⟩
        · intro _
          cases hw : weights_dict comp.weights_name with
          | none => simp
          | some w =>
            by_cases hd : (comp.releaseBound memory).deleted w = true <;>
              by_cases hc : (!(memory.conn w).checkInputOutputSizes 1 osz) = true <;>
              simp [hd, hc]

/-- Witness of claim C13: a build with sizes 3 and 3 gets past the size checks,
the base class build binding the sizes asked for. -/
theorem BiasANNComponent.build_size_validation_witness :
    (build baseBuildBind exampleBias 3 3 exampleMemory (fun _ => none) ()
        (fun _ => 0) (fun _ => 0) ≠ .error .impossibleSizes ∧
      build baseBuildBind exampleBias 3 3 exampleMemory (fun _ => none) ()
        (fun _ => 0) (fun _ => 0) ≠ .error .sizesNotEqual) ↔ ((3 : Nat) = 3 ∧ 0 < 3) :=
  (BiasANNComponent.build_size_validation baseBuildBind exampleBias 3 3 exampleMemory
    (fun _ => none) () (fun _ => 0) (fun _ => 0) 3 3 () rfl).2.2

theorem BiasANNComponent.build_inv
    (baseBuild : BiasANNComponent α → Nat → Nat → D → Except Failure (Nat × Nat × D))
    (comp : BiasANNComponent α) (i o : Nat) (memory : Memory α)
    (weights_dict : String → Option Nat) (cd : D) (w0 p0 : Nat → α)
    (built : BiasANNComponent α) (memory2 : Memory α) (weights_dict2 : String → Option Nat)
    (cd2 : D)
    (h : build baseBuild comp i o memory weights_dict cd w0 p0 =
      .ok (built, memory2, weights_dict2, cd2)) :
    (∀ w, weights_dict comp.weights_name = some w →
      weights_dict2 = weights_dict ∧ built.bias_vector = some w ∧
      memory2.conn w = (memory.conn w).countReference) ∧
    (weights_dict comp.weights_name = none →
      built.bias_vector = some memory.next ∧
      weights_dict2 comp.weights_name = some memory.next ∧
      (memory2.conn memory.next).num_references = 1) := by
  cases hb : baseBuild comp i o cd with
  | error e =>
    unfold build at h
    rw [hb] at h
    cases h
  | ok r =>
    obtain ⟨isz, osz, cd3⟩ := r
    rw [build_eq_of_base baseBuild comp i o memory weights_dict cd w0 p0 isz osz cd3 hb] at h
    by_cases h0 : isz = 0 ∨ osz = 0
    · rw [if_pos h0] at h
      cases h
    · rw [if_neg h0] at h
      by_cases hne : isz ≠ osz
      · rw [if_pos hne] at h
        cases h
      · rw [if_neg hne] at h
        constructor
        · intro w hw
          rw [hw] at h
          by_cases hd : (comp.releaseBound memory).deleted w = true
          · simp [hd] at h
          · by_cases hc : (!(memory.conn w).checkInputOutputSizes 1 osz) = true
            · simp [hd, hc] at h
            · simp only [hd, hc, if_false, Except.ok.injEq, Prod.mk.injEq] at h
              obtain ⟨rfl, rfl, rfl, _⟩ := h
              exact ⟨rfl, rfl, by simp [store]⟩
        · intro hnone
          rw [hnone] at h
          simp only [Except.ok.injEq, Prod.mk.injEq] at h
          obtain ⟨rfl, rfl, rfl, _⟩ := h
          exact ⟨rfl, by simp, by simp [store, Connections.countReference, Connections.new]⟩

theorem BiasANNComponent.buildAll_present
    (baseBuild : BiasANNComponent α → Nat → Nat → D → Except Failure (Nat × Nat × D))
    (w0 p0 : Nat → α) (nm : String) (a : Nat)
    (comps : List (BiasANNComponent α × Nat × Nat)) :
    ∀ (memory : Memory α) (weights_dict : String → Option Nat) (cd : D)
      (res : List (BiasANNComponent α) × Memory α × (String → Option Nat) × D),
      (∀ x ∈ comps, x.1.weights_name = nm) → weights_dict nm = some a →
      buildAll baseBuild w0 p0 comps memory weights_dict cd = .ok res →
      res.2.2.1 = weights_dict ∧ (∀ c ∈ res.1, c.bias_vector = some a) ∧
      (res.2.1.conn a).num_references = (memory.conn a).num_references + comps.length ∧
      res.1.length = comps.length := by
  induction comps with
  | nil =>
    intro memory weights_dict cd res _ _ h
    simp only [buildAll, Except.ok.injEq] at h
    subst h
    simp
  | cons x rest ih =>
    intro memory weights_dict cd res hnm hw h
    obtain ⟨comp, i, o⟩ := x
    have hname : comp.weights_name = nm := hnm (comp, i, o) (List.mem_cons_self _ _)
    simp only [buildAll] at h
    cases hb : build baseBuild comp i o memory weights_dict cd w0 p0 with
    | error e =>
      rw [hb] at h
      cases h
    | ok r =>
      obtain ⟨built, memory2, weights_dict2, cd2⟩ := r
      rw [hb] at h
      simp only at h
      obtain ⟨hd, hbv, hmem⟩ :=
        (build_inv baseBuild comp i o memory weights_dict cd w0 p0 _ _ _ _ hb).1 a
          (by rw [hname]; exact hw)
      cases hr : buildAll baseBuild w0 p0 rest memory2 weights_dict2 cd2 with
      | error e =>
        rw [hr] at h
        cases h
      | ok r2 =>
        obtain ⟨others, memory3, weights_dict3, cd3⟩ := r2
        rw [hr] at h
        simp only [Except.ok.injEq] at h
        subst h
        obtain ⟨h1, h2, h3, h4⟩ := ih memory2 weights_dict2 cd2 _
          (fun y hy => hnm y (List.mem_cons_of_mem _ hy)) (by rw [hd]; exact hw) hr
        refine ⟨by rw [h1, hd], ?_, ?_, by simp [h4]⟩
        · intro c hc
          rcases List.mem_cons.mp hc with rfl | hc
          · exact hbv
          · exact h2 c hc
        · simp only at h3 ⊢
          rw [h3, hmem]
          simp only [Connections.countReference, List.length_cons]
          omega

/-- Claim C14: for every build that gets past the size checks with output size
n: if weights_name is absent from the weight dictionary, the build succeeds, a
new Connections with num_inputs = 1 and num_outputs = n is allocated, entered
under weights_name (no other entry changes) and bound, its reference count is
1 and the component is its one holder; if a matrix of shape 1 x n is present
under that name and is still there once the component has given up the matrix
it was bound to (it is if the component was not bound, or if the matrix has
another holder), the build succeeds, the component binds that same matrix,
nothing is allocated, the dictionary is unchanged and the matrix is as before
but for its reference count, which is one more; if the matrix present has
another shape the build fails; and if the component was the last holder of
the matrix present, the build deletes it and goes on to use it. A component
that is bound is one of the holders of its matrix, which is alive. Hence, when
K >= 1 components that are not bound yet, with one weights_name absent at the
start, are all built with success, they are bound to one matrix, whose
reference count is K. -/
theorem BiasANNComponent.build_binds_shared_matrix
    (baseBuild : BiasANNComponent α → Nat → Nat → D → Except Failure (Nat × Nat × D))
    (comp : BiasANNComponent α) (i o : Nat) (memory : Memory α)
    (weights_dict : String → Option Nat) (cd : D) (w0 p0 : Nat → α)
    (n : Nat) (cd2 : D) (hbase : baseBuild comp i o cd = .ok (n, n, cd2)) (hn : 0 < n)
    (hheld : ∀ x, comp.bias_vector = some x →
      1 ≤ memory.holders x ∧ memory.deleted x = false) :
    (weights_dict comp.weights_name = none →
      ∃ built memory2 weights_dict2,
        build baseBuild comp i o memory weights_dict cd w0 p0 =
          .ok (built, memory2, weights_dict2, cd2) ∧
        built.bias_vector = some memory.next ∧
        weights_dict2 comp.weights_name = some memory.next ∧
        (∀ key, key ≠ comp.weights_name → weights_dict2 key = weights_dict key) ∧
        (memory2.conn memory.next).num_inputs = 1 ∧
        (memory2.conn memory.next).num_outputs = n ∧
        (memory2.conn memory.next).num_references = 1 ∧
        (∀ a, a ≠ memory.next → memory2.conn a = memory.conn a) ∧
        memory2.next = memory.next + 1 ∧
        memory2.holders memory.next = 1 ∧ memory2.deleted memory.next = false) ∧
    (∀ w, weights_dict comp.weights_name = some w →
      (comp.releaseBound memory).deleted w = false →
      (memory.conn w).num_inputs = 1 → (memory.conn w).num_outputs = n →
      ∃ built memory2,
        build baseBuild comp i o memory weights_dict cd w0 p0 =
          .ok (built, memory2, weights_dict, cd2) ∧
        built.bias_vector = some w ∧
        memory2.next = memory.next ∧
        memory2.conn w = (memory.conn w).countReference ∧
        (memory2.conn w).num_references = (memory.conn w).num_references + 1 ∧
        (∀ a, a ≠ w → memory2.conn a = memory.conn a) ∧
        memory2.deleted w = false ∧
        memory2.holders w = (comp.releaseBound memory).holders w + 1) ∧
    (∀ w, weights_dict comp.weights_name = some w →
      (comp.releaseBound memory).deleted w = false →
      ¬ ((memory.conn w).num_inputs = 1 ∧ (memory.conn w).num_outputs = n) →
      build baseBuild comp i o memory weights_dict cd w0 p0 = .error .incorrectWeightsSize) ∧
    (∀ w, weights_dict comp.weights_name = some w →
      (comp.releaseBound memory).deleted w = true →
      build baseBuild comp i o memory weights_dict cd w0 p0 = .error .deletedMatrix) ∧
    ((comp.bias_vector = none →
        ∀ w, (comp.releaseBound memory).deleted w = memory.deleted w) ∧
      (∀ w, comp.bias_vector = some w →
        ((comp.releaseBound memory).deleted w = false ↔ 2 ≤ memory.holders w) ∧
        (comp.releaseBound memory).holders w + 1 = memory.holders w)) ∧
    (∀ (comps : List (BiasANNComponent α × Nat × Nat)) (nm : String) (mem : Memory α)
      (wd : String → Option Nat) (cd0 : D)
      (res : List (BiasANNComponent α) × Memory α × (String → Option Nat) × D),
      (∀ x ∈ comps, x.1.weights_name = nm) → (∀ x ∈ comps, x.1.bias_vector = none) →
      wd nm = none → 1 ≤ comps.length →
      buildAll baseBuild w0 p0 comps mem wd cd0 = .ok res →
      ∃ a, res.2.2.1 nm = some a ∧ (∀ c ∈ res.1, c.bias_vector = some a) ∧
        res.1.length = comps.length ∧
        (res.2.1.conn a).num_references = comps.length) := by
  have heq := build_eq_of_base baseBuild comp i o memory weights_dict cd w0 p0 n n cd2 hbase
  have h0 : ¬ (n = 0 ∨ n = 0) := by omega
  rw [if_neg h0, if_neg (by simp)] at heq
  refine ⟨fun hnone => ?_, fun w hw hlive h1 h2 => ?_, fun w hw hlive hshape => ?_,
    fun w hw hdel => ?_, ⟨fun hfresh w => ?_, fun w hbound => ?_⟩, ?_⟩
  · rw [hnone] at heq
    refine ⟨_, _, _, heq, rfl, by simp, fun key hkey => by simp [hkey], ?_, ?_, ?_,
      fun a ha => by simp [store, ha], rfl, ?_, ?_⟩ <;>
      simp [store, Connections.countReference, Connections.new]
  · have hc : (memory.conn w).checkInputOutputSizes 1 n = true :=
      (Connections.checkInputOutputSizes_iff _ 1 n).mpr ⟨h1, h2⟩
    rw [hw] at heq
    simp only [hlive, hc, Bool.not_true, Bool.false_eq_true, if_false] at heq
    refine ⟨_, _, heq, rfl, rfl, by simp [store], by simp [store, Connections.countReference],
      fun a ha => by simp [store, ha], hlive, by simp [store]⟩
  · have hc : ¬ ((memory.conn w).checkInputOutputSizes 1 n = true) :=
      fun h => hshape ((Connections.checkInputOutputSizes_iff _ 1 n).mp h)
    rw [hw] at heq
    simp only [Bool.not_eq_true] at hc
    simp only [hlive, hc, Bool.not_false, Bool.false_eq_true, if_false, if_true] at heq
    exact heq
  · rw [hw] at heq
    simp only [hdel, if_true] at heq
    exact heq
  · simp [releaseBound, hfresh]
  · have h1 := (hheld w hbound).1
    simp only [releaseBound, hbound, Memory.decRef, store, if_true, decide_eq_false_iff_not]
    omega
  · intro comps nm mem wd cd0 res hnm _ hnone hlen h
    cases comps with
    | nil => simp at hlen
    | cons x rest =>
      obtain ⟨c1, i1, o1⟩ := x
      have hname : c1.weights_name = nm := hnm (c1, i1, o1) (List.mem_cons_self _ _)
      simp only [buildAll] at h
      cases hb : build baseBuild c1 i1 o1 mem wd cd0 w0 p0 with
      | error e =>
        rw [hb] at h
        cases h
      | ok r =>
        obtain ⟨built, memory2, weights_dict2, cd3⟩ := r
        rw [hb] at h
        simp only at h
        obtain ⟨hbv, hd, href⟩ :=
          (build_inv baseBuild c1 i1 o1 mem wd cd0 w0 p0 _ _ _ _ hb).2
            (by rw [hname]; exact hnone)
        rw [hname] at hd
        cases hr : buildAll baseBuild w0 p0 rest memory2 weights_dict2 cd3 with
        | error e =>
          rw [hr] at h
          cases h
        | ok r2 =>
          obtain ⟨others, memory3, weights_dict3, cd4⟩ := r2
          rw [hr] at h
          simp only [Except.ok.injEq] at h
          subst h
          obtain ⟨h1, h2, h3, h4⟩ := buildAll_present baseBuild w0 p0 nm mem.next rest
            memory2 weights_dict2 cd3 _ (fun y hy => hnm y (List.mem_cons_of_mem _ hy)) hd hr
          refine ⟨mem.next, by simp only at h1 ⊢; rw [h1]; exact hd, ?_, by simp [h4], ?_⟩
          · intro c hc
            rcases List.mem_cons.mp hc with rfl | hc
            · exact hbv
            · exact h2 c hc
          · simp only at h3 ⊢
            rw [h3, href]
            simp only [List.length_cons]
            omega

/-- Witness of claim C14: two components not bound yet, named on the same bias
`shared`, built one after the other with sizes 1 and 1 on a memory without
that matrix: they share the matrix allocated by the first build, and its
reference count is 2. -/
theorem BiasANNComponent.build_binds_shared_matrix_witness :
    exampleTiedA.bias_vector = none ∧ exampleTiedB.bias_vector = none ∧
    ∃ a, ∃ res,
      buildAll baseBuildBind (fun _ => (0 : ℚ)) (fun _ => 0)
        [(exampleTiedA, 1, 1), (exampleTiedB, 1, 1)] exampleMemory (fun _ => none) () =
        .ok res ∧
      res.2.2.1 "shared" = some a ∧ (∀ c ∈ res.1, c.bias_vector = some a) ∧
      res.1.length = 2 ∧ (res.2.1.conn a).num_references = 2 := by
  obtain ⟨res, hres⟩ : ∃ res, buildAll baseBuildBind (fun _ => (0 : ℚ)) (fun _ => 0)
      [(exampleTiedA, 1, 1), (exampleTiedB, 1, 1)] exampleMemory (fun _ => none) () =
      .ok res := ⟨_, rfl⟩
  obtain ⟨a, h1, h2, h3, h4⟩ :=
    (BiasANNComponent.build_binds_shared_matrix baseBuildBind exampleTiedA 1 1 exampleMemory
      (fun _ => none) () (fun _ => 0) (fun _ => 0) 1 () rfl (by decide)
      (fun x hx => by cases hx)).2.2.2.2.2
      [(exampleTiedA, 1, 1), (exampleTiedB, 1, 1)] "shared" exampleMemory (fun _ => none) () res
      (by
        intro x hx
        simp only [List.mem_cons, List.mem_singleton, List.not_mem_nil, or_false] at hx
        rcases hx with rfl | rfl <;> rfl)
      (by
        intro x hx
        simp only [List.mem_cons, List.mem_singleton, List.not_mem_nil, or_false] at hx
        rcases hx with rfl | rfl <;> rfl)
      rfl (by decide) hres
  exact ⟨rfl, rfl, a, res, hres, h1, h2, h3, h4⟩

end Build

/-! ### Forward step, reset and options of the bias component -/

section ForwardReset

variable {α : Type}

theorem doVectorSetToZero_unit [Zero α] (v : Nat → α) (n : Nat) (u : Bool) (k : Nat) :
    doVectorSetToZero v n 1 0 u k = if k < n then 0 else v k := by
  unfold doVectorSetToZero
  induction n with
  | zero => simp [forLoop]
  | succ m ih =>
    rw [forLoop_succ]
    simp only [store, Nat.zero_add, Nat.mul_one]
    simp only [Nat.zero_add, Nat.mul_one] at ih
    by_cases hk : k = m
    · subst hk
      simp
    · rw [if_neg hk, ih]
      by_cases hlt : k < m
      · have : k < m + 1 := by omega
        simp [hlt, this]
      · have : ¬ k < m + 1 := by omega
        simp [hlt, this]

theorem doVectorSetToZero_stride_zero [Zero α] (v : Nat → α) (n : Nat) (u : Bool) (k : Nat) :
    doVectorSetToZero v n 0 0 u k = if k = 0 ∧ 0 < n then 0 else v k := by
  unfold doVectorSetToZero
  induction n with
  | zero => simp [forLoop]
  | succ m ih =>
    rw [forLoop_succ]
    simp only [store, Nat.zero_add, Nat.mul_zero]
    simp only [Nat.zero_add, Nat.mul_zero] at ih
    by_cases hk : k = 0
    · simp [hk]
    · rw [if_neg hk, ih]
      simp [hk]

theorem BiasANNComponent.setOption_other (comp : BiasANNComponent α) (name : String) (value : α)
    (h1 : name ≠ "learning_rate") (h2 : name ≠ "momentum") :
    BiasANNComponent.setOption comp name value = comp := by
  simp [BiasANNComponent.setOption, h1, h2]

end ForwardReset

namespace BiasANNComponent

variable {α : Type} [LinearOrderedField α]

theorem reset_output (comp : BiasANNComponent α) (k : Nat) :
    (reset comp).output.mem_block k =
      if k = 0 ∧ 0 < comp.output.max_size then 0 else comp.output.mem_block k := by
  simp only [reset, doVectorSetToZero_stride_zero]

/-- Claim C18 fails on the code; the code at the failing input: a component whose
output token has room for three elements and holds [5, 6, 7]. reset calls
doVectorSetToZero with stride 0 (the call of MSELossFunction::reset has stride
1), which zeroes element 0 only: after reset the output block is [0, 6, 7].
The component holds no input and no error token afterwards, and the other
fields are as they were. -/
theorem reset_zeroes_first_element_only :
    exampleForwarded.output.max_size = 3 ∧
    (reset exampleForwarded).output.mem_block 0 = 0 ∧
    (reset exampleForwarded).output.mem_block 1 = 6 ∧
    (reset exampleForwarded).output.mem_block 2 = 7 ∧
    (reset exampleForwarded).input = none ∧
    (reset exampleForwarded).error = none ∧
    (reset exampleForwarded).learning_rate = exampleForwarded.learning_rate ∧
    (reset exampleForwarded).momentum = exampleForwarded.momentum ∧
    (reset exampleForwarded).bias_vector = exampleForwarded.bias_vector := by
  refine ⟨rfl, ?_, ?_, ?_, rfl, rfl, rfl, rfl, rfl⟩
  · rw [reset_output]
    simp [exampleForwarded]
  · rw [reset_output]
    norm_num [exampleForwarded]
  · rw [reset_output]
    norm_num [exampleForwarded]

/-- Claim C20 fails on the code; the code at the failing input: setOption with
the key "weight_decay" returns with the component as it was and without any
call of the base class (nothing follows the two mSetOption lines), and
hasOption returns false; of the three accessors only getOption ends in the
call of the base class, whose result it returns. The keys learning_rate and
momentum are handled by the component. -/
theorem setOption_ignores_other_keys :
    setOption exampleBias "weight_decay" (1 / 2) = exampleBias ∧
    hasOption exampleBias "weight_decay" = false ∧
    (∀ base : String → Except Failure ℚ,
      getOption base exampleBias "weight_decay" = base "weight_decay") ∧
    (setOption exampleBias "learning_rate" (1 / 2)).learning_rate = 1 / 2 ∧
    (setOption exampleBias "momentum" (1 / 2)).momentum = 1 / 2 ∧
    hasOption exampleBias "learning_rate" = true ∧
    hasOption exampleBias "momentum" = true := by
  refine ⟨?_, ?_, fun base => ?_, ?_, ?_, ?_, ?_⟩
  · exact setOption_other _ _ _ (by decide) (by decide)
  · simp [hasOption]
  · simp [getOption]
  · simp [setOption]
  · simp [setOption]
  · simp [hasOption]
  · simp [hasOption]

/-- The spec's worked forward example, bunch size 1: bias [1, 2, 3] and input
[0, 0, 0] give the output [1, 2, 3]. -/
theorem doForward_worked_example :
    ∃ out comp2,
      doForward exampleBuilt exampleBiasVector
        (some (.memBlock { mem_block := fun _ => 0, used_size := 3, max_size := 3 }))
        false (fun _ => 0) = .ok (out, comp2) ∧
      comp2.bunch_size = 1 ∧ out.used_size = 3 ∧
      out.mem_block 0 = 1 ∧ out.mem_block 1 = 2 ∧ out.mem_block 2 = 3 := by
  refine ⟨_, _, rfl, by decide, by decide, ?_, ?_, ?_⟩ <;>
    norm_num [exampleBuilt, exampleBiasVector, new, Connections.new, Connections.countReference,
      Connections.getPtr, TokenMemoryBlock.resize, doScopyLoop, doSaxpyLoop, doScopy, doSaxpy,
      forLoop, store]

/-- Claim C15 fails on the code; the code at the failing input: a built component
of two units with bias [1, 2] and an input token of used size 4 holding
[10, 20, 30, 40]. doForward sets bunch_size = 4 / 2 = 2 and resizes the output
to 4 elements, and the two loops run with stride bunch_size: element 1, which
is unit 0 of vector 1, is left at its input value 20 where the claim has
20 + bias[0] = 21, and element 3 at 40 where the claim has 40 + bias[1] = 42. -/
theorem doForward_misses_bunch_elements :
    ∃ out comp2,
      doForward exampleBuiltTwo exampleBiasTwo (some (.memBlock exampleInputTwo))
        false (fun _ => 0) = .ok (out, comp2) ∧
      comp2.bunch_size = 2 ∧ out.used_size = 4 ∧
      out.mem_block 1 = 20 ∧ exampleInputTwo.mem_block 1 + exampleBiasTwo.weights 0 = 21 ∧
      out.mem_block 3 = 40 ∧ exampleInputTwo.mem_block 3 + exampleBiasTwo.weights 1 = 42 := by
  refine ⟨_, _, rfl, by decide, by decide, ?_, ?_, ?_, ?_⟩ <;>
    norm_num [exampleBuiltTwo, exampleBiasTwo, exampleInputTwo, new, Connections.new,
      Connections.countReference, Connections.getPtr, TokenMemoryBlock.resize, doScopyLoop,
      doSaxpyLoop, doScopy, doSaxpy, forLoop, store]

end BiasANNComponent

/-! ### Random weights -/

namespace Connections

variable {α : Type} [LinearOrderedField α]

theorem forLoopM_succ {σ : Type} (n : Nat) (body : Nat → σ → Option σ) (s : σ) :
    forLoopM (n + 1) body s = (forLoopM n body s).bind (body n) := rfl

theorem rnd_weight_some (fuel : Nat) (rnd : Nat → α) (dinf range nz : α) :
    ∀ (d : Nat) (v : α) (d2 : Nat), rnd_weight fuel rnd d dinf range nz = some (v, d2) →
      ¬ (v > -nz ∧ v < nz) ∧ ∃ t, v = rnd (d + t) * range + dinf ∧ d2 = d + t + 1 := by
  induction fuel with
  | zero =>
    intro d v d2 h
    simp [rnd_weight] at h
  | succ f ih =>
    intro d v d2 h
    unfold rnd_weight at h
    by_cases hb : rnd d * range + dinf > -nz ∧ rnd d * range + dinf < nz
    · simp only [hb, and_self, if_true] at h
      obtain ⟨h1, t, h2, h3⟩ := ih (d + 1) v d2 h
      exact ⟨h1, t + 1, by rw [h2]; congr 3; omega, by omega⟩
    · simp only [hb, if_false, Option.some.injEq, Prod.mk.injEq] at h
      obtain ⟨h1, h2⟩ := h
      subst h1
      exact ⟨hb, 0, rfl, by omega⟩

theorem rnd_weight_total (fuel : Nat) (rnd : Nat → α) (dinf range nz : α) :
    ∀ d : Nat,
      (∃ t, t < fuel ∧ ¬ (rnd (d + t) * range + dinf > -nz ∧ rnd (d + t) * range + dinf < nz)) →
      ∃ r, rnd_weight fuel rnd d dinf range nz = some r := by
  induction fuel with
  | zero =>
    intro d h
    obtain ⟨t, ht, _⟩ := h
    omega
  | succ f ih =>
    intro d h
    obtain ⟨t, ht, hout⟩ := h
    unfold rnd_weight
    by_cases hb : rnd d * range + dinf > -nz ∧ rnd d * range + dinf < nz
    · simp only [hb, and_self, if_true]
      cases t with
      | zero => exact absurd hb hout
      | succ t2 =>
        apply ih (d + 1)
        refine ⟨t2, by omega, ?_⟩
        have he : d + 1 + t2 = d + (t2 + 1) := by omega
        rw [he]
        exact hout
    · simp only [hb, if_false]
      exact ⟨_, rfl⟩

theorem randomizeWeightsRow_inv (P : α → Prop) (fuel O : Nat) (rnd : Nat → α)
    (dinf range : α)
    (hP : ∀ d v d2, rnd_weight fuel rnd d dinf range weightnearzero = some (v, d2) → P v)
    (j : Nat) (w prev_w : Nat → α) (d0 : Nat) (n : Nat) :
    ∀ s, randomizeWeightsRow fuel n O rnd dinf range j w prev_w d0 = some s →
      s.pos = j + n * O ∧
      ∀ q, (P (w q) ∨ ∃ i, i < n ∧ q = j + i * O) → P (s.first q) := by
  unfold randomizeWeightsRow
  induction n with
  | zero =>
    intro s h
    simp only [forLoopM, Option.some.injEq] at h
    subst h
    refine ⟨by simp, fun q hq => ?_⟩
    rcases hq with hq | ⟨i, hi, _⟩
    · exact hq
    · omega
  | succ m ih =>
    intro s h
    rw [forLoopM_succ] at h
    obtain ⟨s1, hs1, hbody⟩ := Option.bind_eq_some.mp h
    obtain ⟨hpos, hgood⟩ := ih s1 hs1
    cases hr : rnd_weight fuel rnd s1.drawn dinf range weightnearzero with
    | none =>
      rw [hr] at hbody
      cases hbody
    | some r =>
      obtain ⟨v, d2⟩ := r
      rw [hr] at hbody
      simp only [Option.some.injEq] at hbody
      subst hbody
      refine ⟨by simp only [hpos]; ring, fun q hq => ?_⟩
      simp only [store]
      by_cases hk : q = s1.pos
      · rw [if_pos hk]
        exact hP _ _ _ hr
      · rw [if_neg hk]
        apply hgood
        rcases hq with hq | ⟨i, hi, hqi⟩
        · exact Or.inl hq
        · by_cases him : i = m
          · subst him
            exact absurd (hqi.trans hpos.symm) hk
          · exact Or.inr ⟨i, by omega, hqi⟩

theorem randomizeWeightsLoop_inv (P : α → Prop) (fuel I O : Nat) (rnd : Nat → α)
    (dinf range : α)
    (hP : ∀ d v d2, rnd_weight fuel rnd d dinf range weightnearzero = some (v, d2) → P v)
    (w prev_w : Nat → α) (d0 : Nat) (m : Nat) :
    ∀ s, forLoopM m (fun j (s : RandomLoopState α) =>
        randomizeWeightsRow fuel I O rnd dinf range j s.first s.second s.drawn)
        { first := w, second := prev_w, pos := 0, drawn := d0 } = some s →
      ∀ q, (P (w q) ∨ ∃ j i, j < m ∧ i < I ∧ q = j + i * O) → P (s.first q) := by
  induction m with
  | zero =>
    intro s h q hq
    simp only [forLoopM, Option.some.injEq] at h
    subst h
    rcases hq with hq | ⟨j, i, hj, _, _⟩
    · exact hq
    · omega
  | succ k ih =>
    intro s h q hq
    rw [forLoopM_succ] at h
    obtain ⟨s1, hs1, hbody⟩ := Option.bind_eq_some.mp h
    have hrow := (randomizeWeightsRow_inv P fuel O rnd dinf range hP k s1.first s1.second
      s1.drawn I s hbody).2 q
    apply hrow
    rcases hq with hq | ⟨j, i, hj, hi, hqi⟩
    · exact Or.inl (ih s1 hs1 q (Or.inl hq))
    · by_cases hjk : j = k
      · subst hjk
        exact Or.inr ⟨i, hi, hqi⟩
      · exact Or.inl (ih s1 hs1 q (Or.inr ⟨j, i, by omega, hi, hqi⟩))

theorem randomizeWeightsRow_total (fuel O : Nat) (rnd : Nat → α) (dinf range : α)
    (hfair : ∀ d, ∃ t, t < fuel ∧
      ¬ (rnd (d + t) * range + dinf > -weightnearzero ∧
        rnd (d + t) * range + dinf < weightnearzero))
    (j : Nat) (w prev_w : Nat → α) (d0 : Nat) (n : Nat) :
    ∃ s, randomizeWeightsRow fuel n O rnd dinf range j w prev_w d0 = some s := by
  unfold randomizeWeightsRow
  induction n with
  | zero => exact ⟨_, rfl⟩
  | succ m ih =>
    obtain ⟨s1, hs1⟩ := ih
    rw [forLoopM_succ, hs1]
    obtain ⟨r, hr⟩ := rnd_weight_total fuel rnd dinf range weightnearzero s1.drawn (hfair _)
    simp only [Option.some_bind, hr]
    exact ⟨_, rfl⟩

theorem randomizeWeightsLoop_total (fuel I O : Nat) (rnd : Nat → α) (dinf range : α)
    (hfair : ∀ d, ∃ t, t < fuel ∧
      ¬ (rnd (d + t) * range + dinf > -weightnearzero ∧
        rnd (d + t) * range + dinf < weightnearzero))
    (w prev_w : Nat → α) (d0 : Nat) (m : Nat) :
    ∃ s, forLoopM m (fun j (s : RandomLoopState α) =>
        randomizeWeightsRow fuel I O rnd dinf range j s.first s.second s.drawn)
        { first := w, second := prev_w, pos := 0, drawn := d0 } = some s := by
  induction m with
  | zero => exact ⟨_, rfl⟩
  | succ k ih =>
    obtain ⟨s1, hs1⟩ := ih
    rw [forLoopM_succ, hs1]
    exact randomizeWeightsRow_total fuel O rnd dinf range hfair k s1.first s1.second s1.drawn I

theorem weightnearzero_pos : (0 : α) < weightnearzero := by
  unfold weightnearzero
  positivity

theorem randomizeWeights_eq (fuel : Nat) (c : Connections α) (rnd : Nat → α) (drawn : Nat)
    (low high : α) (hlow : |low| > weightnearzero) (hhigh : |high| > weightnearzero) :
    randomizeWeights fuel c rnd drawn low high =
      match forLoopM c.num_outputs (fun j (s : RandomLoopState α) =>
          randomizeWeightsRow fuel c.num_inputs c.num_outputs rnd low (high - low) j
            s.first s.second s.drawn)
          { first := c.weights, second := c.prev_weights, pos := 0, drawn := drawn } with
      | none => .ok none
      | some s =>
        .ok (some ({ c with weights := s.first, prev_weights := s.second }, s.drawn)) := by
  unfold randomizeWeights
  simp only [hlow, hhigh, not_true_eq_false, if_false]

/-- Counterexample to claim C12 as stated: low = 1 and high = -1 pass the two
assertions, and with a generator whose first draw is 0 the weight of a 1 x 1
matrix becomes 0 * (-2) + 1 = 1, which is not in [low, high] = [1, -1]. -/
theorem randomizeWeights_reversed_bounds :
    |(1 : ℚ)| > weightnearzero ∧ |(-1 : ℚ)| > weightnearzero ∧
    ∃ c2 d2,
      randomizeWeights 1 (Connections.new 1 1 (fun _ => (0 : ℚ)) (fun _ => 0))
        (fun _ => 0) 0 1 (-1) = .ok (some (c2, d2)) ∧
      c2.weights 0 = 1 ∧ ¬ (c2.weights 0 ≤ -1) := by
  have h1 : |(1 : ℚ)| > weightnearzero := by norm_num [weightnearzero]
  have h2 : |(-1 : ℚ)| > weightnearzero := by norm_num [weightnearzero]
  refine ⟨h1, h2, ?_⟩
  rw [randomizeWeights_eq _ _ _ _ _ _ h1 h2]
  have hv : ¬ ((0 : ℚ) * (-1 - 1) + 1 > -weightnearzero ∧ (0 : ℚ) * (-1 - 1) + 1 < weightnearzero) := by
    norm_num [weightnearzero]
  have hloop : forLoopM (Connections.new 1 1 (fun _ => (0 : ℚ)) (fun _ => 0)).num_outputs
      (fun j (s : RandomLoopState ℚ) =>
        randomizeWeightsRow 1 (Connections.new 1 1 (fun _ => (0 : ℚ)) (fun _ => 0)).num_inputs
          (Connections.new 1 1 (fun _ => (0 : ℚ)) (fun _ => 0)).num_outputs (fun _ => 0) 1
          (-1 - 1) j s.first s.second s.drawn)
      { first := (Connections.new 1 1 (fun _ => (0 : ℚ)) (fun _ => 0)).weights
        second := (Connections.new 1 1 (fun _ => (0 : ℚ)) (fun _ => 0)).prev_weights
        pos := 0, drawn := 0 } =
      some { first := store (fun _ => 0) 0 (0 * (-1 - 1) + 1)
             second := store (fun _ => 0) 0 (0 * (-1 - 1) + 1)
             pos := 0 + 1, drawn := 0 + 1 } := by
    simp only [Connections.new, forLoopM, randomizeWeightsRow, rnd_weight, hv, if_false,
      Option.some_bind]
  rw [hloop]
  refine ⟨_, _, rfl, ?_, ?_⟩ <;> norm_num [store]

/-- Claim C12, amended: for every generator of uniform draws in [0, 1] and every
low <= high with |low| and |high| greater than weightnearzero = 1e-7, a run of
randomizeWeights(rng, low, high) that returns leaves every weight w (every
index below num_inputs * num_outputs) outside the near-zero band,
|w| >= weightnearzero, and in [low, high]; and it does return whenever, from
every point of the generator's sequence, one of the next `fuel` draws gives a
value outside the band. -/
theorem randomizeWeights_outside_band (fuel : Nat) (c : Connections α) (rnd : Nat → α)
    (drawn : Nat) (low high : α) (hlow : |low| > weightnearzero)
    (hhigh : |high| > weightnearzero) (hle : low ≤ high)
    (hrnd : ∀ n, 0 ≤ rnd n ∧ rnd n ≤ 1) :
    (∀ c2 d2, randomizeWeights fuel c rnd drawn low high = .ok (some (c2, d2)) →
      ∀ k, k < c.num_inputs * c.num_outputs →
        weightnearzero ≤ |c2.weights k| ∧ low ≤ c2.weights k ∧ c2.weights k ≤ high) ∧
    ((∀ d, ∃ t, t < fuel ∧
        ¬ (rnd (d + t) * (high - low) + low > -weightnearzero ∧
          rnd (d + t) * (high - low) + low < weightnearzero)) →
      ∃ c2 d2, randomizeWeights fuel c rnd drawn low high = .ok (some (c2, d2))) := by
  rw [randomizeWeights_eq fuel c rnd drawn low high hlow hhigh]
  constructor
  · intro c2 d2 h k hk
    cases hloop : forLoopM c.num_outputs (fun j (s : RandomLoopState α) =>
          randomizeWeightsRow fuel c.num_inputs c.num_outputs rnd low (high - low) j
            s.first s.second s.drawn)
          { first := c.weights, second := c.prev_weights, pos := 0, drawn := drawn } with
    | none =>
      rw [hloop] at h
      simp at h
    | some s =>
      rw [hloop] at h
      simp only [Except.ok.injEq, Option.some.injEq, Prod.mk.injEq] at h
      obtain ⟨hc2, _⟩ := h
      subst hc2
      have hO : 0 < c.num_outputs := by
        rcases Nat.eq_zero_or_pos c.num_outputs with h0 | h0
        · rw [h0] at hk
          omega
        · exact h0
      have hdiv : k / c.num_outputs < c.num_inputs := by
        rw [Nat.div_lt_iff_lt_mul hO]
        exact hk
      have hkeq : k = k % c.num_outputs + k / c.num_outputs * c.num_outputs := by
        have := Nat.mod_add_div k c.num_outputs
        rw [Nat.mul_comm] at this
        exact this.symm
      obtain ⟨hband, n, hn⟩ := randomizeWeightsLoop_inv
        (fun v => ¬ (v > -weightnearzero ∧ v < weightnearzero) ∧
          ∃ n, v = rnd n * (high - low) + low)
        fuel c.num_inputs c.num_outputs rnd low (high - low)
        (fun d v d2 hr => by
          obtain ⟨h1, t, h2, _⟩ := rnd_weight_some fuel rnd low (high - low) weightnearzero d v d2 hr
          exact ⟨h1, d + t, h2⟩)
        c.weights c.prev_weights drawn c.num_outputs s hloop k
        (Or.inr ⟨k % c.num_outputs, k / c.num_outputs, Nat.mod_lt _ hO, hdiv, hkeq⟩)
      simp only
      obtain ⟨hr0, hr1⟩ := hrnd n
      have hrange : 0 ≤ high - low := by linarith
      have hprod0 : 0 ≤ rnd n * (high - low) := mul_nonneg hr0 hrange
      have hprod1 : rnd n * (high - low) ≤ high - low := by
        have := mul_le_mul_of_nonneg_right hr1 hrange
        linarith
      refine ⟨?_, by rw [hn]; linarith, by rw [hn]; linarith⟩
      rw [le_abs]
      by_cases hge : weightnearzero ≤ s.first k
      · exact Or.inl hge
      · right
        have h1 : s.first k < weightnearzero := not_le.mp hge
        have h2 : ¬ (s.first k > -weightnearzero) := fun h => hband ⟨h, h1⟩
        linarith [not_lt.mp h2]
  · intro hfair
    obtain ⟨s, hs⟩ := randomizeWeightsLoop_total fuel c.num_inputs c.num_outputs rnd low
      (high - low) hfair c.weights c.prev_weights drawn c.num_outputs
    rw [hs]
    exact ⟨_, _, rfl⟩

/-- Witness of claim C12 (amended): a 2 x 2 matrix, the bounds -1 and 1, and a
generator whose draws alternate between 1/2 (which gives 0, inside the band) and
1/4 (which gives -1/2). -/
theorem randomizeWeights_outside_band_witness :
    (∃ c2 d2, randomizeWeights 2 exampleConnections exampleDraws 0 (-1) 1 =
      .ok (some (c2, d2))) ∧
    (∀ c2 d2, randomizeWeights 2 exampleConnections exampleDraws 0 (-1) 1 =
        .ok (some (c2, d2)) →
      ∀ k, k < exampleConnections.num_inputs * exampleConnections.num_outputs →
        weightnearzero ≤ |c2.weights k| ∧ -1 ≤ c2.weights k ∧ c2.weights k ≤ 1) := by
  have h := randomizeWeights_outside_band 2 exampleConnections exampleDraws 0 (-1) 1
    (by norm_num [weightnearzero]) (by norm_num [weightnearzero]) (by norm_num)
    (by
      intro n
      unfold exampleDraws
      split <;> norm_num)
  refine ⟨h.2 ?_, h.1⟩
  intro d
  rcases Nat.mod_two_eq_zero_or_one d with hd | hd
  · refine ⟨1, by decide, ?_⟩
    have : (d + 1) % 2 = 1 := by omega
    simp only [exampleDraws, this]
    norm_num [weightnearzero]
  · refine ⟨0, by decide, ?_⟩
    simp only [exampleDraws, Nat.add_zero, hd]
    norm_num [weightnearzero]

end Connections

/-! ### One update of an unshared matrix, and the frame of `beginUpdate` -/

namespace BiasANNComponent

variable {α : Type} [LinearOrderedField α]

/-- Claim C29: for a bias component with learning_rate > 0 and a recorded error
of bunch size B, on a weight matrix of reference count 1 at the start of a
cycle (update_weights_calls = 0), with old live weights w, old staging p and
g[j] = (-learning_rate / sqrt(B)) * (sum over b < B of error[b, j]), element
(b, j) of the error being at index j * B + b: one doUpdate succeeds, swaps the
buffers, and leaves update_weights_calls = 0, new staging[j] = w[j] for every
j, and for every j below output_size and the size of the matrix new
weights[j] = w[j] + momentum * (w[j] - p[j]) + g[j] when momentum > 0 and new
weights[j] = w[j] + g[j] otherwise. -/
theorem single_reference_update (sqrtf : α → α) (comp : BiasANNComponent α)
    (e : TokenMemoryBlock α) (bv : Connections α)
    (hlr : 0 < comp.learning_rate) (herr : comp.error = some e)
    (hK : bv.num_references = 1) (h0 : bv.update_weights_calls = 0) :
    ∃ r, doUpdate sqrtf comp bv = .ok r ∧
      r.swapped = true ∧
      r.bias_vector.update_weights_calls = 0 ∧
      r.bias_vector.num_references = 1 ∧
      (∀ j, r.bias_vector.prev_weights j = bv.weights j) ∧
      (∀ j, j < comp.output_size → j < bv.total_size →
        r.bias_vector.weights j =
          if 0 < comp.momentum then
            bv.weights j + comp.momentum * (bv.weights j - bv.prev_weights j) +
              (-comp.learning_rate / sqrtf (comp.bunch_size : α)) *
                ∑ b in Finset.range comp.bunch_size, e.mem_block (j * comp.bunch_size + b)
          else
            bv.weights j +
              (-comp.learning_rate / sqrtf (comp.bunch_size : α)) *
                ∑ b in Finset.range comp.bunch_size, e.mem_block (j * comp.bunch_size + b)) := by
  obtain ⟨hw, hts, _, _, hnr, hcalls⟩ := doUpdateSeed_frame comp bv.beginUpdate
  have hfirst : bv.beginUpdate.isFirstUpdateCall = true := by
    simp [Connections.isFirstUpdateCall, Connections.beginUpdate, h0]
  have hlast : (doUpdateAccumulate sqrtf comp e.mem_block
      (doUpdateSeed comp bv.beginUpdate)).update_weights_calls =
      (doUpdateAccumulate sqrtf comp e.mem_block
        (doUpdateSeed comp bv.beginUpdate)).num_references := by
    show (doUpdateSeed comp bv.beginUpdate).update_weights_calls =
      (doUpdateSeed comp bv.beginUpdate).num_references
    rw [hcalls, hnr]
    simp [Connections.beginUpdate, h0, hK]
  refine ⟨_, doUpdate_ok sqrtf comp e bv hlr herr, ?_, ?_, ?_, ?_, ?_⟩
  · simp only [Connections.endUpdate, if_pos hlast]
  · simp only [Connections.endUpdate, if_pos hlast]
  · simp only [Connections.endUpdate, if_pos hlast]
    show (doUpdateSeed comp bv.beginUpdate).num_references = 1
    rw [hnr]
    exact hK
  · intro j
    simp only [Connections.endUpdate, if_pos hlast]
    show (doUpdateSeed comp bv.beginUpdate).weights j = bv.weights j
    rw [hw]
    rfl
  · intro j hj hjt
    simp only [Connections.endUpdate, if_pos hlast]
    rw [doUpdateAccumulate_apply, if_pos hj, hnr]
    have hone : bv.beginUpdate.num_references * comp.bunch_size = comp.bunch_size := by
      show bv.num_references * comp.bunch_size = comp.bunch_size
      rw [hK, Nat.one_mul]
    rw [hone]
    have hjt2 : j < bv.beginUpdate.total_size := hjt
    unfold doUpdateSeed
    rw [if_pos hfirst]
    by_cases hm : 0 < comp.momentum
    · have hm2 : comp.momentum > 0 := hm
      rw [if_pos hm2, if_pos hm, momentum_then_decay, if_pos hjt2]
      show -comp.momentum * (bv.prev_weights j - bv.weights j) + 1 * bv.weights j + _ = _
      ring
    · have hm2 : ¬ comp.momentum > 0 := hm
      rw [if_neg hm2, if_neg hm, copyToPrevVector_apply, if_pos hjt2]
      rfl

/-- A component with learning rate 1/2 and momentum 1/2, bunch size 1, on an
unshared matrix of two biases. -/
theorem single_reference_update_witness :
    ∃ r, doUpdate ratSqrt exampleSingle exampleBiasVector = .ok r ∧
      r.swapped = true ∧
      r.bias_vector.update_weights_calls = 0 ∧
      r.bias_vector.num_references = 1 ∧
      (∀ j, r.bias_vector.prev_weights j = exampleBiasVector.weights j) ∧
      (∀ j, j < exampleSingle.output_size → j < exampleBiasVector.total_size →
        r.bias_vector.weights j =
          if 0 < exampleSingle.momentum then
            exampleBiasVector.weights j +
              exampleSingle.momentum *
                (exampleBiasVector.weights j - exampleBiasVector.prev_weights j) +
              (-exampleSingle.learning_rate / ratSqrt (exampleSingle.bunch_size : ℚ)) *
                ∑ b in Finset.range exampleSingle.bunch_size,
                  exampleSingleError.mem_block (j * exampleSingle.bunch_size + b)
          else
            exampleBiasVector.weights j +
              (-exampleSingle.learning_rate / ratSqrt (exampleSingle.bunch_size : ℚ)) *
                ∑ b in Finset.range exampleSingle.bunch_size,
                  exampleSingleError.mem_block (j * exampleSingle.bunch_size + b)) :=
  single_reference_update ratSqrt exampleSingle exampleSingleError exampleBiasVector
    (by norm_num [exampleSingle]) rfl rfl rfl

end BiasANNComponent

section Counters

variable {α : Type}

/-- Claim C30: beginUpdate adds exactly one to update_weights_calls and changes
nothing else: the contents of the weights and staging buffers (so it does not
seed the staging buffer), the reference count and the sizes are those before
the call. isFirstUpdateCall and getNumReferences are reads of the state (the
comparison of update_weights_calls with 1, and num_references) that give back
no new state. -/
theorem Connections.beginUpdate_frame (c : Connections α) :
    c.beginUpdate = { c with update_weights_calls := c.update_weights_calls + 1 } ∧
    c.beginUpdate.update_weights_calls = c.update_weights_calls + 1 ∧
    c.beginUpdate.weights = c.weights ∧
    c.beginUpdate.prev_weights = c.prev_weights ∧
    c.beginUpdate.num_references = c.num_references ∧
    c.beginUpdate.total_size = c.total_size ∧
    c.beginUpdate.num_inputs = c.num_inputs ∧
    c.beginUpdate.num_outputs = c.num_outputs ∧
    (c.isFirstUpdateCall = true ↔ c.update_weights_calls = 1) ∧
    c.getNumReferences = c.num_references := by
  refine ⟨rfl, rfl, rfl, rfl, rfl, rfl, rfl, rfl, ?_, rfl⟩
  simp [Connections.isFirstUpdateCall]

end Counters

/-! ### Activation functions -/

section Activation

variable {α : Type}

/-- Claim C21 (as amended): for a softmax activation instance whose vector size
has been fixed to s > 0 (a first call on the accelerator path with s units
fixes it and allocates the three scratch buffers), every later call on the
accelerator path (use_cuda = true) with a size different from s is a fatal
error; every later call with size s, and every later call on the host path
whatever its size, is accepted, runs the kernel, and leaves the stored size and
the scratch buffers as they are. -/
theorem SoftmaxActivationFunction.size_fixed_on_accelerator (ceilingPowerOfTwo : Nat → Nat)
    (kernel : (Nat → α) → Option Nat → Option Nat → Option Nat → Nat → ANNConfiguration →
      Bool → (Nat → α))
    (self : SoftmaxActivationFunction) (hs : self.size ≠ 0) :
    (∀ units n conf, n ≠ self.size →
      SoftmaxActivationFunction.applyActivation ceilingPowerOfTwo kernel self units n conf true =
        .error .softmaxSizeChanged) ∧
    (∀ units conf use_cuda,
      SoftmaxActivationFunction.applyActivation ceilingPowerOfTwo kernel self units self.size
          conf use_cuda =
        .ok (kernel units self.minimums self.maximums self.sums self.size conf use_cuda, self)) ∧
    (∀ units n conf,
      SoftmaxActivationFunction.applyActivation ceilingPowerOfTwo kernel self units n conf false =
        .ok (kernel units self.minimums self.maximums self.sums n conf false, self)) ∧
    (∀ units conf,
      ∃ u st, SoftmaxActivationFunction.applyActivation ceilingPowerOfTwo kernel
          SoftmaxActivationFunction.new units self.size conf true = .ok (u, st) ∧
        st.size = self.size ∧
        st.minimums = some ((ceilingPowerOfTwo self.size >>> 1) * conf.max_bunch_size) ∧
        st.maximums = some ((ceilingPowerOfTwo self.size >>> 1) * conf.max_bunch_size) ∧
        st.sums = some ((ceilingPowerOfTwo self.size >>> 1) * conf.max_bunch_size)) := by
  refine ⟨fun units n conf hn => ?_, fun units conf use_cuda => ?_, fun units n conf => ?_,
    fun units conf => ⟨_, _, rfl, rfl, rfl, rfl, rfl⟩⟩
  · have hn2 : ¬ self.size = n := fun h => hn h.symm
    simp [SoftmaxActivationFunction.applyActivation, hs, hn2]
  · cases use_cuda <;> simp [SoftmaxActivationFunction.applyActivation, hs]
  · simp [SoftmaxActivationFunction.applyActivation]

/-- An instance whose size was fixed to 3. -/
theorem SoftmaxActivationFunction.size_fixed_on_accelerator_witness :
    (∀ units n conf, n ≠ exampleSoftmax.size →
      SoftmaxActivationFunction.applyActivation exampleCeilingPowerOfTwo exampleSoftmaxKernel
          exampleSoftmax units n conf true = .error .softmaxSizeChanged) ∧
    (∀ units conf use_cuda,
      SoftmaxActivationFunction.applyActivation exampleCeilingPowerOfTwo exampleSoftmaxKernel
          exampleSoftmax units exampleSoftmax.size conf use_cuda =
        .ok (exampleSoftmaxKernel units exampleSoftmax.minimums exampleSoftmax.maximums
          exampleSoftmax.sums exampleSoftmax.size conf use_cuda, exampleSoftmax)) ∧
    (∀ units n conf,
      SoftmaxActivationFunction.applyActivation exampleCeilingPowerOfTwo exampleSoftmaxKernel
          exampleSoftmax units n conf false =
        .ok (exampleSoftmaxKernel units exampleSoftmax.minimums exampleSoftmax.maximums
          exampleSoftmax.sums n conf false, exampleSoftmax)) ∧
    (∀ units conf,
      ∃ u st, SoftmaxActivationFunction.applyActivation exampleCeilingPowerOfTwo
          exampleSoftmaxKernel SoftmaxActivationFunction.new units exampleSoftmax.size conf
          true = .ok (u, st) ∧
        st.size = exampleSoftmax.size ∧
        st.minimums =
          some ((exampleCeilingPowerOfTwo exampleSoftmax.size >>> 1) * conf.max_bunch_size) ∧
        st.maximums =
          some ((exampleCeilingPowerOfTwo exampleSoftmax.size >>> 1) * conf.max_bunch_size) ∧
        st.sums =
          some ((exampleCeilingPowerOfTwo exampleSoftmax.size >>> 1) * conf.max_bunch_size)) :=
  SoftmaxActivationFunction.size_fixed_on_accelerator exampleCeilingPowerOfTwo
    exampleSoftmaxKernel exampleSoftmax (by decide)

/-- A first call on the accelerator path with 3 units fixes the size of a new
softmax instance to 3; a later call on the host path with 4 units is accepted
all the same and leaves the instance as it is. -/
theorem SoftmaxActivationFunction.host_call_accepts_other_size :
    ∃ u st,
      SoftmaxActivationFunction.applyActivation exampleCeilingPowerOfTwo exampleSoftmaxKernel
          SoftmaxActivationFunction.new (fun _ => 0) 3
          { cur_bunch_size := 1, max_bunch_size := 2 } true = .ok (u, st) ∧
      st.size = 3 ∧
      SoftmaxActivationFunction.applyActivation exampleCeilingPowerOfTwo exampleSoftmaxKernel
          st u 4 { cur_bunch_size := 1, max_bunch_size := 2 } false = .ok (u, st) :=
  ⟨_, _, rfl, rfl, rfl⟩

end Activation

namespace BinarySamplingActivationFunction

/-- Claim C22: a call of applyActivation on the accelerator path (use_cuda =
true) with one unit whose value is 5, bunch sizes 1, whatever the exponential
and the generator: the message is printed and the call goes on, the unit is
overwritten by a sample (0 or 1) and the generator has given one draw. -/
theorem accelerator_path_samples_all_the_same (exp : ℚ → ℚ) (rnd : Nat → ℚ) :
    (applyActivation exp rnd 0 (fun _ => 5) 1
        { cur_bunch_size := 1, max_bunch_size := 1 } true).error_printed = true ∧
    (applyActivation exp rnd 0 (fun _ => 5) 1
        { cur_bunch_size := 1, max_bunch_size := 1 } true).units 0 =
      (if rnd 0 < sigmoid exp 1 5 then 1 else 0) ∧
    (applyActivation exp rnd 0 (fun _ => 5) 1
        { cur_bunch_size := 1, max_bunch_size := 1 } true).units 0 ≠ 5 ∧
    (applyActivation exp rnd 0 (fun _ => 5) 1
        { cur_bunch_size := 1, max_bunch_size := 1 } true).drawn = 1 := by
  have h : (applyActivation exp rnd 0 (fun _ => 5) 1
        { cur_bunch_size := 1, max_bunch_size := 1 } true).units 0 =
      (if rnd 0 < sigmoid exp 1 5 then 1 else 0) := by
    simp [applyActivation, forLoop, sampleOne, store]
  refine ⟨rfl, h, ?_, rfl⟩
  rw [h]
  split <;> norm_num

/-- Claim C23: a call of applyActivation on the host path with one unit, current
and maximum bunch size 2 and a buffer holding 5 in every slot, whatever the
exponential and the generator: slot 1 (unit 0 of bunch element 1) still holds
5, slot 0 was sampled twice, the second time with the probability sigmoid of
the first sample, and the generator has given two draws. -/
theorem host_path_samples_one_slot_per_unit (exp : ℚ → ℚ) (rnd : Nat → ℚ) :
    (applyActivation exp rnd 0 (fun _ => 5) 1
        { cur_bunch_size := 2, max_bunch_size := 2 } false).units 1 = 5 ∧
    (applyActivation exp rnd 0 (fun _ => 5) 1
        { cur_bunch_size := 2, max_bunch_size := 2 } false).units 0 =
      (if rnd 1 < sigmoid exp 1 (if rnd 0 < sigmoid exp 1 5 then 1 else 0) then 1 else 0) ∧
    (applyActivation exp rnd 0 (fun _ => 5) 1
        { cur_bunch_size := 2, max_bunch_size := 2 } false).drawn = 2 := by
  refine ⟨?_, ?_, rfl⟩ <;> simp [applyActivation, forLoop, sampleOne, store]

end BinarySamplingActivationFunction

/-! ### Loss functions -/

section Loss

variable {α : Type} [LinearOrderedField α]

theorem MSELossFunction.mse_addLoss_ok
    (k : (Nat → α) → (Nat → α) → α → Nat → Nat → Bool → α) (self : MSELossFunction α)
    (i t : TokenMemoryBlock α) (cuda_flag : Bool) (hu : i.used_size = t.used_size)
    (hin : self.input.isWild = false) :
    MSELossFunction.addLoss k self (.memBlock i) (.memBlock t) cuda_flag =
      .ok (k i.mem_block t.mem_block 0 self.size (i.used_size / self.size) cuda_flag * (1 / 2) /
            ((i.used_size / self.size : Nat) : α),
        { self with
          input := .token (.memBlock i)
          accumulated_loss := self.accumulated_loss +
            k i.mem_block t.mem_block 0 self.size (i.used_size / self.size) cuda_flag * (1 / 2) /
              ((i.used_size / self.size : Nat) : α) }) := by
  simp [MSELossFunction.addLoss, hu, hin, mul_div_assoc]

theorem MAELossFunction.mae_addLoss_ok
    (k : (Nat → α) → (Nat → α) → α → Nat → Nat → Bool → α) (self : MAELossFunction α)
    (i t : TokenMemoryBlock α) (cuda_flag : Bool) (hu : i.used_size = t.used_size) :
    MAELossFunction.addLoss k self (.memBlock i) (.memBlock t) cuda_flag =
      .ok (k i.mem_block t.mem_block 0 self.size (i.used_size / self.size) cuda_flag /
            ((i.used_size / self.size : Nat) : α),
        { self with
          accumulated_loss := self.accumulated_loss +
            k i.mem_block t.mem_block 0 self.size (i.used_size / self.size) cuda_flag /
              ((i.used_size / self.size : Nat) : α)
          N := self.N + 1 }) := by
  simp [MAELossFunction.addLoss, hu]

theorem MSELossFunction.mse_addLoss_wild
    (k : (Nat → α) → (Nat → α) → α → Nat → Nat → Bool → α) (self : MSELossFunction α)
    (i t : TokenMemoryBlock α) (cuda_flag : Bool) (hin : self.input.isWild = true) :
    MSELossFunction.addLoss k self (.memBlock i) (.memBlock t) cuda_flag =
      .error (.wildPointer, self) := by
  simp [MSELossFunction.addLoss, hin]

/-- Claim C24: an MSELossFunction of vector size 2 as its constructor leaves it
when the memory of the object did not hold zero, and addLoss on an output and a
target memory-block token of used size 4 (bunch size 2), whatever the kernel:
the call does not return the kernel sum times 0.5 / 2; it ends at the DecRef
through the member input, which no code has initialised, and accumulated_loss
is still 0. The MAE loss function, which has no such member, returns the
kernel sum divided by 2 on the same tokens. -/
theorem mse_addLoss_reads_uninitialised_input
    (kMSE kMAE : (Nat → ℚ) → (Nat → ℚ) → ℚ → Nat → Nat → Bool → ℚ) :
    ∃ self, MSELossFunction.new 2 (fun _ => (0 : ℚ)) false = .ok self ∧
      exampleLossInput.used_size = exampleLossTarget.used_size ∧
      exampleLossInput.used_size / self.size = 2 ∧
      MSELossFunction.addLoss kMSE self (.memBlock exampleLossInput)
          (.memBlock exampleLossTarget) false = .error (.wildPointer, self) ∧
      self.accumulated_loss = 0 ∧
      ∃ r, MAELossFunction.addLoss kMAE exampleMAE (.memBlock exampleLossInput)
          (.memBlock exampleLossTarget) false = .ok r ∧
        r.1 = kMAE exampleLossInput.mem_block exampleLossTarget.mem_block 0 2 2 false / 2 := by
  refine ⟨_, rfl, rfl, rfl, rfl, rfl, _,
    MAELossFunction.mae_addLoss_ok kMAE exampleMAE exampleLossInput exampleLossTarget
      false rfl, ?_⟩
  norm_num [exampleMAE, exampleLossInput, exampleLossTarget]

theorem exampleLoss_values :
    exampleMSEKernel exampleLossInput.mem_block exampleLossTarget.mem_block 0
        exampleMSE.size (exampleLossInput.used_size / exampleMSE.size) false * (1 / 2) /
        ((exampleLossInput.used_size / exampleMSE.size : Nat) : ℚ) = 7 / 2 ∧
    exampleMAEKernel exampleLossInput.mem_block exampleLossTarget.mem_block 0
        exampleMAE.size (exampleLossInput.used_size / exampleMAE.size) false /
        ((exampleLossInput.used_size / exampleMAE.size : Nat) : ℚ) = 3 := by
  constructor <;>
    norm_num [exampleMSEKernel, exampleMAEKernel, exampleLossInput, exampleLossTarget,
      exampleMSE, exampleMAE, Finset.sum_range_succ]

end Loss

section LossGradientFrame

variable {α : Type}

theorem MAELossFunction.computeGradient_used_size
    (k : (Nat → α) → (Nat → α) → (Nat → α) → α → Nat → Nat → Bool → (Nat → α))
    (nz : α) (self : MAELossFunction α) (i t : TokenMemoryBlock α) (cuda_flag : Bool)
    (fresh : Nat → α) (hu : i.used_size = t.used_size) :
    ∃ r, MAELossFunction.computeGradient k nz self (.memBlock i) (.memBlock t) cuda_flag fresh =
        .ok r ∧
      r.1.used_size = i.used_size ∧
      r.2.error_output = some r.1 ∧
      r.2.accumulated_loss = self.accumulated_loss ∧ r.2.N = self.N ∧ r.2.size = self.size := by
  have hne : ¬ (i.used_size ≠ t.used_size) := fun h => h hu
  exact ⟨_, by simp only [MAELossFunction.computeGradient]; rw [if_neg hne],
    rfl, rfl, rfl, rfl, rfl⟩

end LossGradientFrame

section LossGradient

variable {α : Type} [LinearOrderedField α]

theorem MSELossFunction.computeGrandient_used_size
    (k : (Nat → α) → (Nat → α) → (Nat → α) → α → Nat → Nat → Bool → (Nat → α))
    (self : MSELossFunction α) (i t : TokenMemoryBlock α) (cuda_flag : Bool) (fresh : Nat → α)
    (hu : i.used_size = t.used_size) (hin : self.input.isWild = false) :
    ∃ r, MSELossFunction.computeGrandient k self (.memBlock i) (.memBlock t) cuda_flag fresh =
        .ok r ∧
      r.1.used_size = i.used_size / self.size ∧
      r.2.accumulated_loss = self.accumulated_loss := by
  have hne : ¬ (i.used_size ≠ t.used_size) := fun h => h hu
  refine ⟨_, by
    simp only [MSELossFunction.computeGrandient, hin, Bool.false_eq_true, if_false]
    rw [if_neg hne], ?_, rfl⟩
  simp only [TokenMemoryBlock.resize]
  split <;> rfl

/-- Claim C26: the gradient of the MSE loss function of vector size 2 on an
output and a target token of used size 4 (bunch size 2), whatever the kernels:
the call succeeds and the error token it returns has used size 2, the bunch
size, and not 4; the MAE loss function on the same tokens returns an error
token of used size 4. -/
theorem mse_error_token_holds_bunch_size_elements
    (kMSE kMAE : (Nat → ℚ) → (Nat → ℚ) → (Nat → ℚ) → ℚ → Nat → Nat → Bool → (Nat → ℚ))
    (nz : ℚ) :
    exampleLossInput.used_size = 4 ∧ exampleLossTarget.used_size = 4 ∧
    (∃ r, MSELossFunction.computeGrandient kMSE exampleMSE (.memBlock exampleLossInput)
        (.memBlock exampleLossTarget) false (fun _ => 0) = .ok r ∧
      r.1.used_size = 2) ∧
    (∃ r, MAELossFunction.computeGradient kMAE nz exampleMAE (.memBlock exampleLossInput)
        (.memBlock exampleLossTarget) false (fun _ => 0) = .ok r ∧
      r.1.used_size = 4) :=
  ⟨rfl, rfl, ⟨_, rfl, rfl⟩, ⟨_, rfl, rfl⟩⟩

theorem loss_token_checks
    (kMSE kMAE : (Nat → α) → (Nat → α) → α → Nat → Nat → Bool → α)
    (gMSE gMAE : (Nat → α) → (Nat → α) → (Nat → α) → α → Nat → Nat → Bool → (Nat → α))
    (nz : α) (mse : MSELossFunction α) (mae : MAELossFunction α) (input target : Token α)
    (cuda_flag : Bool) (fresh : Nat → α) :
    (Token.equalSizedBlocks input target = true →
      (mse.input.isWild = false →
        (∃ r, MSELossFunction.addLoss kMSE mse input target cuda_flag = .ok r) ∧
        (∃ r, MSELossFunction.computeGrandient gMSE mse input target cuda_flag fresh =
          .ok r)) ∧
      (mse.input.isWild = true →
        MSELossFunction.addLoss kMSE mse input target cuda_flag = .error (.wildPointer, mse) ∧
        MSELossFunction.computeGrandient gMSE mse input target cuda_flag fresh =
          .error (.wildPointer, mse)) ∧
      (∃ r, MAELossFunction.addLoss kMAE mae input target cuda_flag = .ok r) ∧
      (∃ r, MAELossFunction.computeGradient gMAE nz mae input target cuda_flag fresh = .ok r)) ∧
    (Token.equalSizedBlocks input target = false →
      (∃ e s, MSELossFunction.addLoss kMSE mse input target cuda_flag = .error (e, s) ∧
        s.accumulated_loss = mse.accumulated_loss) ∧
      (∃ e s, MSELossFunction.computeGrandient gMSE mse input target cuda_flag fresh =
          .error (e, s) ∧
        s.accumulated_loss = mse.accumulated_loss) ∧
      (∃ e s, MAELossFunction.addLoss kMAE mae input target cuda_flag = .error (e, s) ∧
        s.accumulated_loss = mae.accumulated_loss ∧ s.N = mae.N) ∧
      (∃ e s, MAELossFunction.computeGradient gMAE nz mae input target cuda_flag fresh =
          .error (e, s) ∧
        s.accumulated_loss = mae.accumulated_loss ∧ s.N = mae.N)) := by
  cases input with
  | other c =>
    refine ⟨fun h => by simp [Token.equalSizedBlocks] at h, fun _ => ?_⟩
    exact ⟨⟨_, _, rfl, rfl⟩, ⟨_, _, rfl, rfl⟩, ⟨_, _, rfl, rfl, rfl⟩, ⟨_, _, rfl, rfl, rfl⟩⟩
  | memBlock i =>
    cases target with
    | other c =>
      refine ⟨fun h => by simp [Token.equalSizedBlocks] at h, fun _ => ?_⟩
      exact ⟨⟨_, _, rfl, rfl⟩, ⟨_, _, rfl, rfl⟩, ⟨_, _, rfl, rfl, rfl⟩, ⟨_, _, rfl, rfl, rfl⟩⟩
    | memBlock t =>
      constructor
      · intro h
        have hu : i.used_size = t.used_size := by simpa [Token.equalSizedBlocks] using h
        refine ⟨fun hin => ⟨⟨_, MSELossFunction.mse_addLoss_ok kMSE mse i t cuda_flag hu hin⟩,
          ?_⟩, fun hin => ⟨MSELossFunction.mse_addLoss_wild kMSE mse i t cuda_flag hin, ?_⟩,
          ⟨_, MAELossFunction.mae_addLoss_ok kMAE mae i t cuda_flag hu⟩, ?_⟩
        · obtain ⟨r, hr, _⟩ :=
            MSELossFunction.computeGrandient_used_size gMSE mse i t cuda_flag fresh hu hin
          exact ⟨r, hr⟩
        · simp [MSELossFunction.computeGrandient, hin]
        · obtain ⟨r, hr, _⟩ :=
            MAELossFunction.computeGradient_used_size gMAE nz mae i t cuda_flag fresh hu
          exact ⟨r, hr⟩
      · intro h
        have hu : i.used_size ≠ t.used_size := by simpa [Token.equalSizedBlocks] using h
        refine ⟨?_, ?_, ⟨.differentTokenSizes, mae, ?_, rfl, rfl⟩,
          ⟨.differentTokenSizes, mae, ?_, rfl, rfl⟩⟩
        · cases hin : mse.input.isWild with
          | true => exact ⟨_, _, MSELossFunction.mse_addLoss_wild kMSE mse i t cuda_flag hin, rfl⟩
          | false =>
            exact ⟨.differentTokenSizes, { mse with input := .token (.memBlock i) },
              by simp [MSELossFunction.addLoss, hu, hin], rfl⟩
        · cases hin : mse.input.isWild with
          | true =>
            exact ⟨.wildPointer, mse, by simp [MSELossFunction.computeGrandient, hin], rfl⟩
          | false =>
            exact ⟨.differentTokenSizes, { mse with input := .token (.memBlock i) },
              by simp [MSELossFunction.computeGrandient, hu, hin], rfl⟩
        · simp [MAELossFunction.addLoss, hu]
        · simp [MAELossFunction.computeGradient, hu]

/-- Claim C27: an MSELossFunction of vector size 2 as its constructor leaves it
when the memory of the object did not hold zero, and an output and a target
memory-block token of equal used sizes, whatever the kernels: neither addLoss
nor the gradient computation succeeds; each ends at the DecRef through the
member input, which no code has initialised. -/
theorem mse_calls_on_new_object_fail
    (kMSE : (Nat → ℚ) → (Nat → ℚ) → ℚ → Nat → Nat → Bool → ℚ)
    (gMSE : (Nat → ℚ) → (Nat → ℚ) → (Nat → ℚ) → ℚ → Nat → Nat → Bool → (Nat → ℚ)) :
    ∃ self, MSELossFunction.new 2 (fun _ => (0 : ℚ)) false = .ok self ∧
      Token.equalSizedBlocks (.memBlock exampleLossInput) (.memBlock exampleLossTarget) = true ∧
      (∀ r, MSELossFunction.addLoss kMSE self (.memBlock exampleLossInput)
        (.memBlock exampleLossTarget) false ≠ .ok r) ∧
      (∀ r, MSELossFunction.computeGrandient gMSE self (.memBlock exampleLossInput)
        (.memBlock exampleLossTarget) false (fun _ => 0) ≠ .ok r) := by
  obtain ⟨self, hself, hwild⟩ : ∃ self, MSELossFunction.new 2 (fun _ => (0 : ℚ)) false =
      .ok self ∧ self.input.isWild = true := ⟨_, rfl, rfl⟩
  refine ⟨self, hself, rfl, fun r h => ?_, fun r h => ?_⟩
  · rw [MSELossFunction.mse_addLoss_wild kMSE self exampleLossInput exampleLossTarget false
      hwild] at h
    cases h
  · simp [MSELossFunction.computeGrandient, hwild] at h

/-- Claim C28: after reset, whatever the state before: MAE has accumulated_loss
= 0, N = 0 and error_output null; the reset of the base class leaves
error_output null; MSE has accumulated_loss = 0 and every element of its error
block (the max_size elements of the block of error_mem_block) is 0, the sizes
of the token being those before; the expected vector size is unchanged in all
three. -/
theorem reset_clears (base : LossFunction α) (mse : MSELossFunction α)
    (mae : MAELossFunction α) (cuda_flag : Bool) :
    (base.reset.error_output = none ∧ base.reset.size = base.size) ∧
    (mae.reset.accumulated_loss = 0 ∧ mae.reset.N = 0 ∧ mae.reset.error_output = none ∧
      mae.reset.size = mae.size) ∧
    ((mse.reset cuda_flag).accumulated_loss = 0 ∧
      (∀ k, k < mse.error_mem_block.max_size →
        (mse.reset cuda_flag).error_mem_block.mem_block k = 0) ∧
      (mse.reset cuda_flag).error_mem_block.max_size = mse.error_mem_block.max_size ∧
      (mse.reset cuda_flag).error_mem_block.used_size = mse.error_mem_block.used_size ∧
      (mse.reset cuda_flag).size = mse.size) := by
  refine ⟨⟨rfl, rfl⟩, ⟨rfl, rfl, rfl, rfl⟩, rfl, fun k hk => ?_, rfl, rfl, rfl⟩
  show doVectorSetToZero mse.error_mem_block.mem_block mse.error_mem_block.max_size 1 0
    cuda_flag k = 0
  rw [doVectorSetToZero_unit, if_pos hk]

end LossGradient

/-! ### The indices `randomizeWeights` visits -/

section RandomOrder

end RandomOrder

namespace Connections

variable {α : Type} [LinearOrderedField α]

end Connections

namespace Connections

variable {α : Type} [LinearOrderedField α]

end Connections

/-! ### Building one component again, and the dictionary of weights -/

section Rebuild

open BiasANNComponent

/-- Claim C32: a component not bound yet, built twice with sizes 3 and 3 against
one dictionary in which its weights name is absent at the start. The first
build succeeds: it creates the matrix, enters its address in the dictionary and
leaves it with reference count 1 and the component as its one holder. The
second build does not succeed and no reference count becomes 2: the component
gives up its hold before it looks the name up, so the matrix is deleted while
the dictionary still holds its address, and the build goes on to use the
deleted matrix. -/
theorem BiasANNComponent.rebuild_deletes_the_bound_matrix :
    ∃ built memory2 weights_dict2,
      build baseBuildBind (BiasANNComponent.new "bias" "b1" false (fun _ => (0 : ℚ))) 3 3
          exampleMemory (fun _ => none) () (fun _ => 0) (fun _ => 0) =
        .ok (built, memory2, weights_dict2, ()) ∧
      built.bias_vector = some 0 ∧ weights_dict2 "b1" = some 0 ∧
      (memory2.conn 0).num_references = 1 ∧
      memory2.holders 0 = 1 ∧ memory2.deleted 0 = false ∧
      (built.releaseBound memory2).deleted 0 = true ∧
      build baseBuildBind built 3 3 memory2 weights_dict2 () (fun _ => 0) (fun _ => 0) =
        .error .deletedMatrix ∧
      buildTimes baseBuildBind 3 3 (fun _ => (0 : ℚ)) (fun _ => 0) 2
          (BiasANNComponent.new "bias" "b1" false (fun _ => 0)) exampleMemory
          (fun _ => none) () = .error .deletedMatrix :=
  ⟨_, _, _, rfl, rfl, rfl, rfl, rfl, rfl, rfl, rfl, rfl⟩

end Rebuild

/-! ### The indices the sampling loops use, and `copyWeights` -/

section SamplingAccess

variable {α : Type}

theorem sampling_inner_accessed (c i : Nat) (f : SamplingLoopState α → Nat → α)
    (g : SamplingLoopState α → Nat) (s : SamplingLoopState α) :
    (forLoop c (fun _ (s : SamplingLoopState α) =>
        { s with units := f s, drawn := g s, accessed := s.accessed ++ [s.pos + i] }) s).pos =
      s.pos ∧
    (forLoop c (fun _ (s : SamplingLoopState α) =>
        { s with units := f s, drawn := g s, accessed := s.accessed ++ [s.pos + i] })
        s).accessed =
      s.accessed ++ List.replicate c (s.pos + i) := by
  induction c with
  | zero => simp [forLoop]
  | succ m ih =>
    rw [forLoop_succ]
    obtain ⟨h1, h2⟩ := ih
    refine ⟨h1, ?_⟩
    simp only [h1, h2, List.replicate_succ', List.append_assoc]

theorem sampling_outer_accessed (n c m : Nat) (f : Nat → SamplingLoopState α → Nat → α)
    (g : Nat → SamplingLoopState α → Nat) (s : SamplingLoopState α) :
    (forLoop n (fun i (s : SamplingLoopState α) =>
        { forLoop c (fun _ (s : SamplingLoopState α) =>
            { s with units := f i s, drawn := g i s, accessed := s.accessed ++ [s.pos + i] }) s
          with pos := (forLoop c (fun _ (s : SamplingLoopState α) =>
            { s with units := f i s, drawn := g i s, accessed := s.accessed ++ [s.pos + i] })
            s).pos + m }) s).pos = s.pos + n * m ∧
    (forLoop n (fun i (s : SamplingLoopState α) =>
        { forLoop c (fun _ (s : SamplingLoopState α) =>
            { s with units := f i s, drawn := g i s, accessed := s.accessed ++ [s.pos + i] }) s
          with pos := (forLoop c (fun _ (s : SamplingLoopState α) =>
            { s with units := f i s, drawn := g i s, accessed := s.accessed ++ [s.pos + i] })
            s).pos + m }) s).accessed =
      s.accessed ++
        (List.range n).flatMap (fun i => List.replicate c (s.pos + i * m + i)) := by
  induction n with
  | zero => simp [forLoop]
  | succ k ih =>
    rw [forLoop_succ]
    obtain ⟨h1, h2⟩ := ih
    obtain ⟨e1, e2⟩ := sampling_inner_accessed c k (f k) (g k)
      (forLoop k (fun i (s : SamplingLoopState α) =>
        { forLoop c (fun _ (s : SamplingLoopState α) =>
            { s with units := f i s, drawn := g i s, accessed := s.accessed ++ [s.pos + i] }) s
          with pos := (forLoop c (fun _ (s : SamplingLoopState α) =>
            { s with units := f i s, drawn := g i s, accessed := s.accessed ++ [s.pos + i] })
            s).pos + m }) s)
    constructor
    · simp only [e1, h1]
      ring
    · simp only [e2, h1, h2, List.range_succ, List.flatMap_append, List.flatMap_cons,
        List.flatMap_nil, List.append_nil, List.append_assoc]

theorem BinarySamplingActivationFunction.randomize_accessed (rnd : Nat → α) (drawn : Nat) (units : Nat → α)
    (n : Nat) (conf : ANNConfiguration) (use_cuda : Bool) :
    (BinarySamplingActivationFunction.randomize rnd drawn units n conf use_cuda).accessed =
      (List.range n).flatMap
        (fun i => List.replicate conf.cur_bunch_size (i * conf.max_bunch_size + i)) := by
  have h := (sampling_outer_accessed n conf.cur_bunch_size conf.max_bunch_size
    (fun i (s : SamplingLoopState α) => store s.units (s.pos + i) (rnd s.drawn))
    (fun _ (s : SamplingLoopState α) => s.drawn + 1)
    { units := units, pos := 0, drawn := drawn, accessed := [] }).2
  simp only [List.nil_append, Nat.zero_add] at h
  exact h

end SamplingAccess

namespace BinarySamplingActivationFunction

variable {α : Type} [LinearOrderedField α]

theorem applyActivation_accessed (exp : α → α) (rnd : Nat → α) (drawn : Nat) (units : Nat → α)
    (n : Nat) (conf : ANNConfiguration) (use_cuda : Bool) :
    (applyActivation exp rnd drawn units n conf use_cuda).accessed =
      (List.range n).flatMap
        (fun i => List.replicate conf.cur_bunch_size (i * conf.max_bunch_size + i)) := by
  have h := (sampling_outer_accessed n conf.cur_bunch_size conf.max_bunch_size
    (fun i (s : SamplingLoopState α) =>
      store s.units (s.pos + i) (sampleOne rnd s.drawn (sigmoid exp 1 (s.units (s.pos + i)))).1)
    (fun i (s : SamplingLoopState α) =>
      (sampleOne rnd s.drawn (sigmoid exp 1 (s.units (s.pos + i)))).2)
    { units := units, pos := 0, drawn := drawn, accessed := [] }).2
  simp only [List.nil_append, Nat.zero_add] at h
  exact h

theorem sampling_access_in_bounds_iff (n c m : Nat) (hn : 1 ≤ n) (hc : 1 ≤ c) :
    (∀ k ∈ (List.range n).flatMap (fun i => List.replicate c (i * m + i)), k < n * m) ↔
      n ≤ m := by
  constructor
  · intro h
    have hmem : (n - 1) * m + (n - 1) ∈
        (List.range n).flatMap (fun i => List.replicate c (i * m + i)) := by
      rw [List.mem_flatMap]
      exact ⟨n - 1, List.mem_range.mpr (by omega), by
        rw [List.mem_replicate]
        exact ⟨by omega, rfl⟩⟩
    have hlt := h _ hmem
    have hnm : n * m = (n - 1) * m + m := by
      obtain ⟨p, rfl⟩ : ∃ p, n = p + 1 := ⟨n - 1, by omega⟩
      simp only [Nat.add_sub_cancel]
      ring
    omega
  · intro hle k hk
    rw [List.mem_flatMap] at hk
    obtain ⟨i, hi, hki⟩ := hk
    have hi2 := List.mem_range.mp hi
    obtain rfl := (List.mem_replicate.mp hki).2
    have h1 : (i + 1) * m ≤ n * m := Nat.mul_le_mul_right m hi2
    have h2 : (i + 1) * m = i * m + m := by ring
    omega

/-- Claim C33: applyActivation and randomize on two units with current and
maximum bunch size 1 (a units buffer of 2 * 1 = 2 slots), whatever the buffer
holds, the exponential and the generator: both use the indices 0 and 2 of the
buffer, and 2 is not below the 2 slots of the buffer. -/
theorem sampling_access_past_the_buffer (exp : ℚ → ℚ) (rnd : Nat → ℚ) (units : Nat → ℚ) :
    (applyActivation exp rnd 0 units 2
        { cur_bunch_size := 1, max_bunch_size := 1 } false).accessed = [0, 2] ∧
    (randomize rnd 0 units 2 { cur_bunch_size := 1, max_bunch_size := 1 } false).accessed =
      [0, 2] ∧
    ¬ (2 < 2 * 1) := by
  refine ⟨?_, ?_, by decide⟩
  · rw [applyActivation_accessed]
    rfl
  · rw [randomize_accessed]
    rfl

end BinarySamplingActivationFunction

section CopyWeights

variable {α : Type}

/-- Claim C34: copyWeights fails (exit 100) on a component without a bound
matrix, and fails (exit 101) when the dictionary holds under weights_name a
matrix other than the component's own. Otherwise it succeeds, and afterwards
the dictionary maps weights_name to the component's own matrix: it is the
dictionary as it was when the name already held that matrix, and the same
dictionary with the one entry added when the name was absent. The memory, and
with it the reference count, update_weights_calls and the buffers of the
matrix, is in every case as before the call. -/
theorem BiasANNComponent.copyWeights_spec (comp : BiasANNComponent α) (memory : Memory α)
    (weights_dict : String → Option Nat) :
    (comp.bias_vector = none →
      comp.copyWeights memory weights_dict = .error .notBuilt) ∧
    (∀ bv w, comp.bias_vector = some bv → weights_dict comp.weights_name = some w → w ≠ bv →
      comp.copyWeights memory weights_dict = .error .weightsNotShared) ∧
    (∀ bv, comp.bias_vector = some bv → weights_dict comp.weights_name = some bv →
      comp.copyWeights memory weights_dict = .ok (memory, weights_dict)) ∧
    (∀ bv, comp.bias_vector = some bv → weights_dict comp.weights_name = none →
      ∃ wd2, comp.copyWeights memory weights_dict = .ok (memory, wd2) ∧
        wd2 comp.weights_name = some bv ∧
        ∀ key, key ≠ comp.weights_name → wd2 key = weights_dict key) ∧
    (∀ m2 wd2, comp.copyWeights memory weights_dict = .ok (m2, wd2) →
      m2 = memory ∧ wd2 comp.weights_name = comp.bias_vector ∧ comp.bias_vector ≠ none ∧
      ∀ key, key ≠ comp.weights_name → wd2 key = weights_dict key) := by
  refine ⟨fun h => ?_, fun bv w hbv hw hne => ?_, fun bv hbv hw => ?_, fun bv hbv hw => ?_,
    fun m2 wd2 h => ?_⟩
  · simp [BiasANNComponent.copyWeights, h]
  · simp [BiasANNComponent.copyWeights, hbv, hw, hne]
  · simp [BiasANNComponent.copyWeights, hbv, hw]
  · refine ⟨fun key => if key = comp.weights_name then some bv else weights_dict key,
      by simp only [BiasANNComponent.copyWeights, hbv, hw], by simp, fun key hkey => ?_⟩
    simp [hkey]
  · unfold BiasANNComponent.copyWeights at h
    cases hbv : comp.bias_vector with
    | none =>
      rw [hbv] at h
      cases h
    | some bv =>
      rw [hbv] at h
      cases hw : weights_dict comp.weights_name with
      | some w =>
        rw [hw] at h
        by_cases hne : w ≠ bv
        · simp [hne] at h
        · simp only [hne, if_false, Except.ok.injEq, Prod.mk.injEq] at h
          obtain ⟨rfl, rfl⟩ := h
          have hwb : w = bv := not_not.mp hne
          exact ⟨rfl, by rw [hw, hwb], by simp, fun _ _ => rfl⟩
      | none =>
        rw [hw] at h
        simp only [Except.ok.injEq, Prod.mk.injEq] at h
        obtain ⟨rfl, rfl⟩ := h
        exact ⟨rfl, by simp, by simp, fun key hkey => by simp [hkey]⟩

end CopyWeights

end ANN
